import Mathlib

/-!
# aws_quotas_checker: usage reconciliation and alarm evaluation

A shallow embedding of the Go packages `utils`, `quotas` and `runner`.

* A Go `map[string]V` is the list of its entries (`GoMap V`), keys pairwise
  distinct (`GoMap.WF`).  A `range` over a map visits the entries in an order
  chosen by the runtime: the functions whose result depends on that order take
  the enumeration as an argument, and `GoMap.IsEnum` says that it is an
  enumeration of the map.
* Go `int` is `Int`: the code does no integer arithmetic on the values, it only
  converts them to `float64`.  The theorems hold for every `Int`, the 64-bit
  ones among them.
* A `float64` is `F64`: a rational, an infinity or NaN.  A conversion, a product
  and a quotient are rounded to binary64 (`F64.round`: to nearest, ties to even,
  53 significant bits, subnormals, overflow to an infinity).  The sign of zero is
  not modelled: the only divisor that can be zero is the conversion of an `int`,
  which is never the negative zero.
* The conversion `int(x)` of a `float64` outside the range of the 64-bit `int` is
  implementation-defined in Go; `F64.toInt` gives what amd64 gives, the least
  `int`.
* A pointer that may be nil is an `Option`; a nil dereference and `os.Exit`
  end the run with a `Crash`.  The pointer fields of the SDK's quota records
  are taken as set, and the service clients are left out of the Runner: their
  answers are the fields of `Runner.Env`.
* An `error` is the string of its message; a Go result pair `ptr, err` is an
  `Except String`.
* What AWS answers is a parameter of the call that asks: `Aws` and
  `servicequotas.Client` for the catalog, `Runner.Sessions` for the sessions of
  `NewRunner`, `Runner.Env` for the usage collection, `cloudwatch.Api` for the
  metric source.  Wall-clock time is not modelled.
-/

namespace AwsQuotas

/-! ## Go maps -/

/-- Entries of a Go `map[string]V`. -/
abbrev GoMap (V : Type) := List (String × V)

namespace GoMap

variable {V : Type}

/-- Keys of the map, one per entry. -/
def keys (m : GoMap V) : List String := m.map Prod.fst

/-- Well-formed maps hold every key once. -/
def WF (m : GoMap V) : Prop := (keys m).Nodup

/-- Lookup `m[k]` with the comma-ok flag folded into the option. -/
def get? : GoMap V → String → Option V
  | [], _ => none
  | (k', v) :: rest, k => if k' = k then some v else get? rest k

/-- The comma-ok flag of `_, ok := m[k]`. -/
def contains (m : GoMap V) (k : String) : Bool := (get? m k).isSome

/-- Assignment `m[k] = v`: replaces the entry of `k`, or adds one. -/
def set : GoMap V → String → V → GoMap V
  | [], k, v => [(k, v)]
  | (k', v') :: rest, k, v => if k' = k then (k, v) :: rest else (k', v') :: set rest k v

/-- An order in which a `range` over `m` may visit its entries. -/
def IsEnum (m e : GoMap V) : Prop := List.Perm e m

instance [DecidableEq V] (m e : GoMap V) : Decidable (IsEnum m e) := by
  unfold IsEnum; infer_instance

instance (m : GoMap V) : Decidable (WF m) := by
  unfold WF; infer_instance

end GoMap

/-! ## float64 -/

/-- Values of a `float64`: a rational, an infinity or NaN. -/
inductive F64 where
  | fin (q : ℚ)
  | posInf
  | negInf
  | nan
  deriving DecidableEq

namespace F64

/-- Number of binary digits of `n`, counted with at most `fuel` halvings. -/
def bitsAux : Nat → Nat → Nat
  | 0, _ => 0
  | fuel + 1, n => if n = 0 then 0 else bitsAux fuel (n / 2) + 1

/-- Number of binary digits of `n`. -/
def bits (n : Nat) : Nat := bitsAux n n

/-- Binary exponent of a positive rational: the `k` with `2^k ≤ q < 2^(k+1)`. -/
def ilog2 (q : ℚ) : Int :=
  let k : Int := (bits q.num.natAbs : Int) - (bits q.den : Int)
  if (2 : ℚ) ^ k ≤ q then k else k - 1

/-- Nearest integer, a tie going to the even neighbour. -/
def roundHalfEven (s : ℚ) : Int :=
  if s - ⌊s⌋ < 1 / 2 then ⌊s⌋
  else if 1 / 2 < s - ⌊s⌋ then ⌊s⌋ + 1
  else if ⌊s⌋ % 2 = 0 then ⌊s⌋ else ⌊s⌋ + 1

/-- Exponent of the unit in the last place of the binary64 numbers next to a
positive rational: 52 places below its leading bit, and -1074 in the subnormal
range. -/
def ulpExp (q : ℚ) : Int := max (ilog2 q - 52) (-1074)

/-- Nearest multiple of the unit in the last place to a positive rational, ties
to even. -/
def nearest (q : ℚ) : ℚ := (roundHalfEven (q / 2 ^ ulpExp q) : ℚ) * 2 ^ ulpExp q

/-- Rounding of an exact result to binary64: round to nearest, ties to even,
overflow to an infinity. -/
def round (q : ℚ) : F64 :=
  if 0 < q then (if (2 : ℚ) ^ (1024 : Nat) ≤ nearest q then .posInf else .fin (nearest q))
  else if q < 0 then
    (if (2 : ℚ) ^ (1024 : Nat) ≤ nearest (-q) then .negInf else .fin (-nearest (-q)))
  else .fin 0

/-- Conversion `float64(i)` of an `int`. -/
def ofInt (i : Int) : F64 := round (i : ℚ)

/-- Product `x * y`. -/
def mul : F64 → F64 → F64
  | .fin a, .fin b => round (a * b)
  | .nan, _ => .nan
  | _, .nan => .nan
  | .fin a, .posInf => if 0 < a then .posInf else if a < 0 then .negInf else .nan
  | .fin a, .negInf => if 0 < a then .negInf else if a < 0 then .posInf else .nan
  | .posInf, .fin b => if 0 < b then .posInf else if b < 0 then .negInf else .nan
  | .negInf, .fin b => if 0 < b then .negInf else if b < 0 then .posInf else .nan
  | .posInf, .posInf => .posInf
  | .negInf, .negInf => .posInf
  | .posInf, .negInf => .negInf
  | .negInf, .posInf => .negInf

/-- Quotient `x / y`; a zero divisor gives an infinity or NaN, never a trap. -/
def div : F64 → F64 → F64
  | .fin a, .fin b =>
    if b = 0 then (if 0 < a then .posInf else if a < 0 then .negInf else .nan)
    else round (a / b)
  | .nan, _ => .nan
  | _, .nan => .nan
  | .fin _, .posInf => .fin 0
  | .fin _, .negInf => .fin 0
  | .posInf, .fin b => if b < 0 then .negInf else .posInf
  | .negInf, .fin b => if b < 0 then .posInf else .negInf
  | .posInf, .posInf => .nan
  | .posInf, .negInf => .nan
  | .negInf, .posInf => .nan
  | .negInf, .negInf => .nan

/-- Comparison `x >= y`; false as soon as one side is NaN. -/
def ge : F64 → F64 → Bool
  | .nan, _ => false
  | _, .nan => false
  | .fin a, .fin b => decide (b ≤ a)
  | .posInf, _ => true
  | _, .negInf => true
  | .fin _, .posInf => false
  | .negInf, .fin _ => false
  | .negInf, .posInf => false

/-- Truncation toward zero of a rational. -/
def trunc (q : ℚ) : Int := if 0 ≤ q then ⌊q⌋ else ⌈q⌉

/-- Least value of a 64-bit `int`. -/
def minInt : Int := -9223372036854775808

/-- Greatest value of a 64-bit `int`. -/
def maxInt : Int := 9223372036854775807

/-- Conversion `int(x)` to the 64-bit `int`: truncation toward zero when the
result is an `int`; otherwise (too large, infinite or NaN) the least `int`, the
result of the conversion instruction on amd64. -/
def toInt : F64 → Int
  | .fin q => if minInt ≤ trunc q ∧ trunc q ≤ maxInt then trunc q else minInt
  | _ => minInt

end F64

/-! ## Outcomes -/

/-- Ways a call ends without returning to its caller. -/
inductive Crash where
  | nilDeref
  | indexOutOfRange
  | exit (code : Nat)
  deriving DecidableEq, Repr

/-- A call that returns a value or crashes. -/
abbrev Run (α : Type) := Except Crash α

deriving instance DecidableEq for Except

/-- Dereference `*p`. -/
def deref {α : Type} : Option α → Run α
  | some a => .ok a
  | none => .error .nilDeref

/-! ## package utils -/

/-- Source `utils.Find`: whether `val` is in the slice. -/
def Find : List String → String → Bool
  | [], _ => false
  | item :: rest, val => if item = val then true else Find rest val

/-- The flag `isQuotaAllowed` that `GetUsage` and `getQuotasMap` compute for the
quota code `k`: false when the allowed list is not nil and `Find` misses `k`. -/
def isQuotaAllowed (allowedQuotas : Option (List String)) (k : String) : Bool :=
  match allowedQuotas with
  | some allowed => if !Find allowed k then false else true
  | none => true

/-- Source `utils.ExitErrorf`: prints and exits with code 1. -/
def ExitErrorf {α : Type} (_msg : String) : Run α := .error (.exit 1)

/-- Inner loop of `utils.MergeMaps`: `res[k] = append(res[k], v)` for each entry. -/
def MergeMaps.addMap (res : GoMap (List Int)) (m : GoMap Int) : GoMap (List Int) :=
  m.foldl (fun acc kv => acc.set kv.1 (((acc.get? kv.1).getD []) ++ [kv.2])) res

/-- Source `utils.MergeMaps`. -/
def MergeMaps (maps : List (GoMap Int)) : GoMap (List Int) :=
  maps.foldl MergeMaps.addMap []

/-- Inner loop of `utils.MergeMapsUniqueKeys`: `res[k] = v` for each entry. -/
def MergeMapsUniqueKeys.addMap (res : GoMap Int) (m : GoMap Int) : GoMap Int :=
  m.foldl (fun acc kv => acc.set kv.1 kv.2) res

/-- Source `utils.MergeMapsUniqueKeys`. -/
def MergeMapsUniqueKeys (maps : List (GoMap Int)) : GoMap Int :=
  maps.foldl MergeMapsUniqueKeys.addMap []

/-- Source `utils.CheckKeyMap`. -/
def CheckKeyMap (m : GoMap (Option (List String))) (key : String) : Bool :=
  m.contains key

/-! ## package quotas -/

/-- The SDK's `servicequotas.MetricInfo`. -/
structure MetricInfo where
  MetricDimensions : GoMap String
  MetricName : String
  MetricNamespace : String
  MetricStatisticRecommendation : String
  deriving DecidableEq

/-- Source `quotas.serviceQuota`: the SDK's quota record and the applied value. -/
structure serviceQuota where
  Adjustable : Bool
  GlobalQuota : Bool
  QuotaName : String
  QuotaCode : String
  ServiceCode : String
  ServiceName : String
  Value : F64
  UsageMetric : Option MetricInfo
  ValueApplied : F64
  deriving DecidableEq

/-- Source `quotas.serviceInfo`. -/
structure serviceInfo where
  serviceName : String
  serviceQuotas : GoMap serviceQuota
  deriving DecidableEq

/-- Allow filter `*map[string]*[]string`. -/
abbrev AllowFilter := Option (GoMap (Option (List String)))

/-- Source `quotas.Quotas`. -/
structure Quotas where
  region : String
  allowedServices : AllowFilter
  servicesMap : GoMap serviceInfo
  deriving DecidableEq

/-- Source `Quotas.ListServicesCodes`, the keys in the order of the entries. -/
def Quotas.ListServicesCodes (q : Quotas) : List String := q.servicesMap.keys

/-- Source `Quotas.ListQuotasCodes`, the keys in the order of the entries. -/
def Quotas.ListQuotasCodes (q : Quotas) (serviceCode : String) : Except String (List String) :=
  match q.servicesMap.get? serviceCode with
  | some service => .ok service.serviceQuotas.keys
  | none => .error ("No service with such code: " ++ serviceCode)

/-- Source `Quotas.GetService`. -/
def Quotas.GetService (q : Quotas) (serviceCode : String) : Except String serviceInfo :=
  match q.servicesMap.get? serviceCode with
  | some service => .ok service
  | none => .error ("No service with such code: " ++ serviceCode)

/-- Source `serviceInfo.GetServiceName`. -/
def serviceInfo.GetServiceName (s : serviceInfo) : String := s.serviceName

/-- Source `serviceInfo.GetServiceQuota`. -/
def serviceInfo.GetServiceQuota (s : serviceInfo) (quotaCode : String) : Except String serviceQuota :=
  match s.serviceQuotas.get? quotaCode with
  | some quota => .ok quota
  | none => .error ("No quota with such code: " ++ quotaCode)

/-! ## package runner -/

/-- Source `runner.ServiceQuota`. -/
structure ServiceQuota where
  Adjustable : Bool
  GlobalQuota : Bool
  QuotaName : String
  QuotaCode : String
  DefaultValue : F64
  Value : F64
  ServiceCode : String
  ServiceName : String
  deriving DecidableEq

/-- Source `runner.ServiceQuotaUsage`; `Type'` is the field `Type`. -/
structure ServiceQuotaUsage where
  ServiceCode : String
  ServiceName : String
  QuotaName : String
  QuotaCode : String
  Usage : Int
  Value : Int
  Type' : String
  deriving DecidableEq, Repr

/-- Source `runner.Warning`. -/
structure Warning where
  ServiceCode : String
  ServiceName : String
  QuotaName : String
  QuotaCode : String
  Limit : Int
  Usage : Int
  Name : String
  Threshold : Int
  deriving DecidableEq, Repr

/-- Source `runner.Runner`, without the service and CloudWatch clients. -/
structure Runner where
  region : String
  allowedServices : AllowFilter
  quotas : Option Quotas
  quotaServiceCodes : Option (List String)
  quotaMetricUsage : Option (GoMap Int)
  quotaApiUsage : Option (GoMap Int)
  quotaUsage : Option (GoMap (List Int))
  quotasServiceInfo : Option (GoMap String)
  alarms : GoMap Int
  deriving DecidableEq

namespace Runner

/-- Source `Runner.AddAlarm`. -/
def AddAlarm (r : Runner) (name : String) (threshold : Int) : Runner :=
  { r with alarms := r.alarms.set name threshold }

/-- Source `Runner.GetServiceName`: exits the process on an unknown service. -/
def GetServiceName (r : Runner) (serviceCode : String) : Run String := do
  let q ← deref r.quotas
  match q.GetService serviceCode with
  | .error err => ExitErrorf ("Error while getting service: " ++ err)
  | .ok s => pure s.GetServiceName

/-- Source `Runner.GetServiceQuota`. -/
def GetServiceQuota (r : Runner) (serviceCode quotaCode : String) :
    Run (Except String ServiceQuota) := do
  let qs ← deref r.quotas
  match qs.GetService serviceCode with
  | .error err => pure (.error ("Error while getting service: " ++ err))
  | .ok s =>
    match s.GetServiceQuota quotaCode with
    | .error err => pure (.error ("Error while getting service quota: " ++ err))
    | .ok q =>
      pure (.ok
        { Adjustable := q.Adjustable
          GlobalQuota := q.GlobalQuota
          QuotaName := q.QuotaName
          QuotaCode := q.QuotaCode
          DefaultValue := q.Value
          Value := q.ValueApplied
          ServiceCode := q.ServiceCode
          ServiceName := q.ServiceName })

/-- Answers of the collaborators during one call: `CW.GetUsageFromMetric` and the
`GetUsage` of the eight service clients. -/
structure Env where
  GetUsageFromMetric : MetricInfo → Except String Int
  ec2GetUsage : Except String (GoMap Int)
  cfGetUsage : Except String (GoMap Int)
  elasticGetUsage : Except String (GoMap Int)
  asGetUsage : Except String (GoMap Int)
  s3GetUsage : Except String (GoMap Int)
  vpcGetUsage : Except String (GoMap Int)
  elbGetUsage : Except String (GoMap Int)
  efsGetUsage : Except String (GoMap Int)

/-- Source `Runner.checkIfServiceAllowed`. -/
def checkIfServiceAllowed (r : Runner) (serviceCode : String) : Bool × Option (List String) :=
  match r.allowedServices with
  | none => (true, none)
  | some allowed =>
    if !CheckKeyMap allowed serviceCode then (false, none)
    else (true, (allowed.get? serviceCode).getD none)

/-- One service block of `Runner.getQuotaApiUsage`: the new `mapPointer` and the
usage map of the service.  `label` is the service named in the error message. -/
def getQuotaApiUsage.service (r : Runner) (code label : String)
    (getUsage : Except String (GoMap Int)) (mapPointer : Option (GoMap Int)) :
    Except String (Option (GoMap Int) × GoMap Int) :=
  if (r.checkIfServiceAllowed code).1 then
    match getUsage with
    | .error err =>
      .error ("Error while getting usage from API for " ++ label ++ " quotas: " ++ err)
    | .ok m => .ok (some m, m)
  else .ok (mapPointer, mapPointer.getD [])

/-- Source `Runner.getQuotaApiUsage`; an error stands for the pair `nil, err`. -/
def getQuotaApiUsage (r : Runner) (env : Env) : Except String (GoMap Int) := do
  let (mapPointer, ec2UsageMap) ←
    getQuotaApiUsage.service r "ec2" "EC2" env.ec2GetUsage none
  let (mapPointer, cfUsageMap) ←
    getQuotaApiUsage.service r "cloudformation" "EC2" env.cfGetUsage mapPointer
  let (mapPointer, elasticUsageMap) ←
    getQuotaApiUsage.service r "elasticbeanstalk" "ElasticBeanstalk" env.elasticGetUsage mapPointer
  let (mapPointer, autoscalingUsageMap) ←
    getQuotaApiUsage.service r "autoscaling" "AutoScaling" env.asGetUsage mapPointer
  let (mapPointer, s3UsageMap) ←
    getQuotaApiUsage.service r "s3" "S3" env.s3GetUsage mapPointer
  let (mapPointer, vpcUsageMap) ←
    getQuotaApiUsage.service r "vpc" "VPC" env.vpcGetUsage mapPointer
  let (mapPointer, elbUsageMap) ←
    getQuotaApiUsage.service r "elasticloadbalancing" "ELB" env.elbGetUsage mapPointer
  let (_, efsUsageMap) ←
    getQuotaApiUsage.service r "elasticfilesystem" "EFS" env.efsGetUsage mapPointer
  pure (MergeMapsUniqueKeys [ec2UsageMap, cfUsageMap, elasticUsageMap, autoscalingUsageMap,
    s3UsageMap, vpcUsageMap, elbUsageMap, efsUsageMap])

/-- Inner loop of `Runner.getQuotaMetricUsage` over the quota codes of the service `s`. -/
def getQuotaMetricUsage.quotaLoop (env : Env) (s : Except String serviceInfo) :
    List String → GoMap Int → Run (Except String (GoMap Int))
  | [], quotaMetricUsage => pure (.ok quotaMetricUsage)
  | quota :: rest, quotaMetricUsage => do
    let s' ← deref s.toOption
    let q ← deref (s'.GetServiceQuota quota).toOption
    match q.UsageMetric with
    | none => getQuotaMetricUsage.quotaLoop env s rest quotaMetricUsage
    | some usageMetric =>
      match env.GetUsageFromMetric usageMetric with
      | .error err => pure (.error ("Error while getting usage metric: " ++ err))
      | .ok usage =>
        getQuotaMetricUsage.quotaLoop env s rest (quotaMetricUsage.set quota usage)

/-- Outer loop of `Runner.getQuotaMetricUsage` over the service codes. -/
def getQuotaMetricUsage.serviceLoop (r : Runner) (env : Env) :
    List String → GoMap Int → Run (Except String (GoMap Int))
  | [], quotaMetricUsage => pure (.ok quotaMetricUsage)
  | service :: rest, quotaMetricUsage => do
    let qs ← deref r.quotas
    let s := qs.GetService service
    match qs.ListQuotasCodes service with
    | .error err => pure (.error ("Error while listing quotas codes: " ++ err))
    | .ok quotas =>
      match ← getQuotaMetricUsage.quotaLoop env s quotas quotaMetricUsage with
      | .error err => pure (.error err)
      | .ok quotaMetricUsage' =>
        getQuotaMetricUsage.serviceLoop r env rest quotaMetricUsage'

/-- Source `Runner.getQuotaMetricUsage`; an error stands for the pair `nil, err`. -/
def getQuotaMetricUsage (r : Runner) (env : Env) : Run (Except String (GoMap Int)) := do
  let codes ← deref r.quotaServiceCodes
  getQuotaMetricUsage.serviceLoop r env codes []

/-- Source `Runner.UpdateQuotasUsage`: the Runner after the call and the error
returned, if any. -/
def UpdateQuotasUsage (r : Runner) (env : Env) : Run (Runner × Option String) := do
  let m ← r.getQuotaMetricUsage env
  let r1 := { r with quotaMetricUsage := m.toOption }
  match m with
  | .error err =>
    pure (r1, some ("Error while getting usage for quotas from cloudwatch metrics: " ++ err))
  | .ok quotaMetricUsage =>
    let a := r1.getQuotaApiUsage env
    let r2 := { r1 with quotaApiUsage := a.toOption }
    match a with
    | .error err =>
      pure (r2, some ("Error while getting usage for quotas from api: " ++ err))
    | .ok quotaApiUsage =>
      pure ({ r2 with quotaUsage := some (MergeMaps [quotaMetricUsage, quotaApiUsage]) }, none)

/-- Body of the loop of `Runner.GetQuotasUsage` for the entry `k, v`. -/
def GetQuotasUsage.body (r : Runner) (k : String) (v : Int) : Run ServiceQuotaUsage := do
  let info ← deref r.quotasServiceInfo
  let serviceCode := (info.get? k).getD ""
  let q ← r.GetServiceQuota serviceCode k
  let quotaUsage ← deref r.quotaUsage
  let infoType ←
    if quotaUsage.contains k then (pure "api" : Run String)
    else do
      let quotaMetricUsage ← deref r.quotaMetricUsage
      pure (if quotaMetricUsage.contains k then "metrics" else "")
  let serviceName ← r.GetServiceName serviceCode
  match q with
  | .error _ => .error .nilDeref
  | .ok sq =>
    pure
      { ServiceCode := serviceCode
        ServiceName := serviceName
        QuotaName := sq.QuotaName
        QuotaCode := k
        Usage := v
        Value := sq.Value.toInt
        Type' := infoType }

/-- Loop of `Runner.GetQuotasUsage` over the entries still to visit. -/
def GetQuotasUsage.loop (r : Runner) :
    List (String × Int) → List ServiceQuotaUsage → Run (List ServiceQuotaUsage)
  | [], squs => pure squs
  | (k, v) :: rest, squs => do
    let squ ← GetQuotasUsage.body r k v
    GetQuotasUsage.loop r rest (squs ++ [squ])

/-- Source `Runner.GetQuotasUsage`; `apiEnum` is the order in which the range
over `*r.quotaApiUsage` visits the entries. -/
def GetQuotasUsage (r : Runner) (apiEnum : GoMap Int) : Run (List ServiceQuotaUsage) := do
  let _ ← deref r.quotaApiUsage
  GetQuotasUsage.loop r apiEnum []

/-- Locals of the alarm loop of `Runner.CheckAlarms`. -/
structure AlarmScan where
  found : Bool
  max : Int
  warning : Warning
  deriving DecidableEq

/-- The value `percents` of `Runner.CheckAlarms`. -/
def CheckAlarms.percents (squ : ServiceQuotaUsage) : F64 :=
  F64.div (F64.mul (F64.ofInt squ.Usage) (F64.fin 100)) (F64.ofInt squ.Value)

/-- Body of the alarm loop of `Runner.CheckAlarms` for the alarm `k, v`. -/
def CheckAlarms.step (squ : ServiceQuotaUsage) (st : AlarmScan) (kv : String × Int) :
    AlarmScan :=
  if (CheckAlarms.percents squ).ge (F64.ofInt kv.2) && decide (kv.2 > st.max) then
    { found := true
      max := kv.2
      warning := { st.warning with Name := kv.1, Threshold := kv.2 } }
  else st

/-- Locals of `Runner.CheckAlarms` before the alarm loop. -/
def CheckAlarms.init (squ : ServiceQuotaUsage) : AlarmScan :=
  { found := false
    max := 0
    warning :=
      { ServiceCode := squ.ServiceCode
        ServiceName := squ.ServiceName
        QuotaName := squ.QuotaName
        QuotaCode := squ.QuotaCode
        Limit := squ.Value
        Usage := squ.Usage
        Name := ""
        Threshold := 0 } }

/-- One pass of the outer loop of `Runner.CheckAlarms`: the Warning appended for
`squ`, if any, when the alarms are visited in the order `alarmEnum`. -/
def CheckAlarms.quota (alarmEnum : GoMap Int) (squ : ServiceQuotaUsage) : Option Warning :=
  let st := alarmEnum.foldl (CheckAlarms.step squ) (CheckAlarms.init squ)
  if st.found then some st.warning else none

/-- Outer loop of `Runner.CheckAlarms`, from its pass number `i` on. -/
def CheckAlarms.loop (alarmEnum : Nat → GoMap Int) :
    Nat → List ServiceQuotaUsage → List Warning → List Warning
  | _, [], warnings => warnings
  | i, squ :: rest, warnings =>
    match CheckAlarms.quota (alarmEnum i) squ with
    | some w => CheckAlarms.loop alarmEnum (i + 1) rest (warnings ++ [w])
    | none => CheckAlarms.loop alarmEnum (i + 1) rest warnings

/-- Source `Runner.CheckAlarms`; `apiEnum` is the order of the range inside
`GetQuotasUsage`, `alarmEnum i` the order of the range over `r.alarms` in pass
`i` of the outer loop. -/
def CheckAlarms (r : Runner) (apiEnum : GoMap Int) (alarmEnum : Nat → GoMap Int) :
    Run (List Warning) := do
  let squs ← r.GetQuotasUsage apiEnum
  pure (CheckAlarms.loop alarmEnum 0 squs [])

end Runner

/-- The threshold test of the alarm loop: `percents >= float64(v)`. -/
def Matched (squ : ServiceQuotaUsage) (v : Int) : Prop :=
  (Runner.CheckAlarms.percents squ).ge (F64.ofInt v) = true

instance (squ : ServiceQuotaUsage) (v : Int) : Decidable (Matched squ v) := by
  unfold Matched; infer_instance

/-- What the alarm loop has established once it has visited the alarms `l`. -/
structure ScanInv (squ : ServiceQuotaUsage) (l : GoMap Int) (st : Runner.AlarmScan) : Prop where
  max_nonneg : 0 ≤ st.max
  le_max : ∀ kv ∈ l, Matched squ kv.2 → kv.2 ≤ st.max
  not_found : st.found = false → st = Runner.CheckAlarms.init squ
  found : st.found = true →
    0 < st.max ∧ Matched squ st.max ∧
    st.warning = { (Runner.CheckAlarms.init squ).warning with
      Name := st.warning.Name, Threshold := st.max } ∧
    ∃ pre post, l = pre ++ (st.warning.Name, st.max) :: post ∧ ∀ kv ∈ pre, kv.2 ≠ st.max

/-- The Runner can answer `GetQuotasUsage`: no pointer is nil and every quota
code of the API-usage map is, through `quotasServiceInfo`, a quota of a service
of the catalog. -/
def Runner.Loaded (r : Runner) : Prop :=
  ∃ qs info api qu mu,
    r.quotas = some qs ∧ r.quotasServiceInfo = some info ∧ r.quotaApiUsage = some api ∧
    r.quotaUsage = some qu ∧ r.quotaMetricUsage = some mu ∧
    ∀ k ∈ api.keys, ∃ sc s q,
      info.get? k = some sc ∧ qs.servicesMap.get? sc = some s ∧ s.serviceQuotas.get? k = some q

/-- Two Warnings that differ at most in the alarm name. -/
def SameButName (w w' : Warning) : Prop := w' = { w with Name := w'.Name }

/-! ## A sample account -/

/-- A quota record of the sample catalog. -/
def sampleQuota (code name : String) (limit : ℚ) (metric : Option MetricInfo) : serviceQuota :=
  { Adjustable := true
    GlobalQuota := false
    QuotaName := name
    QuotaCode := code
    ServiceCode := "ec2"
    ServiceName := "Amazon Elastic Compute Cloud (Amazon EC2)"
    Value := .fin limit
    UsageMetric := metric
    ValueApplied := .fin limit }

/-- The metric descriptor of the sample quota `L-M`. -/
def sampleMetric : MetricInfo :=
  { MetricDimensions := [("Class", "Standard/OnDemand"), ("Type", "Resource")]
    MetricName := "ResourceCount"
    MetricNamespace := "AWS/Usage"
    MetricStatisticRecommendation := "Maximum" }

/-- A catalog with one service and three quotas: `L-A` with limit 100, `L-Z` with
limit 0 and `L-M` with limit 50 and a usage metric. -/
def sampleCatalog : Quotas :=
  { region := "us-east-1"
    allowedServices := none
    servicesMap :=
      [("ec2",
        { serviceName := "Amazon Elastic Compute Cloud (Amazon EC2)"
          serviceQuotas :=
            [("L-A", sampleQuota "L-A" "Elastic IPs" 100 none),
             ("L-Z", sampleQuota "L-Z" "Dedicated hosts" 0 none),
             ("L-M", sampleQuota "L-M" "Running instances" 50 (some sampleMetric))] })] }

/-- A Runner over the sample catalog as `NewRunner` leaves it, for the given
usage maps, with the given alarms registered. -/
def sampleRunner (metric api alarms : GoMap Int) : Runner :=
  { region := "us-east-1"
    allowedServices := none
    quotas := some sampleCatalog
    quotaServiceCodes := some ["ec2"]
    quotaMetricUsage := some metric
    quotaApiUsage := some api
    quotaUsage := some (MergeMaps [metric, api])
    quotasServiceInfo := some [("L-A", "ec2"), ("L-Z", "ec2"), ("L-M", "ec2")]
    alarms := alarms }

/-- The usage record of the sample quota `code` with the given usage and limit. -/
def sampleRecord (code name : String) (usage limit : Int) : ServiceQuotaUsage :=
  { ServiceCode := "ec2"
    ServiceName := "Amazon Elastic Compute Cloud (Amazon EC2)"
    QuotaName := name
    QuotaCode := code
    Usage := usage
    Value := limit
    Type' := "api" }

/-- The Warning of the sample quota `code` for the alarm `name`, `threshold`. -/
def sampleWarning (code quotaName : String) (usage limit : Int) (name : String)
    (threshold : Int) : Warning :=
  { ServiceCode := "ec2"
    ServiceName := "Amazon Elastic Compute Cloud (Amazon EC2)"
    QuotaName := quotaName
    QuotaCode := code
    Limit := limit
    Usage := usage
    Name := name
    Threshold := threshold }

/-- A catalog with one service and the single quota `L-W`, of the given limit. -/
def wideCatalog (limit : ℚ) : Quotas :=
  { region := "us-east-1"
    allowedServices := none
    servicesMap :=
      [("ec2",
        { serviceName := "Amazon Elastic Compute Cloud (Amazon EC2)"
          serviceQuotas := [("L-W", sampleQuota "L-W" "Snapshot storage" limit none)] })] }

/-- A Runner over `wideCatalog limit` as `NewRunner` leaves it, with the given
usage of `L-W` from the API and the given alarms registered. -/
def wideRunner (limit : ℚ) (usage : Int) (alarms : GoMap Int) : Runner :=
  { region := "us-east-1"
    allowedServices := none
    quotas := some (wideCatalog limit)
    quotaServiceCodes := some ["ec2"]
    quotaMetricUsage := some []
    quotaApiUsage := some [("L-W", usage)]
    quotaUsage := some (MergeMaps [[], [("L-W", usage)]])
    quotasServiceInfo := some [("L-W", "ec2")]
    alarms := alarms }

/-- Collaborators that all answer: every metric is 7, EC2 counts 92 for `L-A`. -/
def sampleEnv : Runner.Env :=
  { GetUsageFromMetric := fun _ => .ok 7
    ec2GetUsage := .ok [("L-A", 92)]
    cfGetUsage := .ok []
    elasticGetUsage := .ok []
    asGetUsage := .ok []
    s3GetUsage := .ok []
    vpcGetUsage := .ok []
    elbGetUsage := .ok []
    efsGetUsage := .ok [] }

/-- Collaborators of which the metric source fails. -/
def metricDownEnv : Runner.Env :=
  { sampleEnv with GetUsageFromMetric := fun _ => .error "RequestError: send request failed" }

/-- Collaborators of which the EC2 usage source fails. -/
def ec2DownEnv : Runner.Env :=
  { sampleEnv with ec2GetUsage := .error "RequestError: send request failed" }

/-- The Warning without its alarm name. -/
def Warning.eraseName (w : Warning) : Warning := { w with Name := "" }

/-- The eight usage sources in the order `getQuotaApiUsage` asks them: the service
code and the answer of `GetUsage`. -/
def Runner.Env.sources (env : Runner.Env) : List (String × Except String (GoMap Int)) :=
  [("ec2", env.ec2GetUsage), ("cloudformation", env.cfGetUsage),
   ("elasticbeanstalk", env.elasticGetUsage), ("autoscaling", env.asGetUsage),
   ("s3", env.s3GetUsage), ("vpc", env.vpcGetUsage),
   ("elasticloadbalancing", env.elbGetUsage), ("elasticfilesystem", env.efsGetUsage)]

/-! ## The usage sources -/

/-- Result pair `usage, err` of a usage function. -/
abbrev UsageResult := Option Int × Option String

/-- The pair returned by a usage function that ends in `return &l, nil` or in
`return nil, err`. -/
def UsageResult.ofExcept : Except String Int → UsageResult
  | .ok usage => (some usage, none)
  | .error err => (none, some err)

/-- The loop of `GetUsage`, the same in the service packages up to the service
named in the error message (`label`) and the call made for an entry of the
usage-function table (`call`), over the entries still to visit. -/
def GetUsage.loop {F : Type} (label : String) (allowedQuotas : Option (List String))
    (call : F → UsageResult) : List (String × F) → GoMap Int → Run (Except String (GoMap Int))
  | [], usageMap => pure (.ok usageMap)
  | (k, v) :: rest, usageMap =>
    if isQuotaAllowed allowedQuotas k then
      match call v with
      | (_, some err) =>
        pure (.error ("Error while getting usage of " ++ label ++ " quota: " ++ err))
      | (some usage, none) => GetUsage.loop label allowedQuotas call rest (usageMap.set k usage)
      | (none, none) => .error .nilDeref
    else GetUsage.loop label allowedQuotas call rest usageMap

namespace ec2

/-- The usage functions of package ec2 that `createUsageFuncMap` registers. -/
inductive getUsageFunc where
  | getUsageDedicatedA1Hosts
  | getUsageDedicatedC4Hosts
  | getUsageDedicatedC5Hosts
  | getUsageDedicatedC5DHosts
  | getUsageDedicatedC5NHosts
  | getUsageDedicatedD2Hosts
  | getUsageDedicatedG3Hosts
  | getUsageDedicatedG3SHosts
  | getUsageDedicatedG4DNHosts
  | getUsageDedicatedH1Hosts
  | getUsageDedicatedI2Hosts
  | getUsageDedicatedI3ENHosts
  | getUsageDedicatedM4Hosts
  | getUsageDedicatedM5Hosts
  | getUsageDedicatedM5AHosts
  | getUsageDedicatedM5DHosts
  | getUsageDedicatedM5DNHosts
  | getUsageDedicatedM6GHosts
  | getUsageDedicatedP2Hosts
  | getUsageDedicatedP3Hosts
  | getUsageDedicatedR3Hosts
  | getUsageDedicatedR4Hosts
  | getUsageDedicatedR5Hosts
  | getUsageDedicatedR5AHosts
  | getUsageDedicatedR5ADHosts
  | getUsageDedicatedR5DHosts
  | getUsageDedicatedR5DNHosts
  | getUsageDedicatedR5NHosts
  | getUsageDedicatedX1Hosts
  | getUsageDedicatedX1EHosts
  | getUsageDedicatedZ1DHosts
  | getUsageVpnGateways
  | getUsageVpnConnections
  | getUsageTransitGateways
  | getUsageCustomerGateways
  | getUsageEIPVPC
  deriving DecidableEq, Repr

/-- The EC2 client as the usage functions see it: the pair each one returns. -/
abbrev Client := getUsageFunc → Except String Int

/-- Source `ec2.createUsageFuncMap`. -/
def createUsageFuncMap : GoMap getUsageFunc :=
  [
   ("L-949445B0", .getUsageDedicatedA1Hosts),
   ("L-E4BF28E0", .getUsageDedicatedC4Hosts),
   ("L-81657574", .getUsageDedicatedC5Hosts),
   ("L-C93F66A2", .getUsageDedicatedC5DHosts),
   ("L-20F13EBD", .getUsageDedicatedC5NHosts),
   ("L-8B27377A", .getUsageDedicatedD2Hosts),
   ("L-DE82EABA", .getUsageDedicatedG3Hosts),
   ("L-9675FDCD", .getUsageDedicatedG3SHosts),
   ("L-CAE24619", .getUsageDedicatedG4DNHosts),
   ("L-84391ECC", .getUsageDedicatedH1Hosts),
   ("L-6222C1B6", .getUsageDedicatedI2Hosts),
   ("L-77EE2B11", .getUsageDedicatedI3ENHosts),
   ("L-EF30B25E", .getUsageDedicatedM4Hosts),
   ("L-8B7BF662", .getUsageDedicatedM5Hosts),
   ("L-B10F70D6", .getUsageDedicatedM5AHosts),
   ("L-8CCBD91B", .getUsageDedicatedM5DHosts),
   ("L-DA07429F", .getUsageDedicatedM5DNHosts),
   ("L-D50A37FA", .getUsageDedicatedM6GHosts),
   ("L-2753CF59", .getUsageDedicatedP2Hosts),
   ("L-A0A19F79", .getUsageDedicatedP3Hosts),
   ("L-B7208018", .getUsageDedicatedR3Hosts),
   ("L-313524BA", .getUsageDedicatedR4Hosts),
   ("L-EA4FD6CF", .getUsageDedicatedR5Hosts),
   ("L-8FE30D52", .getUsageDedicatedR5AHosts),
   ("L-EC7178B6", .getUsageDedicatedR5ADHosts),
   ("L-8814B54F", .getUsageDedicatedR5DHosts),
   ("L-4AB14223", .getUsageDedicatedR5DNHosts),
   ("L-52EF324A", .getUsageDedicatedR5NHosts),
   ("L-DE3D9563", .getUsageDedicatedX1Hosts),
   ("L-DEF8E115", .getUsageDedicatedX1EHosts),
   ("L-F035E935", .getUsageDedicatedZ1DHosts),
   ("L-7029FAB6", .getUsageVpnGateways),
   ("L-3E6EC3A3", .getUsageVpnConnections),
   ("L-A2478D36", .getUsageTransitGateways),
   ("L-4FB7FF5D", .getUsageCustomerGateways),
   ("L-0263D0A3", .getUsageEIPVPC)]

/-- Source `ec2.EC2`, without the client. -/
structure EC2 where
  region : String
  usageFuncs : GoMap getUsageFunc
  allowedQuotas : Option (List String)

/-- Source `ec2.NewEC2` once the session is created. -/
def NewEC2 (region : String) (allowedQuotas : Option (List String)) : EC2 :=
  { region := region, usageFuncs := createUsageFuncMap, allowedQuotas := allowedQuotas }

/-- Source `EC2.GetUsage`; `funcsEnum` is the order in which the range over
`*e.usageFuncs` visits the entries. -/
def EC2.GetUsage (e : EC2) (client : Client) (funcsEnum : GoMap getUsageFunc) :
    Run (Except String (GoMap Int)) :=
  GetUsage.loop "EC2" e.allowedQuotas (fun v => UsageResult.ofExcept (client v)) funcsEnum []

/-- Source `ec2.GetCode`. -/
def GetCode : String := "ec2"

end ec2

namespace s3

/-- The answers of the two usage functions of package s3. -/
structure Client where
  getUsageBuckets : Except String Int
  getUsageAcessPoints : Except String Int

/-- Source `s3.createUsageFuncMap`. -/
def createUsageFuncMap : GoMap String :=
  [("L-DC2B2D3D", "s3"), ("L-FAABEEBA", "s3control")]

/-- Source `s3.S3`, without the session and the clients. -/
structure S3 where
  region : String
  usageFuncs : GoMap String
  allowedQuotas : Option (List String)

/-- Source `s3.NewS3` once the session is created. -/
def NewS3 (region : String) (allowedQuotas : Option (List String)) : S3 :=
  { region := region, usageFuncs := createUsageFuncMap, allowedQuotas := allowedQuotas }

/-- Source `S3.GetUsage`: the message of its error names Autoscaling. -/
def S3.GetUsage (s : S3) (client : Client) (funcsEnum : GoMap String) :
    Run (Except String (GoMap Int)) :=
  GetUsage.loop "Autoscaling" s.allowedQuotas
    (fun v =>
      if v = "s3" then UsageResult.ofExcept client.getUsageBuckets
      else if v = "s3control" then UsageResult.ofExcept client.getUsageAcessPoints
      else (none, none))
    funcsEnum []

/-- Source `s3.GetCode`. -/
def GetCode : String := "s3"

end s3

/-! ## Loading the catalog -/

/-- Source `strings.Contains` of the Go library. -/
def strings.Contains (s substr : String) : Bool :=
  s.data.tails.any (fun t => substr.data.isPrefixOf t)

namespace servicequotas

/-- The SDK's `servicequotas.ServiceInfo`. -/
structure ServiceInfo where
  ServiceCode : String
  ServiceName : String
  deriving DecidableEq

/-- The SDK's `servicequotas.ServiceQuota`, the fields that the code reads. -/
structure ServiceQuota where
  Adjustable : Bool
  GlobalQuota : Bool
  QuotaName : String
  QuotaCode : String
  ServiceCode : String
  ServiceName : String
  Value : F64
  UsageMetric : Option MetricInfo
  deriving DecidableEq

/-- The answers of the Service Quotas API to the client: for a paged listing the
pages delivered and the error that ended the listing, if any. -/
structure Client where
  ListServicesPages : List (List ServiceInfo) × Option String
  ListAWSDefaultServiceQuotasPages : String → List (List ServiceQuota) × Option String
  GetServiceQuota : String → String → Except String F64

end servicequotas

/-- Source `quotas.getAppliedQuotaValue`. -/
def getAppliedQuotaValue (client : servicequotas.Client) (service quotaCode : String)
    (defaultValue : F64) : Except String F64 :=
  match client.GetServiceQuota service quotaCode with
  | .error err =>
    if strings.Contains err "NoSuchResourceException" then .ok defaultValue else .error err
  | .ok value => .ok value

/-- The callback of `quotas.getQuotasMap` over the quotas of one page. -/
def getQuotasMap.page (client : servicequotas.Client) (service : String)
    (allowedQuotas : Option (List String)) :
    List servicequotas.ServiceQuota → GoMap serviceQuota → Run (GoMap serviceQuota)
  | [], quotas => pure quotas
  | value :: rest, quotas =>
    if isQuotaAllowed allowedQuotas value.QuotaCode then
      match getAppliedQuotaValue client service value.QuotaCode value.Value with
      | .error err => ExitErrorf ("Unable to get applied quota value, " ++ err)
      | .ok applied =>
        getQuotasMap.page client service allowedQuotas rest
          (quotas.set value.QuotaCode
            { Adjustable := value.Adjustable
              GlobalQuota := value.GlobalQuota
              QuotaName := value.QuotaName
              QuotaCode := value.QuotaCode
              ServiceCode := value.ServiceCode
              ServiceName := value.ServiceName
              Value := value.Value
              UsageMetric := value.UsageMetric
              ValueApplied := applied })
    else getQuotasMap.page client service allowedQuotas rest quotas

/-- The callback of `quotas.getQuotasMap` applied to the pages in turn; it always
answers true, so every delivered page is visited. -/
def getQuotasMap.pages (client : servicequotas.Client) (service : String)
    (allowedQuotas : Option (List String)) :
    List (List servicequotas.ServiceQuota) → GoMap serviceQuota → Run (GoMap serviceQuota)
  | [], quotas => pure quotas
  | page :: rest, quotas => do
    let quotas' ← getQuotasMap.page client service allowedQuotas page quotas
    getQuotasMap.pages client service allowedQuotas rest quotas'

/-- Source `quotas.getQuotasMap`; an error stands for the pair `nil, err`. -/
def getQuotasMap (client : servicequotas.Client) (service : String)
    (allowedQuotas : Option (List String)) : Run (Except String (GoMap serviceQuota)) := do
  let quotas ← getQuotasMap.pages client service allowedQuotas
    (client.ListAWSDefaultServiceQuotasPages service).1 []
  match (client.ListAWSDefaultServiceQuotasPages service).2 with
  | some err => pure (.error ("Error while getting list of quotas: " ++ err))
  | none => pure (.ok quotas)

/-- The pair `isServiceAllowed, allowedQuotas` that `quotas.getServicesMap`
computes for a listed service. -/
def getServicesMap.allowed (allowedServices : AllowFilter) (serviceCode : String) :
    Bool × Option (List String) :=
  match allowedServices with
  | none => (true, none)
  | some filter =>
    if !CheckKeyMap filter serviceCode then (false, none)
    else (true, (filter.get? serviceCode).getD none)

/-- The callback of `quotas.getServicesMap` over the services of one page. -/
def getServicesMap.page (client : servicequotas.Client) (allowedServices : AllowFilter) :
    List servicequotas.ServiceInfo → GoMap serviceInfo → Run (GoMap serviceInfo)
  | [], services => pure services
  | value :: rest, services =>
    if (getServicesMap.allowed allowedServices value.ServiceCode).1 then do
      match ← getQuotasMap client value.ServiceCode
          (getServicesMap.allowed allowedServices value.ServiceCode).2 with
      | .error err => ExitErrorf ("Unable to get quotas, " ++ err)
      | .ok sq =>
        getServicesMap.page client allowedServices rest
          (services.set value.ServiceCode { serviceName := value.ServiceName, serviceQuotas := sq })
    else getServicesMap.page client allowedServices rest services

/-- The callback of `quotas.getServicesMap` applied to the pages in turn. -/
def getServicesMap.pages (client : servicequotas.Client) (allowedServices : AllowFilter) :
    List (List servicequotas.ServiceInfo) → GoMap serviceInfo → Run (GoMap serviceInfo)
  | [], services => pure services
  | page :: rest, services => do
    let services' ← getServicesMap.page client allowedServices page services
    getServicesMap.pages client allowedServices rest services'

/-- Source `quotas.getServicesMap`; an error stands for the pair `nil, err`. -/
def getServicesMap (client : servicequotas.Client) (allowedServices : AllowFilter) :
    Run (Except String (GoMap serviceInfo)) := do
  let services ← getServicesMap.pages client allowedServices client.ListServicesPages.1 []
  match client.ListServicesPages.2 with
  | some err => pure (.error ("Error while getting list of services: " ++ err))
  | none => pure (.ok services)

/-- The answers of AWS to one call of `quotas.NewQuota`: the error of
`session.NewSession`, if any, and the client made from the session. -/
structure Aws where
  NewSession : Option String
  client : servicequotas.Client

/-- Source `quotas.NewQuota`; an error stands for the pair `nil, err`. -/
def NewQuota (aws : Aws) (region : String) (allowedServices : AllowFilter) :
    Run (Except String Quotas) :=
  match aws.NewSession with
  | some err => pure (.error ("Error while creating session: " ++ err))
  | none => do
    match ← getServicesMap aws.client allowedServices with
    | .error err => pure (.error ("Error while getting services information: " ++ err))
    | .ok servicesMap =>
      pure (.ok { region := region, allowedServices := allowedServices,
                  servicesMap := servicesMap })

/-- Source `Runner.UpdateQuotasInfo`: the Runner after the call and the error
returned, if any. -/
def Runner.UpdateQuotasInfo (r : Runner) (aws : Aws) : Run (Runner × Option String) := do
  let res ← NewQuota aws r.region r.allowedServices
  let err : Option String :=
    match res with
    | .error e => some e
    | .ok _ => none
  let r1 := { r with quotas := res.toOption }
  let quotas ← deref r1.quotas
  pure ({ r1 with quotaServiceCodes := some quotas.ListServicesCodes }, err)

/-- An account whose Service Quotas API lists the service `ec2` with the quota
`L-A`, default 100, no applied value. -/
def sampleClient : servicequotas.Client :=
  { ListServicesPages :=
      ([[{ ServiceCode := "ec2", ServiceName := "Amazon Elastic Compute Cloud (Amazon EC2)" }]],
        none)
    ListAWSDefaultServiceQuotasPages := fun _ =>
      ([[{ Adjustable := true
           GlobalQuota := false
           QuotaName := "Elastic IPs"
           QuotaCode := "L-A"
           ServiceCode := "ec2"
           ServiceName := "Amazon Elastic Compute Cloud (Amazon EC2)"
           Value := .fin 100
           UsageMetric := none }]], none)
    GetServiceQuota := fun _ _ => .error "NoSuchResourceException: not found" }

/-- An account whose service listing fails at once. -/
def listingDownAws : Aws :=
  { NewSession := none
    client :=
      { sampleClient with
        ListServicesPages := ([], some "RequestError: send request failed") } }

/-- An account whose quota listing fails for every service. -/
def quotasDownClient : servicequotas.Client :=
  { sampleClient with
    ListAWSDefaultServiceQuotasPages := fun _ => ([], some "TooManyRequestsException") }

/-! ## IAM actions -/

/-- Source `quotas.GetIam`. -/
def quotas.GetIam : List String :=
  ["servicequotas:GetServiceQuota", "servicequotas:ListAWSDefaultServiceQuotas",
   "servicequotas:ListServices"]

/-- Source `cloudwatch.GetIam`. -/
def cloudwatch.GetIam : List String := ["cloudwatch:GetMetricStatistics"]

/-- Source `autoscaling.GetIam`: the action needed for each quota code. -/
def autoscaling.GetIam : GoMap String :=
  [
   ("L-CDE20ADC", "autoscaling:DescribeAutoScalingGroups"),
   ("L-6B80B8FA", "autoscaling:DescribeLaunchConfigurations")]

/-- Source `cloudformation.GetIam`: the action needed for each quota code. -/
def cloudformation.GetIam : GoMap String :=
  [
   ("L-0485CB21", "cloudformation:DescribeStacks"),
   ("L-31709F13", "cloudformation:ListStackSets")]

/-- Source `ec2.GetIam`: the action needed for each quota code. -/
def ec2.GetIam : GoMap String :=
  [
   ("L-949445B0", "ec2:DescribeHosts"),
   ("L-E4BF28E0", "ec2:DescribeHosts"),
   ("L-81657574", "ec2:DescribeHosts"),
   ("L-C93F66A2", "ec2:DescribeHosts"),
   ("L-20F13EBD", "ec2:DescribeHosts"),
   ("L-8B27377A", "ec2:DescribeHosts"),
   ("L-DE82EABA", "ec2:DescribeHosts"),
   ("L-9675FDCD", "ec2:DescribeHosts"),
   ("L-CAE24619", "ec2:DescribeHosts"),
   ("L-84391ECC", "ec2:DescribeHosts"),
   ("L-6222C1B6", "ec2:DescribeHosts"),
   ("L-77EE2B11", "ec2:DescribeHosts"),
   ("L-EF30B25E", "ec2:DescribeHosts"),
   ("L-8B7BF662", "ec2:DescribeHosts"),
   ("L-B10F70D6", "ec2:DescribeHosts"),
   ("L-8CCBD91B", "ec2:DescribeHosts"),
   ("L-DA07429F", "ec2:DescribeHosts"),
   ("L-D50A37FA", "ec2:DescribeHosts"),
   ("L-2753CF59", "ec2:DescribeHosts"),
   ("L-A0A19F79", "ec2:DescribeHosts"),
   ("L-B7208018", "ec2:DescribeHosts"),
   ("L-313524BA", "ec2:DescribeHosts"),
   ("L-EA4FD6CF", "ec2:DescribeHosts"),
   ("L-8FE30D52", "ec2:DescribeHosts"),
   ("L-EC7178B6", "ec2:DescribeHosts"),
   ("L-8814B54F", "ec2:DescribeHosts"),
   ("L-4AB14223", "ec2:DescribeHosts"),
   ("L-52EF324A", "ec2:DescribeHosts"),
   ("L-DE3D9563", "ec2:DescribeHosts"),
   ("L-DEF8E115", "ec2:DescribeHosts"),
   ("L-F035E935", "ec2:DescribeHosts"),
   ("L-7029FAB6", "ec2:DescribeVpnGateways"),
   ("L-3E6EC3A3", "ec2:DescribeVpnConnections"),
   ("L-A2478D36", "ec2:DescribeTransitGateways"),
   ("L-4FB7FF5D", "ec2:DescribeCustomerGateways"),
   ("L-0263D0A3", "ec2:DescribeAddresses")]

/-- Source `efs.GetIam`: the action needed for each quota code. -/
def efs.GetIam : GoMap String :=
  [
   ("L-848C634D", "elasticfilesystem:DescribeFileSystems")]

/-- Source `elasticbeanstalk.GetIam`: the action needed for each quota code. -/
def elasticbeanstalk.GetIam : GoMap String :=
  [
   ("L-D64F1F14", "elasticbeanstalk:DescribeApplicationVersions"),
   ("L-1CEABD17", "elasticbeanstalk:DescribeApplications"),
   ("L-8EFC1C51", "elasticbeanstalk:DescribeEnvironments")]

/-- Source `elb.GetIam`: the action needed for each quota code. -/
def elb.GetIam : GoMap String :=
  [
   ("L-E9E9831D", "elasticloadbalancing:DescribeLoadBalancers"),
   ("L-53DA6B97", "elasticloadbalancing:DescribeLoadBalancers")]

/-- Source `s3.GetIam`: the action needed for each quota code. -/
def s3.GetIam : GoMap String :=
  [
   ("L-DC2B2D3D", "s3:ListAllMyBuckets"),
   ("L-FAABEEBA", "s3:ListAccessPoints; sts:GetCallerIdentity")]

/-- Source `vpc.GetIam`: the action needed for each quota code. -/
def vpc.GetIam : GoMap String :=
  [
   ("L-1B52E74A", "ec2:DescribeVpcEndpoints"),
   ("L-29B6F2EB", "ec2:DescribeVpcEndpoints"),
   ("L-45FE3B85", "ec2:DescribeEgressOnlyInternetGateways"),
   ("L-A4707A72", "ec2:DescribeInternetGateways"),
   ("L-B4A6D682", "ec2:DescribeNetworkAcls"),
   ("L-DF5E4CA3", "ec2:DescribeNetworkInterfaces"),
   ("L-E79EC296", "ec2:DescribeSecurityGroups"),
   ("L-F678F1CE", "ec2:DescribeVpcs")]

namespace runner

/-- Source `runner.iamActions`. -/
abbrev iamActions := GoMap (List String)

/-- The map `actionsWithQuotas` that `runner.GetIam` builds. -/
def GetIam.actionsWithQuotas : GoMap (GoMap String) :=
  [("autoscaling", autoscaling.GetIam), ("cloudformation", cloudformation.GetIam),
   ("ec2", ec2.GetIam), ("elasticfilesystem", efs.GetIam),
   ("elasticbeanstalk", elasticbeanstalk.GetIam), ("elasticloadbalancing", elb.GetIam),
   ("s3", s3.GetIam), ("vpc", vpc.GetIam)]

/-- Inner loop of `runner.GetIam` over the quotas of one service, in the order of
that range. -/
def GetIam.actions (allowedQuotas : Option (List String)) :
    List (String × String) → List String → List String
  | [], actions => actions
  | (quota, action) :: rest, actions =>
    if isQuotaAllowed allowedQuotas quota then
      GetIam.actions allowedQuotas rest (actions ++ [action])
    else GetIam.actions allowedQuotas rest actions

/-- Outer loop of `runner.GetIam` over the entries of `actionsWithQuotas`. -/
def GetIam.loop (allowedServices : AllowFilter) :
    List (String × GoMap String) → iamActions → iamActions
  | [], serviceActions => serviceActions
  | (service, quotas) :: rest, serviceActions =>
    let allowed : Bool × Option (List String) :=
      match allowedServices with
      | none => (true, none)
      | some filter =>
        match filter.get? service with
        | some allowedQuotas => (true, allowedQuotas)
        | none => (false, none)
    if allowed.1 then
      GetIam.loop allowedServices rest
        (GoMap.set serviceActions service (GetIam.actions allowed.2 quotas []))
    else GetIam.loop allowedServices rest serviceActions

/-- Source `runner.GetIam`; `actionsEnum` lists the entries of `actionsWithQuotas`,
and the quotas of each, in the order in which the two ranges visit them. -/
def GetIam (allowedServices : AllowFilter) (actionsEnum : GoMap (GoMap String)) : iamActions :=
  GetIam.loop allowedServices actionsEnum
    (GoMap.set (GoMap.set ([] : iamActions) "quotas" quotas.GetIam) "cloudwatch" quotas.GetIam)

end runner

/-! ## CloudWatch -/

namespace cloudwatch

/-- The SDK's `cloudwatch.Datapoint`, the two statistics that the code reads. -/
structure Datapoint where
  Sum : Option F64
  Maximum : Option F64
  deriving DecidableEq

/-- The SDK's `cloudwatch.GetMetricStatisticsOutput`; `Datapoints` is nil or a
slice. -/
structure GetMetricStatisticsOutput where
  Datapoints : Option (List Datapoint)
  deriving DecidableEq

/-- What the SDK hands over for a request of the statistic `stat`: its decoder
allocates `Datapoints` when it reads the first member, so the slice is nil or
holds a datapoint, and a datapoint carries the statistic that was asked for. -/
def GetMetricStatisticsOutput.Decoded (stat : String) (data : GetMetricStatisticsOutput) :
    Prop :=
  data.Datapoints ≠ some [] ∧
  ∀ ds, data.Datapoints = some ds → ∀ d ∈ ds,
    (stat = "Sum" → d.Sum ≠ none) ∧ (stat = "Maximum" → d.Maximum ≠ none)

/-- The answers that one call of `GetUsageFromMetric` gets: the error of
`time.LoadLocation`, if any, and the answer of `GetMetricStatistics`. -/
structure Api where
  LoadLocation : Option String
  GetMetricStatistics : MetricInfo → Except String GetMetricStatisticsOutput

/-- Source `cloudwatch.CW`, without the client. -/
structure CW where
  region : String
  period : Int
  threshold : Int

/-- Source `cloudwatch.NewCW` once the session is created. -/
def NewCW (region : String) : CW := { region := region, period := 300, threshold := 5 }

/-- The element `s[0]` of a slice. -/
def first {α : Type} : List α → Run α
  | [] => .error .indexOutOfRange
  | a :: _ => .ok a

/-- Source `CW.GetUsageFromMetric`; an error stands for the pair `nil, err`. -/
def CW.GetUsageFromMetric (_c : CW) (api : Api) (usageMetric : MetricInfo) :
    Run (Except String Int) :=
  match api.LoadLocation with
  | some err => pure (.error ("Error while loading time location: " ++ err))
  | none =>
    match api.GetMetricStatistics usageMetric with
    | .error err => pure (.error ("Error while getting metric statistics: " ++ err))
    | .ok data =>
      match data.Datapoints with
      | none => pure (.ok 0)
      | some datapoints =>
        if usageMetric.MetricStatisticRecommendation = "Sum" then do
          let d ← first datapoints
          let sum ← deref d.Sum
          pure (.ok sum.toInt)
        else if usageMetric.MetricStatisticRecommendation = "Maximum" then do
          let d ← first datapoints
          let maximum ← deref d.Maximum
          pure (.ok maximum.toInt)
        else pure (.ok 0)

end cloudwatch

/-! ## NewRunner -/

namespace Runner

/-- Source `Runner.GetSupportedQuotasForService`. -/
def GetSupportedQuotasForService (r : Runner) (serviceCode : String) :
    Run (Except String (List String)) := do
  let qs ← deref r.quotas
  match qs.ListQuotasCodes serviceCode with
  | .error err => pure (.error ("Error while listing quotas: " ++ err))
  | .ok res => pure (.ok res)

/-- Loop of `Runner.createQuotasServiceInfo` over the service codes. -/
def createQuotasServiceInfo.loop (r : Runner) : List String → GoMap String → Run (GoMap String)
  | [], quotasServiceInfo => pure quotasServiceInfo
  | s :: rest, quotasServiceInfo => do
    let res ← r.GetSupportedQuotasForService s
    let quotas : List String :=
      match res with
      | .ok quotas => quotas
      | .error _ => []
    createQuotasServiceInfo.loop r rest
      (quotas.foldl (fun acc q => acc.set q s) quotasServiceInfo)

/-- Source `Runner.createQuotasServiceInfo`. -/
def createQuotasServiceInfo (r : Runner) : Run (GoMap String) := do
  let codes ← deref r.quotaServiceCodes
  createQuotasServiceInfo.loop r codes []

/-- The error of `session.NewSession`, if any, in each constructor that
`NewRunner` calls after `quotas.NewQuota`. -/
structure Sessions where
  ec2 : Option String
  cloudformation : Option String
  elasticbeanstalk : Option String
  autoscaling : Option String
  s3 : Option String
  vpc : Option String
  elb : Option String
  efs : Option String
  cloudwatch : Option String

/-- One block of `Runner.createServicesClients`: the error returned, if any. -/
def createServicesClients.client (r : Runner) (code label : String) (session : Option String) :
    Option String :=
  if (r.checkIfServiceAllowed code).1 then
    match session with
    | some err =>
      some ("Error while creating " ++ label ++ " client: " ++
        ("Error while creating session: " ++ err))
    | none => none
  else none

/-- Source `Runner.createServicesClients`: the error returned, if any. -/
def createServicesClients (r : Runner) (sessions : Sessions) : Option String :=
  (createServicesClients.client r "ec2" "ec2" sessions.ec2).orElse fun _ =>
  (createServicesClients.client r "cloudformation" "cloudformation"
    sessions.cloudformation).orElse fun _ =>
  (createServicesClients.client r "elasticbeanstalk" "elasticbeanstalk"
    sessions.elasticbeanstalk).orElse fun _ =>
  (createServicesClients.client r "autoscaling" "autoscaling" sessions.autoscaling).orElse fun _ =>
  (createServicesClients.client r "s3" "S3" sessions.s3).orElse fun _ =>
  (createServicesClients.client r "vpc" "VPC" sessions.vpc).orElse fun _ =>
  (createServicesClients.client r "elasticloadbalancing" "ELB" sessions.elb).orElse fun _ =>
  createServicesClients.client r "elasticfilesystem" "EFS" sessions.efs

end Runner

/-- Source `runner.NewRunner`; an error stands for the pair `nil, err`. -/
def NewRunner (aws : Aws) (sessions : Runner.Sessions) (env : Runner.Env) (region : String)
    (allowedServices : AllowFilter) : Run (Except String Runner) := do
  match ← NewQuota aws region allowedServices with
  | .error err => pure (.error ("Error while creating quota client: " ++ err))
  | .ok quotas =>
    let r0 : Runner :=
      { region := region
        allowedServices := allowedServices
        quotas := some quotas
        quotaServiceCodes := some quotas.ListServicesCodes
        quotaMetricUsage := none
        quotaApiUsage := none
        quotaUsage := none
        quotasServiceInfo := none
        alarms := [] }
    match r0.createServicesClients sessions with
    | some err => pure (.error ("Error while creating service clients: " ++ err))
    | none =>
      match sessions.cloudwatch with
      | some err =>
        pure (.error ("Error while creating cloudwatch client: " ++
          ("Error while creating session: " ++ err)))
      | none =>
        match ← r0.getQuotaMetricUsage env with
        | .error err =>
          pure (.error
            ("Error while getting usage for quotas from cloudwatch metrics: " ++ err))
        | .ok quotaMetricUsage =>
          let r1 := { r0 with quotaMetricUsage := some quotaMetricUsage }
          match r1.getQuotaApiUsage env with
          | .error err =>
            pure (.error ("Error while getting usage for quotas from api: " ++ err))
          | .ok quotaApiUsage =>
            let r2 := { r1 with
              quotaApiUsage := some quotaApiUsage
              quotaUsage := some (MergeMaps [quotaMetricUsage, quotaApiUsage]) }
            let quotasServiceInfo ← r2.createQuotasServiceInfo
            pure (.ok { r2 with quotasServiceInfo := some quotasServiceInfo })

/-- Sessions that are all created. -/
def sampleSessions : Runner.Sessions :=
  { ec2 := none, cloudformation := none, elasticbeanstalk := none, autoscaling := none,
    s3 := none, vpc := none, elb := none, efs := none, cloudwatch := none }

/-- The catalog is keyed as `getServicesMap` and `getQuotasMap` key it: every
service code and, within a service, every quota code is held once, and a quota
record is stored under its own QuotaCode. -/
def Quotas.Consistent (q : Quotas) : Prop :=
  q.servicesMap.WF ∧
  ∀ e ∈ q.servicesMap, e.2.serviceQuotas.WF ∧ ∀ kq ∈ e.2.serviceQuotas, kq.2.QuotaCode = kq.1

/-- The sample account with its session. -/
def sampleAws : Aws := { NewSession := none, client := sampleClient }

/-- The catalog that `NewQuota` loads from the sample account. -/
def sampleLoaded : Quotas :=
  { region := "us-east-1"
    allowedServices := none
    servicesMap :=
      [("ec2",
        { serviceName := "Amazon Elastic Compute Cloud (Amazon EC2)"
          serviceQuotas := [("L-A", sampleQuota "L-A" "Elastic IPs" 100 none)] })] }

/-- The usage maps that the allowed services report, in the order in which
`getQuotaApiUsage` asks the sources: the maps whose merge the result is compared
with. -/
def Runner.allowedUsageMaps (r : Runner) (env : Runner.Env) : List (GoMap Int) :=
  env.sources.filterMap
    (fun s => if (r.checkIfServiceAllowed s.1).1 then s.2.toOption else none)

/-- The merged view is the merge of the two usage maps that the Runner holds. -/
def Runner.MergedView (r : Runner) : Prop :=
  ∃ metric api, r.quotaMetricUsage = some metric ∧ r.quotaApiUsage = some api ∧
    r.quotaUsage = some (MergeMaps [metric, api])

/-- Usage sources of which CloudFormation, EC2 and S3 report usage. -/
def mixedEnv : Runner.Env :=
  { sampleEnv with
    cfGetUsage := .ok [("L-0485CB21", 4)]
    s3GetUsage := .ok [("L-DC2B2D3D", 2)] }

/-- A Runner whose allow filter names `ec2` and `s3` only. -/
def filteredRunner : Runner :=
  { sampleRunner [] [] [] with allowedServices := some [("ec2", none), ("s3", none)] }
open Runner

/-! ## Rounding to binary64 -/

namespace F64

theorem bitsAux_spec (fuel : Nat) : ∀ n, n ≤ fuel → n ≠ 0 →
    1 ≤ bitsAux fuel n ∧ 2 ^ (bitsAux fuel n - 1) ≤ n ∧ n < 2 ^ bitsAux fuel n := by
  induction fuel with
  | zero => intro n h1 h2; omega
  | succ f ih =>
    intro n h1 h2
    simp only [bitsAux, if_neg h2]
    by_cases h0 : n / 2 = 0
    · have hb : bitsAux f (n / 2) = 0 := by
        rw [h0]; cases f <;> simp [bitsAux]
      rw [hb]
      have : n = 1 := by omega
      subst this
      simp
    · obtain ⟨i1, i2, i3⟩ := ih (n / 2) (by omega) h0
      refine ⟨by omega, ?_, ?_⟩
      · have e : bitsAux f (n / 2) + 1 - 1 = (bitsAux f (n / 2) - 1) + 1 := by omega
        rw [e, pow_succ]
        omega
      · rw [pow_succ]
        omega

theorem bits_spec (n : Nat) (h : n ≠ 0) :
    1 ≤ bits n ∧ 2 ^ (bits n - 1) ≤ n ∧ n < 2 ^ bits n :=
  bitsAux_spec n n (le_refl n) h

theorem ilog2_aux (n d bn bd : ℕ) (q : ℚ) (hd0 : d ≠ 0) (hqe : q = (n : ℚ) / (d : ℚ))
    (n1 : 1 ≤ bn) (n2 : 2 ^ (bn - 1) ≤ n) (n3 : n < 2 ^ bn)
    (d1 : 1 ≤ bd) (d2 : 2 ^ (bd - 1) ≤ d) (d3 : d < 2 ^ bd) :
    (2 : ℚ) ^ ((bn : ℤ) - (bd : ℤ) - 1) ≤ q ∧ q < (2 : ℚ) ^ ((bn : ℤ) - (bd : ℤ) + 1) := by
  have hdpos : (0 : ℚ) < (d : ℚ) := by
    have : 0 < d := Nat.pos_of_ne_zero hd0
    exact_mod_cast this
  have n2q : (2 : ℚ) ^ (bn - 1) ≤ (n : ℚ) := by exact_mod_cast n2
  have n3q : (n : ℚ) < (2 : ℚ) ^ bn := by exact_mod_cast n3
  have d2q : (2 : ℚ) ^ (bd - 1) ≤ (d : ℚ) := by exact_mod_cast d2
  have d3q : (d : ℚ) < (2 : ℚ) ^ bd := by exact_mod_cast d3
  have hbn1 : (2 : ℚ) ^ bn = 2 ^ (bn - 1) * 2 := by
    rw [← pow_succ]; congr 1; omega
  have hbd1 : (2 : ℚ) ^ bd = 2 ^ (bd - 1) * 2 := by
    rw [← pow_succ]; congr 1; omega
  have hp1 : (0 : ℚ) < 2 ^ (bn - 1) := by positivity
  have hp2 : (0 : ℚ) < 2 ^ (bd - 1) := by positivity
  have hp3 : (0 : ℚ) < 2 ^ bd := by positivity
  have hk : (2 : ℚ) ^ ((bn : ℤ) - (bd : ℤ)) = 2 ^ bn / 2 ^ bd := by
    rw [zpow_sub₀ (two_ne_zero), zpow_natCast, zpow_natCast]
  have hk1 : (2 : ℚ) ^ ((bn : ℤ) - (bd : ℤ) + 1) = 2 ^ bn * 2 / 2 ^ bd := by
    rw [zpow_add_one₀ (two_ne_zero), hk]; ring
  have hk0 : (2 : ℚ) ^ ((bn : ℤ) - (bd : ℤ) - 1) = 2 ^ (bn - 1) / 2 ^ bd := by
    rw [zpow_sub₀ (two_ne_zero), hk, zpow_one, hbn1]
    field_simp
    ring
  constructor
  · rw [hk0, hqe, div_le_div_iff₀ hp3 hdpos]
    nlinarith
  · rw [hk1, hqe, div_lt_div_iff₀ hdpos hp3]
    rw [hbd1]
    nlinarith

theorem ilog2_spec (q : ℚ) (hq : 0 < q) :
    (2 : ℚ) ^ ilog2 q ≤ q ∧ q < (2 : ℚ) ^ (ilog2 q + 1) := by
  have hn : 0 < q.num := Rat.num_pos.mpr hq
  have hn0 : q.num.natAbs ≠ 0 := by omega
  have hd0 : q.den ≠ 0 := q.den_nz
  obtain ⟨n1, n2, n3⟩ := bits_spec _ hn0
  obtain ⟨d1, d2, d3⟩ := bits_spec _ hd0
  have hnum : ((q.num.natAbs : ℕ) : ℚ) = (q.num : ℚ) := by
    rw [Nat.cast_natAbs, abs_of_pos hn]
  have hqe : q = ((q.num.natAbs : ℕ) : ℚ) / ((q.den : ℕ) : ℚ) := by
    rw [hnum]; exact (Rat.num_div_den q).symm
  obtain ⟨h1, h2⟩ := ilog2_aux _ _ _ _ q hd0 hqe n1 n2 n3 d1 d2 d3
  unfold ilog2
  simp only
  split
  · rename_i h
    exact ⟨h, h2⟩
  · rename_i h
    refine ⟨h1, ?_⟩
    rw [sub_add_cancel]
    exact lt_of_not_ge h

theorem le_ilog2 (q : ℚ) (hq : 0 < q) (k : ℤ) (h : (2 : ℚ) ^ k ≤ q) : k ≤ ilog2 q := by
  have h1 := lt_of_le_of_lt h (ilog2_spec q hq).2
  have := (zpow_lt_zpow_iff_right₀ (one_lt_two : (1 : ℚ) < 2)).mp h1
  omega

theorem ilog2_lt (q : ℚ) (hq : 0 < q) (k : ℤ) (h : q < (2 : ℚ) ^ k) : ilog2 q < k := by
  have h1 := lt_of_le_of_lt (ilog2_spec q hq).1 h
  exact (zpow_lt_zpow_iff_right₀ (one_lt_two : (1 : ℚ) < 2)).mp h1

theorem ilog2_mono (a b : ℚ) (ha : 0 < a) (hab : a ≤ b) : ilog2 a ≤ ilog2 b :=
  le_ilog2 b (lt_of_lt_of_le ha hab) _ (le_trans (ilog2_spec a ha).1 hab)

theorem ulpExp_mono (a b : ℚ) (ha : 0 < a) (hab : a ≤ b) : ulpExp a ≤ ulpExp b := by
  have := ilog2_mono a b ha hab
  unfold ulpExp
  omega

theorem roundHalfEven_bounds (s : ℚ) : ⌊s⌋ ≤ roundHalfEven s ∧ roundHalfEven s ≤ ⌊s⌋ + 1 := by
  unfold roundHalfEven
  split_ifs <;> omega

theorem roundHalfEven_intCast (n : ℤ) : roundHalfEven (n : ℚ) = n := by
  unfold roundHalfEven
  simp

theorem roundHalfEven_mono (a b : ℚ) (hab : a ≤ b) : roundHalfEven a ≤ roundHalfEven b := by
  have hf : ⌊a⌋ ≤ ⌊b⌋ := Int.floor_le_floor hab
  by_cases heq : ⌊a⌋ = ⌊b⌋
  · unfold roundHalfEven
    rw [heq]
    split_ifs <;> first | omega | linarith
  · have h1 := (roundHalfEven_bounds a).2
    have h2 := (roundHalfEven_bounds b).1
    omega

theorem le_roundHalfEven (s : ℚ) (n : ℤ) (h : (n : ℚ) ≤ s) : n ≤ roundHalfEven s := by
  have := roundHalfEven_mono _ _ h
  rwa [roundHalfEven_intCast] at this

theorem roundHalfEven_le (s : ℚ) (n : ℤ) (h : s ≤ (n : ℚ)) : roundHalfEven s ≤ n := by
  have := roundHalfEven_mono _ _ h
  rwa [roundHalfEven_intCast] at this

theorem nearest_le_pow (a : ℚ) (ha : 0 < a) : nearest a ≤ (2 : ℚ) ^ (ulpExp a + 53) := by
  have hp : (0 : ℚ) < 2 ^ ulpExp a := zpow_pos (by norm_num) _
  have h1 : ilog2 a + 1 ≤ ulpExp a + 53 := by unfold ulpExp; omega
  have h2 : a < (2 : ℚ) ^ (ulpExp a + 53) :=
    lt_of_lt_of_le (ilog2_spec a ha).2 (zpow_le_zpow_right₀ (by norm_num) h1)
  have h3 : (2 : ℚ) ^ (ulpExp a + 53) = ((2 ^ 53 : ℤ) : ℚ) * 2 ^ ulpExp a := by
    rw [zpow_add₀ (two_ne_zero), mul_comm]; norm_num
  have h4 : a / 2 ^ ulpExp a ≤ ((2 ^ 53 : ℤ) : ℚ) := by
    rw [div_le_iff₀ hp, ← h3]; exact le_of_lt h2
  have h5 := roundHalfEven_le _ _ h4
  unfold nearest
  rw [h3]
  exact mul_le_mul_of_nonneg_right (by exact_mod_cast h5) (le_of_lt hp)

theorem pow_le_nearest (b : ℚ) (hb : 0 < b) (he : -1074 < ulpExp b) :
    (2 : ℚ) ^ (ulpExp b + 52) ≤ nearest b := by
  have hp : (0 : ℚ) < 2 ^ ulpExp b := zpow_pos (by norm_num) _
  have h1 : ulpExp b + 52 = ilog2 b := by unfold ulpExp at he ⊢; omega
  have h3 : (2 : ℚ) ^ (ulpExp b + 52) = ((2 ^ 52 : ℤ) : ℚ) * 2 ^ ulpExp b := by
    rw [zpow_add₀ (two_ne_zero), mul_comm]; norm_num
  have h2 : (2 : ℚ) ^ (ulpExp b + 52) ≤ b := by rw [h1]; exact (ilog2_spec b hb).1
  have h4 : ((2 ^ 52 : ℤ) : ℚ) ≤ b / 2 ^ ulpExp b := by
    rw [le_div_iff₀ hp, ← h3]; exact h2
  have h5 := le_roundHalfEven _ _ h4
  unfold nearest
  rw [h3]
  exact mul_le_mul_of_nonneg_right (by exact_mod_cast h5) (le_of_lt hp)

theorem nearest_nonneg (q : ℚ) (hq : 0 < q) : 0 ≤ nearest q := by
  have hp : (0 : ℚ) < 2 ^ ulpExp q := zpow_pos (by norm_num) _
  have h : ((0 : ℤ) : ℚ) ≤ q / 2 ^ ulpExp q := by
    rw [Int.cast_zero]; exact le_of_lt (div_pos hq hp)
  have h5 := le_roundHalfEven _ _ h
  unfold nearest
  exact mul_nonneg (by exact_mod_cast h5) (le_of_lt hp)

theorem nearest_mono (a b : ℚ) (ha : 0 < a) (hab : a ≤ b) : nearest a ≤ nearest b := by
  have hb : 0 < b := lt_of_lt_of_le ha hab
  have he := ulpExp_mono a b ha hab
  rcases eq_or_lt_of_le he with heq | hlt
  · have hp : (0 : ℚ) < 2 ^ ulpExp b := zpow_pos (by norm_num) _
    unfold nearest
    rw [heq]
    have h1 : a / 2 ^ ulpExp b ≤ b / 2 ^ ulpExp b := div_le_div_of_nonneg_right hab (le_of_lt hp)
    have h2 := roundHalfEven_mono _ _ h1
    exact mul_le_mul_of_nonneg_right (by exact_mod_cast h2) (le_of_lt hp)
  · have h1 := nearest_le_pow a ha
    have h2 := pow_le_nearest b hb (by unfold ulpExp at hlt ⊢; omega)
    have h3 : (2 : ℚ) ^ (ulpExp a + 53) ≤ (2 : ℚ) ^ (ulpExp b + 52) :=
      zpow_le_zpow_right₀ (by norm_num) (by omega)
    exact le_trans h1 (le_trans h3 h2)

theorem nearest_of_int (q : ℚ) (m : ℤ) (h : q / 2 ^ ulpExp q = (m : ℚ)) : nearest q = q := by
  have hp : (0 : ℚ) < 2 ^ ulpExp q := zpow_pos (by norm_num) _
  unfold nearest
  rw [h, roundHalfEven_intCast, ← h]
  field_simp

theorem nearest_dyadic (m : ℕ) (k : ℤ) (hm0 : 0 < m) (hm : m < 2 ^ 53) (hk : -1074 ≤ k) :
    nearest ((m : ℚ) * 2 ^ k) = (m : ℚ) * 2 ^ k := by
  have hmq : (0 : ℚ) < (m : ℚ) := by exact_mod_cast hm0
  have hq : (0 : ℚ) < (m : ℚ) * 2 ^ k := mul_pos hmq (zpow_pos (by norm_num) _)
  have h1 : (m : ℚ) * 2 ^ k < (2 : ℚ) ^ (k + 53) := by
    rw [zpow_add₀ (two_ne_zero), mul_comm]
    have : (m : ℚ) < (2 : ℚ) ^ (53 : ℤ) := by
      have h : (m : ℚ) < (2 : ℚ) ^ (53 : ℕ) := by exact_mod_cast hm
      exact_mod_cast h
    exact mul_lt_mul_of_pos_left this (zpow_pos (by norm_num) _)
  have h2 := ilog2_lt _ hq _ h1
  have he : ulpExp ((m : ℚ) * 2 ^ k) ≤ k := by unfold ulpExp; omega
  obtain ⟨n, hn⟩ := Int.eq_ofNat_of_zero_le (sub_nonneg.mpr he)
  apply nearest_of_int _ ((m : ℤ) * 2 ^ n)
  rw [mul_div_assoc, ← zpow_sub₀ (two_ne_zero), hn]
  push_cast
  rw [zpow_natCast]

theorem round_ne_nan (q : ℚ) : round q ≠ .nan := by
  unfold round
  split_ifs <;> simp

theorem round_zero : round 0 = .fin 0 := by
  simp [round]

theorem round_mono (a b : ℚ) (hab : a ≤ b) : (round b).ge (round a) = true := by
  have h1 : ¬ 0 < a ∨ nearest a ≤ nearest b := by
    by_cases h : 0 < a
    · exact Or.inr (nearest_mono a b h hab)
    · exact Or.inl h
  have h2 : ¬ b < 0 ∨ nearest (-b) ≤ nearest (-a) := by
    by_cases h : b < 0
    · exact Or.inr (nearest_mono (-b) (-a) (by linarith) (by linarith))
    · exact Or.inl h
  have h3 : ¬ 0 < b ∨ 0 ≤ nearest b := by
    by_cases h : 0 < b
    · exact Or.inr (nearest_nonneg b h)
    · exact Or.inl h
  have h4 : ¬ a < 0 ∨ 0 ≤ nearest (-a) := by
    by_cases h : a < 0
    · exact Or.inr (nearest_nonneg (-a) (by linarith))
    · exact Or.inl h
  unfold round
  split_ifs <;> simp only [ge, decide_eq_true_eq] <;>
    rcases h1 with h1 | h1 <;> rcases h2 with h2 | h2 <;> rcases h3 with h3 | h3 <;>
    rcases h4 with h4 | h4 <;> first | rfl | linarith

theorem round_of_fixed (q : ℚ) (hq : 0 < q) (h : nearest q = q) (hlt : q < (2 : ℚ) ^ (1024 : ℕ)) :
    round q = .fin q := by
  unfold round
  rw [if_pos hq, h, if_neg (not_le.mpr hlt)]

theorem round_neg_of_fixed (q : ℚ) (hq : 0 < q) (h : nearest q = q)
    (hlt : q < (2 : ℚ) ^ (1024 : ℕ)) : round (-q) = .fin (-q) := by
  unfold round
  rw [if_neg (by linarith), if_pos (by linarith), neg_neg, h, if_neg (not_le.mpr hlt)]

theorem round_dyadic (m : ℕ) (j : ℕ) (hm : m < 2 ^ 53) (hj : j ≤ 1074) :
    round ((m : ℚ) / 2 ^ j) = .fin ((m : ℚ) / 2 ^ j) := by
  rcases Nat.eq_zero_or_pos m with h0 | hm0
  · subst h0; simp [round_zero]
  · have he : (m : ℚ) / 2 ^ j = (m : ℚ) * 2 ^ (-(j : ℤ)) := by
      rw [zpow_neg, zpow_natCast]; rfl
    have hmq : (0 : ℚ) < (m : ℚ) := by exact_mod_cast hm0
    rw [he]
    apply round_of_fixed _ (mul_pos hmq (zpow_pos (by norm_num) _))
      (nearest_dyadic m _ hm0 hm (by omega))
    have h1 : (m : ℚ) < (2 : ℚ) ^ (53 : ℕ) := by exact_mod_cast hm
    have h2 : (2 : ℚ) ^ (-(j : ℤ)) ≤ 1 := by
      rw [zpow_neg, zpow_natCast]
      exact inv_le_one_of_one_le₀ (one_le_pow₀ (by norm_num))
    have h3 : (2 : ℚ) ^ (53 : ℕ) ≤ (2 : ℚ) ^ (1024 : ℕ) := pow_le_pow_right₀ (by norm_num) (by norm_num)
    calc (m : ℚ) * 2 ^ (-(j : ℤ)) ≤ (m : ℚ) * 1 :=
          mul_le_mul_of_nonneg_left h2 (le_of_lt hmq)
      _ < (2 : ℚ) ^ (1024 : ℕ) := by linarith

theorem round_natCast (n : ℕ) (h : n ≤ 2 ^ 53) : round (n : ℚ) = .fin (n : ℚ) := by
  rcases Nat.lt_or_ge n (2 ^ 53) with hlt | hge
  · simpa using round_dyadic n 0 hlt (by omega)
  · have hn : n = 2 ^ 53 := le_antisymm h hge
    subst hn
    have h1 : (((2 ^ 53 : ℕ) : ℕ) : ℚ) = ((2 ^ 52 : ℕ) : ℚ) * 2 ^ (1 : ℤ) := by norm_num
    rw [h1]
    apply round_of_fixed _ (by norm_num) (nearest_dyadic (2 ^ 52) 1 (by norm_num) (by norm_num) (by norm_num))
    norm_num

theorem ofInt_small (i : ℤ) (h : |i| ≤ 2 ^ 53) : ofInt i = .fin (i : ℚ) := by
  unfold ofInt
  rcases le_total 0 i with hi | hi
  · obtain ⟨n, rfl⟩ := Int.eq_ofNat_of_zero_le hi
    rw [abs_of_nonneg hi] at h
    have hn : n ≤ 2 ^ 53 := by exact_mod_cast h
    simpa using round_natCast n hn
  · obtain ⟨n, hn⟩ := Int.eq_ofNat_of_zero_le (neg_nonneg.mpr hi)
    have hi' : i = -(n : ℤ) := by omega
    subst hi'
    rw [abs_neg, abs_of_nonneg (by omega)] at h
    have hn : n ≤ 2 ^ 53 := by exact_mod_cast h
    rcases Nat.eq_zero_or_pos n with h0 | hpos
    · subst h0; simp [round_zero]
    · have hq : (0 : ℚ) < (n : ℚ) := by exact_mod_cast hpos
      have hr := round_natCast n hn
      have hfix : nearest (n : ℚ) = (n : ℚ) := by
        unfold round at hr
        rw [if_pos hq] at hr
        split_ifs at hr
        injection hr
      have hlt : (n : ℚ) < (2 : ℚ) ^ (1024 : ℕ) := by
        have : (n : ℚ) ≤ (2 : ℚ) ^ (53 : ℕ) := by exact_mod_cast hn
        have h3 : (2 : ℚ) ^ (53 : ℕ) < (2 : ℚ) ^ (1024 : ℕ) := by norm_num
        linarith
      push_cast
      exact round_neg_of_fixed _ hq hfix hlt

end F64

/-! ## Order of the rounded operations -/

namespace F64

theorem ge_trans (a b c : F64) (h1 : a.ge b = true) (h2 : b.ge c = true) : a.ge c = true := by
  cases a <;> cases b <;> cases c <;> simp_all [ge]
  linarith

theorem posInf_ge (x : F64) (h : x ≠ .nan) : F64.posInf.ge x = true := by
  cases x <;> simp_all [ge]

theorem ge_negInf (x : F64) (h : x ≠ .nan) : x.ge .negInf = true := by
  cases x <;> simp_all [ge]

theorem round_ge_of_le (a x : ℚ) (h : x ≤ a) (hx : round x = .fin x) :
    (round a).ge (.fin x) = true := by
  rw [← hx]; exact round_mono x a h

theorem ge_round_of_le (a x : ℚ) (h : a ≤ x) (hx : round x = .fin x) :
    (F64.fin x).ge (round a) = true := by
  rw [← hx]; exact round_mono a x h

theorem round_one : round 1 = .fin 1 := by
  simpa using round_natCast 1 (by norm_num)

theorem round_hundred : round 100 = .fin 100 := by
  simpa using round_natCast 100 (by norm_num)

theorem mul_hundred_mono (x y : F64) (h : x.ge y = true) :
    (mul x (.fin 100)).ge (mul y (.fin 100)) = true := by
  cases x <;> cases y <;> simp_all [ge, mul]
  · rename_i a b
    exact round_mono _ _ (by linarith)
  · exact ge_negInf _ (round_ne_nan _)
  · exact posInf_ge _ (round_ne_nan _)

theorem div_fin_fin (a d : ℚ) (hd : d ≠ 0) : div (.fin a) (.fin d) = round (a / d) := by
  simp [div, hd]

theorem div_posInf_fin (d : ℚ) (hd : 0 < d) : div .posInf (.fin d) = .posInf := by
  simp [div, not_lt.mpr (le_of_lt hd)]

theorem div_negInf_fin (d : ℚ) (hd : 0 < d) : div .negInf (.fin d) = .negInf := by
  simp [div, not_lt.mpr (le_of_lt hd)]

theorem div_mono_pos (x y : F64) (d : ℚ) (hd : 0 < d) (h : x.ge y = true) :
    (div x (.fin d)).ge (div y (.fin d)) = true := by
  have hd0 : d ≠ 0 := ne_of_gt hd
  have hd1 : ¬ d < 0 := not_lt.mpr (le_of_lt hd)
  cases x <;> cases y <;> simp only [div, if_neg hd0, if_neg hd1] <;>
    first
      | rfl
      | exact ge_negInf _ (round_ne_nan _)
      | exact posInf_ge _ (round_ne_nan _)
      | (simp only [ge, decide_eq_true_eq] at h
         exact round_mono _ _ (div_le_div_of_nonneg_right h (le_of_lt hd)))
      | simp [ge] at h

theorem ofInt_of_nonneg (i : ℤ) (h : 0 ≤ i) : (ofInt i).ge (.fin 0) = true := by
  have := round_mono 0 (i : ℚ) (by exact_mod_cast h)
  rwa [round_zero] at this

theorem ofInt_of_nonpos (i : ℤ) (h : i ≤ 0) : (F64.fin 0).ge (ofInt i) = true := by
  have := round_mono (i : ℚ) 0 (by exact_mod_cast h)
  rwa [round_zero] at this

theorem ofInt_of_pos (i : ℤ) (h : 0 < i) : (ofInt i).ge (.fin 1) = true := by
  have := round_mono 1 (i : ℚ) (by exact_mod_cast h)
  rwa [round_one] at this

theorem ofInt_of_neg (i : ℤ) (h : i < 0) : (F64.fin (-1)).ge (ofInt i) = true := by
  have h1 : round (-1) = .fin (-1) := by
    simpa using ofInt_small (-1) (by norm_num)
  have := round_mono (i : ℚ) (-1) (by exact_mod_cast (show i ≤ -1 by omega))
  rwa [h1] at this

theorem toInt_fin (x : ℚ) (hlo : minInt ≤ trunc x) (hhi : trunc x ≤ maxInt) :
    toInt (.fin x) = trunc x := by
  simp [toInt, hlo, hhi]

theorem no_round_up (x l t : ℤ) (hl : 0 < l) (ht : 1 ≤ t) (hb : t * l ≤ 2 ^ 52)
    (hlt : x < t * l) : (round ((x : ℚ) / (l : ℚ))).ge (.fin (t : ℚ)) = false := by
  obtain ⟨L, rfl⟩ := Int.eq_ofNat_of_zero_le (le_of_lt hl)
  obtain ⟨T, rfl⟩ := Int.eq_ofNat_of_zero_le (le_trans (by norm_num) ht)
  have hL0 : L ≠ 0 := by omega
  obtain ⟨b1, b2, b3⟩ := bits_spec L hL0
  have hT1 : 1 ≤ T := by omega
  have hTL : T * L ≤ 2 ^ 52 := by exact_mod_cast hb
  have hj : bits L ≤ 1074 := by
    by_contra hcon
    have h1 : 2 ^ 53 ≤ 2 ^ (bits L - 1) := Nat.pow_le_pow_right (by norm_num) (by omega)
    have h2 : L ≤ T * L := Nat.le_mul_of_pos_left L (by omega)
    have h3 : (2 : ℕ) ^ 52 < 2 ^ 53 := by norm_num
    omega
  have hpow : 2 ^ bits L = 2 * 2 ^ (bits L - 1) := by
    rw [← pow_succ']; congr 1; omega
  have hm1 : T * 2 ^ bits L ≤ 2 ^ 53 := by
    rw [hpow]
    calc T * (2 * 2 ^ (bits L - 1)) = 2 * (T * 2 ^ (bits L - 1)) := by ring
      _ ≤ 2 * (T * L) := by
          apply Nat.mul_le_mul_left
          exact Nat.mul_le_mul_left _ b2
      _ ≤ 2 * 2 ^ 52 := Nat.mul_le_mul_left _ hTL
      _ = 2 ^ 53 := by norm_num
  have hpos : 0 < T * 2 ^ bits L := Nat.mul_pos (by omega) (by positivity)
  have hr := round_dyadic (T * 2 ^ bits L - 1) (bits L) (by omega) hj
  have hLq : (0 : ℚ) < (L : ℚ) := by exact_mod_cast (Nat.pos_of_ne_zero hL0)
  have hPq : (0 : ℚ) < (2 : ℚ) ^ bits L := by positivity
  have hLP : (L : ℚ) ≤ (2 : ℚ) ^ bits L := by exact_mod_cast (le_of_lt b3)
  have hcast : ((T * 2 ^ bits L - 1 : ℕ) : ℚ) = (T : ℚ) * 2 ^ bits L - 1 := by
    rw [Nat.cast_sub (by omega)]; push_cast; ring
  have hxq : (x : ℚ) ≤ (T : ℚ) * (L : ℚ) - 1 := by
    have : x ≤ (T : ℤ) * (L : ℤ) - 1 := by omega
    exact_mod_cast this
  have hle : (x : ℚ) / ((L : ℤ) : ℚ) ≤ ((T * 2 ^ bits L - 1 : ℕ) : ℚ) / 2 ^ bits L := by
    rw [hcast, Int.cast_natCast, div_le_div_iff₀ hLq hPq]
    have h1 : (x : ℚ) * 2 ^ bits L ≤ ((T : ℚ) * (L : ℚ) - 1) * 2 ^ bits L :=
      mul_le_mul_of_nonneg_right hxq (le_of_lt hPq)
    have h2 : ((T : ℚ) * (L : ℚ) - 1) * 2 ^ bits L ≤ ((T : ℚ) * 2 ^ bits L - 1) * (L : ℚ) := by
      nlinarith
    linarith
  have hge := ge_round_of_le _ _ hle hr
  cases hc : (round ((x : ℚ) / (((L : ℕ) : ℤ) : ℚ))).ge (.fin (((T : ℕ) : ℤ) : ℚ)) with
  | false => rfl
  | true =>
    have h3 := ge_trans _ _ _ hge hc
    simp only [ge, decide_eq_true_eq, hcast, Int.cast_natCast] at h3
    rw [le_div_iff₀ hPq] at h3
    linarith

end F64

/-! ## The threshold test -/

theorem percents_exact (squ : ServiceQuotaUsage) (hl : 0 < squ.Value)
    (hu : |squ.Usage| * 100 ≤ 2 ^ 53) (hv : squ.Value ≤ 2 ^ 53) :
    CheckAlarms.percents squ = F64.round ((squ.Usage : ℚ) * 100 / (squ.Value : ℚ)) := by
  have h1 : F64.ofInt squ.Usage = .fin (squ.Usage : ℚ) :=
    F64.ofInt_small _ (by have := abs_nonneg squ.Usage; omega)
  have h2 : F64.round ((squ.Usage : ℚ) * 100) = .fin ((squ.Usage : ℚ) * 100) := by
    have := F64.ofInt_small (squ.Usage * 100) (by rw [abs_mul]; simpa using hu)
    simpa [F64.ofInt] using this
  have h3 : F64.ofInt squ.Value = .fin (squ.Value : ℚ) :=
    F64.ofInt_small _ (by rw [abs_of_pos hl]; exact hv)
  have hne : (squ.Value : ℚ) ≠ 0 := by
    have : (0 : ℚ) < (squ.Value : ℚ) := by exact_mod_cast hl
    exact ne_of_gt this
  simp only [CheckAlarms.percents, h1, h3, F64.mul, h2, F64.div, if_neg hne]

/-- In the range where the conversions and the product are exact, a threshold at
most usage*100/limit passes the test. -/
theorem matched_of_le (squ : ServiceQuotaUsage) (t : Int) (hl : 0 < squ.Value)
    (hu : |squ.Usage| * 100 ≤ 2 ^ 53) (hv : squ.Value ≤ 2 ^ 53)
    (h : t * squ.Value ≤ squ.Usage * 100) : Matched squ t := by
  unfold Matched
  rw [percents_exact squ hl hu hv]
  have hq : (0 : ℚ) < (squ.Value : ℚ) := by exact_mod_cast hl
  apply F64.round_mono
  rw [le_div_iff₀ hq]
  exact_mod_cast h

/-- In the range where the conversions and the product are exact and the quotient
cannot round up to the threshold, a threshold that passes the test is at most
usage*100/limit. -/
theorem le_of_matched (squ : ServiceQuotaUsage) (t : Int) (hl : 0 < squ.Value)
    (hu : |squ.Usage| * 100 ≤ 2 ^ 53) (ht : 1 ≤ t) (hb : t * squ.Value ≤ 2 ^ 52)
    (h : Matched squ t) : t * squ.Value ≤ squ.Usage * 100 := by
  by_contra hcon
  have hv : squ.Value ≤ 2 ^ 53 := by nlinarith
  have ht2 : |t| ≤ 2 ^ 53 := by
    rw [abs_of_pos (by omega)]; nlinarith
  unfold Matched at h
  rw [percents_exact squ hl hu hv, F64.ofInt_small t ht2] at h
  have := F64.no_round_up (squ.Usage * 100) squ.Value t hl ht hb (by omega)
  rw [Int.cast_mul] at this
  simp only [Int.cast_ofNat] at this
  rw [this] at h
  cases h

theorem not_matched_of_neg (squ : ServiceQuotaUsage) (t : Int) (hl : squ.Value < 0)
    (hu : 0 ≤ squ.Usage) (ht : 0 < t) : ¬ Matched squ t := by
  intro h
  unfold Matched CheckAlarms.percents at h
  have hT := F64.ofInt_of_pos t ht
  have h1 := F64.ge_trans _ _ _ h hT
  have hU := F64.mul_hundred_mono _ _ (F64.ofInt_of_nonneg _ hu)
  have h0 : F64.mul (.fin 0) (.fin 100) = .fin 0 := by simp [F64.mul, F64.round_zero]
  rw [h0] at hU
  have hL := F64.ofInt_of_neg _ hl
  generalize F64.mul (F64.ofInt squ.Usage) (.fin 100) = X at h1 hU
  generalize F64.ofInt squ.Value = L at h1 hL
  cases X with
  | nan => simp [F64.ge] at hU
  | negInf => simp [F64.ge] at hU
  | posInf =>
    cases L with
    | nan => simp [F64.ge] at hL
    | posInf => simp [F64.ge] at hL
    | negInf => simp [F64.div, F64.ge] at h1
    | fin d =>
      have hd : d < 0 := by
        simp only [F64.ge, decide_eq_true_eq] at hL; linarith
      simp [F64.div, hd, F64.ge] at h1
  | fin x =>
    have hx : 0 ≤ x := by simpa [F64.ge] using hU
    cases L with
    | nan => simp [F64.ge] at hL
    | posInf => simp [F64.ge] at hL
    | negInf =>
      simp only [F64.div, F64.ge, decide_eq_true_eq] at h1
      linarith
    | fin d =>
      have hd : d < 0 := by
        simp only [F64.ge, decide_eq_true_eq] at hL; linarith
      rw [F64.div_fin_fin _ _ (ne_of_lt hd)] at h1
      have h2 := F64.ge_round_of_le (x / d) 0
        (div_nonpos_of_nonneg_of_nonpos hx (le_of_lt hd)) F64.round_zero
      have h3 := F64.ge_trans _ _ _ h2 h1
      simp only [F64.ge, decide_eq_true_eq] at h3
      linarith

theorem not_matched_of_zero (squ : ServiceQuotaUsage) (t : Int) (hl : squ.Value = 0)
    (hu : squ.Usage ≤ 0) (ht : 0 < t) : ¬ Matched squ t := by
  intro h
  unfold Matched CheckAlarms.percents at h
  have hT := F64.ofInt_of_pos t ht
  have h1 := F64.ge_trans _ _ _ h hT
  have hU := F64.mul_hundred_mono _ _ (F64.ofInt_of_nonpos _ hu)
  have h0 : F64.mul (.fin 0) (.fin 100) = .fin 0 := by simp [F64.mul, F64.round_zero]
  rw [h0] at hU
  have hL : F64.ofInt squ.Value = .fin 0 := by
    rw [hl]; simp [F64.ofInt, F64.round_zero]
  rw [hL] at h1
  generalize F64.mul (F64.ofInt squ.Usage) (.fin 100) = X at h1 hU
  cases X with
  | nan => simp [F64.ge] at hU
  | posInf => simp [F64.ge] at hU
  | negInf => simp [F64.div, F64.ge] at h1
  | fin x =>
    have hx : x ≤ 0 := by simpa [F64.ge] using hU
    have hx' : ¬ 0 < x := not_lt.mpr hx
    by_cases hx0 : x < 0
    · simp [F64.div, hx', hx0, F64.ge] at h1
    · simp [F64.div, hx', hx0, F64.ge] at h1

/-- For a fixed positive limit the threshold test is monotone in the usage: the
conversion, the product and the quotient are rounded monotonically. -/
theorem matched_mono (squ1 squ2 : ServiceQuotaUsage) (t : Int) (hv : squ2.Value = squ1.Value)
    (hl : 0 < squ1.Value) (hu : squ1.Usage ≤ squ2.Usage) (ht : 0 < t) (h : Matched squ1 t) :
    Matched squ2 t := by
  unfold Matched CheckAlarms.percents at *
  rw [hv]
  have hU : (F64.ofInt squ2.Usage).ge (F64.ofInt squ1.Usage) = true :=
    F64.round_mono _ _ (by exact_mod_cast hu)
  have hM := F64.mul_hundred_mono _ _ hU
  have hL := F64.ofInt_of_pos squ1.Value hl
  have hT := F64.ofInt_of_pos t ht
  generalize F64.mul (F64.ofInt squ1.Usage) (.fin 100) = X1 at h hM
  generalize F64.mul (F64.ofInt squ2.Usage) (.fin 100) = X2 at hM
  generalize F64.ofInt squ1.Value = L at h hL
  cases L with
  | nan => simp [F64.ge] at hL
  | negInf => simp [F64.ge] at hL
  | fin d =>
    have hd : 0 < d := by
      simp only [F64.ge, decide_eq_true_eq] at hL; linarith
    exact F64.ge_trans _ _ _ (F64.div_mono_pos _ _ d hd hM) h
  | posInf =>
    have h1 := F64.ge_trans _ _ _ h hT
    cases X1 <;> simp [F64.div, F64.ge] at h1
    linarith

/-! ## The alarm loop -/

theorem scanInv_init (squ : ServiceQuotaUsage) : ScanInv squ [] (CheckAlarms.init squ) where
  max_nonneg := le_refl _
  le_max := by intro kv h; cases h
  not_found := fun _ => rfl
  found := by intro h; cases h

theorem scanInv_step (squ : ServiceQuotaUsage) (l : GoMap Int) (st : AlarmScan)
    (x : String × Int) (h : ScanInv squ l st) :
    ScanInv squ (l ++ [x]) (CheckAlarms.step squ st x) := by
  unfold CheckAlarms.step
  by_cases hm : Matched squ x.2
  · by_cases hx : x.2 > st.max
    · have hcond : ((CheckAlarms.percents squ).ge (F64.ofInt x.2) && decide (x.2 > st.max)) = true := by
        simp only [Bool.and_eq_true, decide_eq_true_eq]; exact ⟨hm, hx⟩
      rw [if_pos hcond]
      refine ⟨le_trans h.max_nonneg (le_of_lt hx), ?_, ?_, ?_⟩
      · intro kv hkv hk
        rcases List.mem_append.mp hkv with hkv | hkv
        · exact le_trans (h.le_max kv hkv hk) (le_of_lt hx)
        · simp at hkv; subst hkv; exact le_refl _
      · intro hf; cases hf
      · intro _
        refine ⟨lt_of_le_of_lt h.max_nonneg hx, hm, ?_, l, [], rfl, ?_⟩
        · cases hfd : st.found
          · rw [h.not_found hfd]
          · obtain ⟨_, _, hw, _⟩ := h.found hfd
            rw [hw]
        · intro kv hkv heq
          have h1 := h.le_max kv hkv (by rw [heq]; exact hm)
          have hx' : st.max < x.2 := hx
          rw [heq] at h1
          exact absurd h1 (not_le.mpr hx')
    · have hcond : ¬ (((CheckAlarms.percents squ).ge (F64.ofInt x.2) && decide (x.2 > st.max)) = true) := by
        simp [hx]
      rw [if_neg hcond]
      refine ⟨h.max_nonneg, ?_, h.not_found, ?_⟩
      · intro kv hkv hk
        rcases List.mem_append.mp hkv with hkv | hkv
        · exact h.le_max kv hkv hk
        · simp at hkv; subst hkv; exact not_lt.mp hx
      · intro hf
        obtain ⟨h1, h2, h3, pre, post, h4, h5⟩ := h.found hf
        exact ⟨h1, h2, h3, pre, post ++ [x], by rw [h4]; simp, h5⟩
  · have hcond : ¬ (((CheckAlarms.percents squ).ge (F64.ofInt x.2) && decide (x.2 > st.max)) = true) := by
      intro hc
      rw [Bool.and_eq_true] at hc
      exact hm hc.1
    rw [if_neg hcond]
    refine ⟨h.max_nonneg, ?_, h.not_found, ?_⟩
    · intro kv hkv hk
      rcases List.mem_append.mp hkv with hkv | hkv
      · exact h.le_max kv hkv hk
      · simp at hkv; subst hkv; exact absurd hk hm
    · intro hf
      obtain ⟨h1, h2, h3, pre, post, h4, h5⟩ := h.found hf
      exact ⟨h1, h2, h3, pre, post ++ [x], by rw [h4]; simp, h5⟩

theorem scanInv_foldl (squ : ServiceQuotaUsage) (l : GoMap Int) :
    ScanInv squ l (l.foldl (CheckAlarms.step squ) (CheckAlarms.init squ)) := by
  induction l using List.reverseRecOn with
  | nil => exact scanInv_init squ
  | append_singleton l x ih =>
    rw [List.foldl_append]
    exact scanInv_step squ l _ x ih

theorem quota_eq_some (e : GoMap Int) (squ : ServiceQuotaUsage) (w : Warning)
    (h : CheckAlarms.quota e squ = some w) :
    0 < w.Threshold ∧ Matched squ w.Threshold ∧
    (∀ kv ∈ e, Matched squ kv.2 → kv.2 ≤ w.Threshold) ∧
    w = { (CheckAlarms.init squ).warning with Name := w.Name, Threshold := w.Threshold } ∧
    ∃ pre post, e = pre ++ (w.Name, w.Threshold) :: post ∧ ∀ kv ∈ pre, kv.2 ≠ w.Threshold := by
  have inv := scanInv_foldl squ e
  unfold CheckAlarms.quota at h
  simp only at h
  generalize e.foldl (CheckAlarms.step squ) (CheckAlarms.init squ) = st at h inv
  split at h
  · rename_i hf
    injection h with h
    subst h
    obtain ⟨h1, h2, h3, h4⟩ := inv.found hf
    have hth : st.warning.Threshold = st.max := by rw [h3]
    rw [← hth] at h1 h2 h4
    refine ⟨h1, h2, ?_, ?_, h4⟩
    · intro kv hkv hm
      rw [hth]
      exact inv.le_max kv hkv hm
    · rw [hth]; exact h3
  · cases h

theorem quota_eq_none_iff (e : GoMap Int) (squ : ServiceQuotaUsage) :
    CheckAlarms.quota e squ = none ↔ ∀ kv ∈ e, Matched squ kv.2 → kv.2 ≤ 0 := by
  have inv := scanInv_foldl squ e
  constructor
  · intro h kv hkv hm
    unfold CheckAlarms.quota at h
    simp only at h
    split at h
    · cases h
    · rename_i hf
      have hf' : (e.foldl (CheckAlarms.step squ) (CheckAlarms.init squ)).found = false := by
        simpa using hf
      have h0 := inv.not_found hf'
      have := inv.le_max kv hkv hm
      rw [h0] at this
      exact this
  · intro h
    cases hq : CheckAlarms.quota e squ with
    | none => rfl
    | some w =>
      obtain ⟨h1, h2, _, _, pre, post, he, _⟩ := quota_eq_some e squ w hq
      have hmem : (w.Name, w.Threshold) ∈ e := by rw [he]; simp
      have := h _ hmem h2
      exact absurd h1 (not_lt.mpr this)

theorem quota_fields (e : GoMap Int) (squ : ServiceQuotaUsage) (w : Warning)
    (h : CheckAlarms.quota e squ = some w) :
    w.ServiceCode = squ.ServiceCode ∧ w.ServiceName = squ.ServiceName ∧
    w.QuotaName = squ.QuotaName ∧ w.QuotaCode = squ.QuotaCode ∧
    w.Limit = squ.Value ∧ w.Usage = squ.Usage := by
  obtain ⟨_, _, _, hw, _⟩ := quota_eq_some e squ w h
  rw [hw]
  exact ⟨rfl, rfl, rfl, rfl, rfl, rfl⟩

theorem quota_perm (e e' : GoMap Int) (squ : ServiceQuotaUsage) (w : Warning)
    (hp : List.Perm e e') (h : CheckAlarms.quota e squ = some w) :
    ∃ w', CheckAlarms.quota e' squ = some w' ∧ SameButName w w' := by
  obtain ⟨h1, h2, h3, h4, pre, post, he, _⟩ := quota_eq_some e squ w h
  have hmem : (w.Name, w.Threshold) ∈ e' := hp.subset (by rw [he]; simp)
  cases hq : CheckAlarms.quota e' squ with
  | none =>
    have := (quota_eq_none_iff e' squ).mp hq _ hmem h2
    exact absurd h1 (not_lt.mpr this)
  | some w' =>
    refine ⟨w', rfl, ?_⟩
    obtain ⟨_, h2', h3', h4', pre', post', he', _⟩ := quota_eq_some e' squ w' hq
    have hmem' : (w'.Name, w'.Threshold) ∈ e := hp.symm.subset (by rw [he']; simp)
    have hle : w'.Threshold ≤ w.Threshold := h3 _ hmem' h2'
    have hge : w.Threshold ≤ w'.Threshold := h3' _ hmem h2
    have heq : w'.Threshold = w.Threshold := le_antisymm hle hge
    unfold SameButName
    rw [h4', heq, h4]

/-! ## Go maps -/

theorem GoMap.get?_set_self {V : Type} (m : GoMap V) (k : String) (v : V) :
    (m.set k v).get? k = some v := by
  induction m with
  | nil => simp [GoMap.set, GoMap.get?]
  | cons hd tl ih =>
    obtain ⟨k', v'⟩ := hd
    by_cases h : k' = k
    · simp [GoMap.set, GoMap.get?, h]
    · simp [GoMap.set, GoMap.get?, h, ih]

theorem GoMap.get?_set_ne {V : Type} (m : GoMap V) (k k' : String) (v : V) (hne : k' ≠ k) :
    (m.set k v).get? k' = m.get? k' := by
  induction m with
  | nil =>
    have : ¬ k = k' := fun h => hne h.symm
    simp [GoMap.set, GoMap.get?, this]
  | cons hd tl ih =>
    obtain ⟨k0, v0⟩ := hd
    by_cases h : k0 = k
    · subst h
      have : ¬ k0 = k' := fun h => hne h.symm
      simp [GoMap.set, GoMap.get?, this]
    · by_cases h2 : k0 = k'
      · subst h2
        simp [GoMap.set, GoMap.get?, h]
      · simp [GoMap.set, GoMap.get?, h, h2, ih]

theorem GoMap.contains_set {V : Type} (m : GoMap V) (k k' : String) (v : V) :
    (m.set k v).contains k' = true ↔ k' = k ∨ m.contains k' = true := by
  unfold GoMap.contains
  by_cases h : k' = k
  · subst h; simp [GoMap.get?_set_self]
  · rw [GoMap.get?_set_ne m k k' v h]; simp [h]

theorem GoMap.contains_iff_mem_keys {V : Type} (m : GoMap V) (k : String) :
    m.contains k = true ↔ k ∈ m.keys := by
  induction m with
  | nil => simp [GoMap.contains, GoMap.get?, GoMap.keys]
  | cons hd tl ih =>
    obtain ⟨k', v'⟩ := hd
    by_cases h : k' = k
    · simp [GoMap.contains, GoMap.get?, GoMap.keys, h]
    · have h' : ¬ k = k' := fun e => h e.symm
      simp only [GoMap.contains, GoMap.get?, GoMap.keys, h, if_false, List.map_cons,
        List.mem_cons, h', false_or]
      exact ih

theorem GoMap.mem_of_get? {V : Type} (m : GoMap V) (k : String) (v : V)
    (h : m.get? k = some v) : (k, v) ∈ m := by
  induction m with
  | nil => simp [GoMap.get?] at h
  | cons hd tl ih =>
    obtain ⟨k', v'⟩ := hd
    by_cases hk : k' = k
    · simp [GoMap.get?, hk] at h
      subst hk; subst h
      exact List.mem_cons_self _ _
    · simp [GoMap.get?, hk] at h
      exact List.mem_cons_of_mem _ (ih h)

theorem MergeMaps.contains_addMap (res : GoMap (List Int)) (m : GoMap Int) (k : String) :
    (MergeMaps.addMap res m).contains k = true ↔ res.contains k = true ∨ k ∈ m.keys := by
  unfold MergeMaps.addMap
  induction m generalizing res with
  | nil => simp [GoMap.keys]
  | cons hd tl ih =>
    rw [List.foldl_cons, ih, GoMap.contains_set]
    simp only [GoMap.keys, List.map_cons, List.mem_cons]
    tauto

theorem MergeMaps.contains_pair (metric api : GoMap Int) (k : String) :
    (MergeMaps [metric, api]).contains k = true ↔ k ∈ metric.keys ∨ k ∈ api.keys := by
  unfold MergeMaps
  simp only [List.foldl_cons, List.foldl_nil]
  rw [MergeMaps.contains_addMap, MergeMaps.contains_addMap]
  simp [GoMap.contains, GoMap.get?]

/-! ## GetQuotasUsage -/

theorem body_of_loaded (r : Runner) (k : String) (v : Int) (qs : Quotas) (info : GoMap String)
    (qu : GoMap (List Int)) (mu : GoMap Int) (sc : String) (s : serviceInfo) (q : serviceQuota)
    (h1 : r.quotas = some qs) (h2 : r.quotasServiceInfo = some info)
    (h3 : r.quotaUsage = some qu) (h4 : r.quotaMetricUsage = some mu)
    (h5 : info.get? k = some sc) (h6 : qs.servicesMap.get? sc = some s)
    (h7 : s.serviceQuotas.get? k = some q) :
    GetQuotasUsage.body r k v = .ok
      { ServiceCode := sc
        ServiceName := s.serviceName
        QuotaName := q.QuotaName
        QuotaCode := k
        Usage := v
        Value := q.ValueApplied.toInt
        Type' := if qu.contains k then "api" else if mu.contains k then "metrics" else "" } := by
  unfold GetQuotasUsage.body Runner.GetServiceQuota Runner.GetServiceName
  simp only [h1, h2, h3, h4, h5, deref, Option.getD, Quotas.GetService, h6,
    serviceInfo.GetServiceQuota, h7, serviceInfo.GetServiceName, bind, Except.bind, pure,
    Except.pure]
  by_cases hc : qu.contains k = true
  · simp [hc]
  · by_cases hm : mu.contains k = true
    · simp [hc, hm]
    · simp [hc, hm]

theorem body_eq_ok (r : Runner) (k : String) (v : Int) (squ : ServiceQuotaUsage)
    (h : GetQuotasUsage.body r k v = .ok squ) :
    squ.QuotaCode = k ∧ squ.Usage = v ∧
    ∀ qu, r.quotaUsage = some qu → qu.contains k = true → squ.Type' = "api" := by
  unfold GetQuotasUsage.body at h
  cases hinfo : r.quotasServiceInfo with
  | none => simp [hinfo, deref, bind, Except.bind] at h
  | some info =>
    cases hsq : r.GetServiceQuota ((info.get? k).getD "") k with
    | error c => simp [hinfo, deref, bind, Except.bind, hsq] at h
    | ok q =>
      cases hqu : r.quotaUsage with
      | none => simp [hinfo, deref, bind, Except.bind, hsq, hqu] at h
      | some qu =>
        cases hn : r.GetServiceName ((info.get? k).getD "") with
        | error c =>
          by_cases hc : qu.contains k = true
          · simp [hinfo, deref, bind, Except.bind, hsq, hqu, hn, hc, pure, Except.pure] at h
          · cases hmu : r.quotaMetricUsage with
            | none => simp [hinfo, deref, bind, Except.bind, hsq, hqu, hn, hc, hmu] at h
            | some mu =>
              simp [hinfo, deref, bind, Except.bind, hsq, hqu, hn, hc, hmu, pure, Except.pure] at h
        | ok name =>
          cases q with
          | error e =>
            by_cases hc : qu.contains k = true
            · simp [hinfo, deref, bind, Except.bind, hsq, hqu, hn, hc, pure, Except.pure] at h
            · cases hmu : r.quotaMetricUsage with
              | none => simp [hinfo, deref, bind, Except.bind, hsq, hqu, hn, hc, hmu] at h
              | some mu =>
                simp [hinfo, deref, bind, Except.bind, hsq, hqu, hn, hc, hmu, pure, Except.pure] at h
          | ok sq =>
            by_cases hc : qu.contains k = true
            · simp [hinfo, deref, bind, Except.bind, hsq, hqu, hn, hc, pure, Except.pure] at h
              subst h
              refine ⟨rfl, rfl, ?_⟩
              intro qu' hqu' _
              rfl
            · cases hmu : r.quotaMetricUsage with
              | none => simp [hinfo, deref, bind, Except.bind, hsq, hqu, hn, hc, hmu] at h
              | some mu =>
                simp [hinfo, deref, bind, Except.bind, hsq, hqu, hn, hc, hmu, pure, Except.pure] at h
                subst h
                refine ⟨rfl, rfl, ?_⟩
                intro qu' hqu' hc'
                injection hqu' with hqu'
                subst hqu'
                exact absurd hc' hc

theorem usageLoop_eq_ok (r : Runner) (l : GoMap Int) (acc out : List ServiceQuotaUsage)
    (h : GetQuotasUsage.loop r l acc = .ok out) :
    ∃ recs, out = acc ++ recs ∧
      List.Forall₂ (fun kv squ => GetQuotasUsage.body r kv.1 kv.2 = .ok squ) l recs := by
  induction l generalizing acc with
  | nil =>
    simp only [GetQuotasUsage.loop, pure, Except.pure] at h
    injection h with h
    exact ⟨[], by simp [h], List.Forall₂.nil⟩
  | cons hd tl ih =>
    obtain ⟨k, v⟩ := hd
    cases hb : GetQuotasUsage.body r k v with
    | error c => simp [GetQuotasUsage.loop, hb, bind, Except.bind] at h
    | ok squ =>
      simp only [GetQuotasUsage.loop, hb, bind, Except.bind] at h
      obtain ⟨recs, h1, h2⟩ := ih _ h
      exact ⟨squ :: recs, by simp [h1], List.Forall₂.cons hb h2⟩

theorem usageLoop_of_forall₂ (r : Runner) (l : GoMap Int) (acc recs : List ServiceQuotaUsage)
    (h : List.Forall₂ (fun kv squ => GetQuotasUsage.body r kv.1 kv.2 = .ok squ) l recs) :
    GetQuotasUsage.loop r l acc = .ok (acc ++ recs) := by
  induction h generalizing acc with
  | nil => simp [GetQuotasUsage.loop, pure, Except.pure]
  | cons hb _ ih =>
    rename_i kv squ l' recs'
    obtain ⟨k, v⟩ := kv
    simp only [GetQuotasUsage.loop, hb, bind, Except.bind]
    rw [ih]
    simp

theorem GetQuotasUsage_eq_ok (r : Runner) (apiEnum : GoMap Int) (squs : List ServiceQuotaUsage)
    (h : r.GetQuotasUsage apiEnum = .ok squs) :
    List.Forall₂ (fun kv squ => GetQuotasUsage.body r kv.1 kv.2 = .ok squ) apiEnum squs := by
  unfold Runner.GetQuotasUsage at h
  cases ha : r.quotaApiUsage with
  | none => simp [ha, deref, bind, Except.bind] at h
  | some api =>
    simp only [ha, deref, bind, Except.bind] at h
    obtain ⟨recs, h1, h2⟩ := usageLoop_eq_ok r apiEnum [] squs h
    rw [h1]
    simpa using h2

theorem GetQuotasUsage_codes (r : Runner) (apiEnum : GoMap Int) (squs : List ServiceQuotaUsage)
    (h : r.GetQuotasUsage apiEnum = .ok squs) :
    squs.map (fun squ => squ.QuotaCode) = apiEnum.keys := by
  have h2 := GetQuotasUsage_eq_ok r apiEnum squs h
  unfold GoMap.keys
  clear h
  induction h2 with
  | nil => rfl
  | cons hb _ ih =>
    simp only [List.map_cons, ih]
    rw [(body_eq_ok r _ _ _ hb).1]

theorem GetQuotasUsage_record (r : Runner) (apiEnum : GoMap Int) (squs : List ServiceQuotaUsage)
    (h : r.GetQuotasUsage apiEnum = .ok squs) (k : String) (v : Int) (hkv : (k, v) ∈ apiEnum) :
    ∃ squ ∈ squs, GetQuotasUsage.body r k v = .ok squ := by
  have h2 := GetQuotasUsage_eq_ok r apiEnum squs h
  clear h
  induction h2 with
  | nil => cases hkv
  | cons hb _ ih =>
    rcases List.mem_cons.mp hkv with heq | hmem
    · subst heq
      exact ⟨_, List.mem_cons_self _ _, hb⟩
    · obtain ⟨squ, hs, hb'⟩ := ih hmem
      exact ⟨squ, List.mem_cons_of_mem _ hs, hb'⟩

theorem GetQuotasUsage_of_loaded (r : Runner) (api apiEnum : GoMap Int) (hl : r.Loaded)
    (ha : r.quotaApiUsage = some api) (he : api.IsEnum apiEnum) :
    ∃ squs, r.GetQuotasUsage apiEnum = .ok squs := by
  obtain ⟨qs, info, api', qu, mu, h1, h2, h3, h4, h5, hcov⟩ := hl
  rw [ha] at h3
  injection h3 with h3
  subst h3
  have hall : ∀ l : GoMap Int, (∀ kv ∈ l, kv.1 ∈ api.keys) →
      ∃ recs, List.Forall₂ (fun kv squ => GetQuotasUsage.body r kv.1 kv.2 = .ok squ) l recs := by
    intro l
    induction l with
    | nil => exact fun _ => ⟨[], List.Forall₂.nil⟩
    | cons hd tl ih =>
      intro hk
      obtain ⟨recs, hrecs⟩ := ih (fun kv hkv => hk kv (List.mem_cons_of_mem _ hkv))
      obtain ⟨sc, s, q, h6, h7, h8⟩ := hcov hd.1 (hk hd (List.mem_cons_self _ _))
      exact ⟨_, List.Forall₂.cons (body_of_loaded r hd.1 hd.2 qs info qu mu sc s q h1 h2 h4 h5
        h6 h7 h8) hrecs⟩
  have hkeys : ∀ kv ∈ apiEnum, kv.1 ∈ api.keys := by
    intro kv hkv
    exact List.mem_map_of_mem Prod.fst (he.subset hkv)
  obtain ⟨recs, hrecs⟩ := hall apiEnum hkeys
  refine ⟨recs, ?_⟩
  unfold Runner.GetQuotasUsage
  simp only [ha, deref, bind, Except.bind]
  rw [usageLoop_of_forall₂ r apiEnum [] recs hrecs]
  simp

/-! ## CheckAlarms -/

theorem alarmLoop_acc (a : Nat → GoMap Int) (i : Nat) (squs : List ServiceQuotaUsage)
    (acc : List Warning) :
    CheckAlarms.loop a i squs acc = acc ++ CheckAlarms.loop a i squs [] := by
  induction squs generalizing i acc with
  | nil => simp [CheckAlarms.loop]
  | cons squ rest ih =>
    unfold CheckAlarms.loop
    cases hq : CheckAlarms.quota (a i) squ with
    | none => simp only; exact ih _ _
    | some w =>
      simp only
      rw [ih (i + 1) (acc ++ [w]), ih (i + 1) ([] ++ [w])]
      simp

theorem alarmLoop_cons (a : Nat → GoMap Int) (i : Nat) (squ : ServiceQuotaUsage)
    (rest : List ServiceQuotaUsage) :
    CheckAlarms.loop a i (squ :: rest) [] =
      (CheckAlarms.quota (a i) squ).toList ++ CheckAlarms.loop a (i + 1) rest [] := by
  rw [CheckAlarms.loop]
  cases hq : CheckAlarms.quota (a i) squ with
  | none => simp
  | some w =>
    simp only
    rw [alarmLoop_acc]
    simp

theorem alarmLoop_mem (a : Nat → GoMap Int) (i : Nat) (squs : List ServiceQuotaUsage)
    (w : Warning) (h : w ∈ CheckAlarms.loop a i squs []) :
    ∃ j, ∃ squ ∈ squs, CheckAlarms.quota (a j) squ = some w := by
  induction squs generalizing i with
  | nil => simp [CheckAlarms.loop] at h
  | cons squ rest ih =>
    rw [alarmLoop_cons] at h
    rcases List.mem_append.mp h with h | h
    · refine ⟨i, squ, List.mem_cons_self _ _, ?_⟩
      cases hq : CheckAlarms.quota (a i) squ with
      | none => simp [hq] at h
      | some w' =>
        simp [hq] at h
        rw [h]
    · obtain ⟨j, squ', hs, hq⟩ := ih _ h
      exact ⟨j, squ', List.mem_cons_of_mem _ hs, hq⟩

theorem alarmLoop_mem_index (a : Nat → GoMap Int) (i : Nat) (squs : List ServiceQuotaUsage)
    (w : Warning) (h : w ∈ CheckAlarms.loop a i squs []) :
    ∃ n squ, squs[n]? = some squ ∧ CheckAlarms.quota (a (i + n)) squ = some w := by
  induction squs generalizing i with
  | nil => simp [CheckAlarms.loop] at h
  | cons squ rest ih =>
    rw [alarmLoop_cons] at h
    rcases List.mem_append.mp h with h | h
    · refine ⟨0, squ, by simp, ?_⟩
      cases hq : CheckAlarms.quota (a i) squ with
      | none => simp [hq] at h
      | some w' =>
        simp [hq] at h
        rw [h, Nat.add_zero, hq]
    · obtain ⟨n, squ', hs, hq⟩ := ih _ h
      refine ⟨n + 1, squ', by simpa using hs, ?_⟩
      rw [← hq]
      congr 2
      omega

theorem alarmLoop_mem_of (a : Nat → GoMap Int) (i : Nat) (squs : List ServiceQuotaUsage)
    (squ : ServiceQuotaUsage) (h : squ ∈ squs) :
    ∃ j, ∀ w, CheckAlarms.quota (a j) squ = some w → w ∈ CheckAlarms.loop a i squs [] := by
  induction squs generalizing i with
  | nil => cases h
  | cons squ' rest ih =>
    rcases List.mem_cons.mp h with heq | hmem
    · subst heq
      refine ⟨i, fun w hw => ?_⟩
      rw [alarmLoop_cons, hw]
      simp
    · obtain ⟨j, hj⟩ := ih (i + 1) hmem
      refine ⟨j, fun w hw => ?_⟩
      rw [alarmLoop_cons]
      exact List.mem_append_right _ (hj w hw)

theorem alarmLoop_codes (a : Nat → GoMap Int) (i : Nat) (squs : List ServiceQuotaUsage) :
    List.Sublist ((CheckAlarms.loop a i squs []).map (fun w => w.QuotaCode))
      (squs.map (fun squ => squ.QuotaCode)) := by
  induction squs generalizing i with
  | nil => simp [CheckAlarms.loop]
  | cons squ rest ih =>
    rw [alarmLoop_cons]
    cases hq : CheckAlarms.quota (a i) squ with
    | none =>
      simp only [Option.toList, List.nil_append, List.map_cons]
      exact List.Sublist.cons _ (ih _)
    | some w =>
      simp only [Option.toList, List.singleton_append, List.map_cons]
      rw [(quota_fields _ _ _ hq).2.2.2.1]
      exact List.Sublist.cons₂ _ (ih _)

theorem alarmLoop_perm (a a' : Nat → GoMap Int) (i : Nat) (squs : List ServiceQuotaUsage)
    (h : ∀ j, List.Perm (a j) (a' j)) :
    List.Forall₂ SameButName (CheckAlarms.loop a i squs []) (CheckAlarms.loop a' i squs []) := by
  induction squs generalizing i with
  | nil => simp [CheckAlarms.loop]
  | cons squ rest ih =>
    rw [alarmLoop_cons, alarmLoop_cons]
    cases hq : CheckAlarms.quota (a i) squ with
    | none =>
      have : CheckAlarms.quota (a' i) squ = none := by
        rw [quota_eq_none_iff] at hq ⊢
        intro kv hkv
        exact hq kv ((h i).symm.subset hkv)
      rw [this]
      simpa using ih _
    | some w =>
      obtain ⟨w', hw', hs⟩ := quota_perm _ _ squ w (h i) hq
      rw [hw']
      simp only [Option.toList, List.singleton_append]
      exact List.Forall₂.cons hs (ih _)

theorem CheckAlarms_eq (r : Runner) (apiEnum : GoMap Int) (alarmEnum : Nat → GoMap Int)
    (squs : List ServiceQuotaUsage) (h : r.GetQuotasUsage apiEnum = .ok squs) :
    r.CheckAlarms apiEnum alarmEnum = .ok (CheckAlarms.loop alarmEnum 0 squs []) := by
  simp [Runner.CheckAlarms, h, bind, Except.bind, pure, Except.pure]

theorem CheckAlarms_eq_ok (r : Runner) (apiEnum : GoMap Int) (alarmEnum : Nat → GoMap Int)
    (ws : List Warning) (h : r.CheckAlarms apiEnum alarmEnum = .ok ws) :
    ∃ squs, r.GetQuotasUsage apiEnum = .ok squs ∧ ws = CheckAlarms.loop alarmEnum 0 squs [] := by
  cases hq : r.GetQuotasUsage apiEnum with
  | error c => simp [Runner.CheckAlarms, hq, bind, Except.bind] at h
  | ok squs =>
    rw [CheckAlarms_eq r apiEnum alarmEnum squs hq] at h
    injection h with h
    exact ⟨squs, rfl, h.symm⟩

/-! ## Alarm evaluation -/

/-- Counterexample to C1: for usage 2^54 - 1 and limit 2^54 the conversion
float64(usage) rounds up to 2^54, the quotient is exactly 100 and the alarm
full:100 passes the test: CheckAlarms returns a Warning with Threshold 100,
although 100 is greater than usage*100/limit. -/
theorem C1_counterexample :
    (wideRunner (2 ^ 54) (2 ^ 54 - 1) [("full", 100)]).CheckAlarms [("L-W", 2 ^ 54 - 1)]
        (fun _ => [("full", 100)]) =
      .ok [sampleWarning "L-W" "Snapshot storage" (2 ^ 54 - 1) (2 ^ 54) "full" 100] ∧
    (0 : Int) < 2 ^ 54 ∧ ¬ ((100 : Int) * 2 ^ 54 ≤ (2 ^ 54 - 1) * 100) := by
  refine ⟨by decide!, by decide, by decide⟩

/-- C1, amended: a Warning returned by CheckAlarms for a quota whose limit is
positive names a registered alarm, and its Threshold is the greatest registered
threshold that passes the float64 test `percents >= float64(v)` on the usage and
limit of the quota's usage record.  When |usage|*100 <= 2^53 and v*limit <= 2^52
for every registered threshold v, the Threshold is at most usage*100/limit and no
registered alarm with a threshold at most usage*100/limit has a greater one.
This holds for every order in which the API-usage map and, in each pass, the
alarm registry are enumerated. -/
theorem C1_threshold_is_greatest_matched (r : Runner) (apiEnum : GoMap Int)
    (alarmEnum : Nat → GoMap Int) (hA : ∀ i, r.alarms.IsEnum (alarmEnum i))
    (ws : List Warning) (hrun : r.CheckAlarms apiEnum alarmEnum = .ok ws)
    (w : Warning) (hw : w ∈ ws) (hlim : 0 < w.Limit) :
    (w.Name, w.Threshold) ∈ r.alarms ∧
    (∃ squs, r.GetQuotasUsage apiEnum = .ok squs ∧
      ∃ squ ∈ squs, w.QuotaCode = squ.QuotaCode ∧ w.Usage = squ.Usage ∧ w.Limit = squ.Value ∧
        Matched squ w.Threshold ∧ ∀ kv ∈ r.alarms, Matched squ kv.2 → kv.2 ≤ w.Threshold) ∧
    (|w.Usage| * 100 ≤ 2 ^ 53 → (∀ kv ∈ r.alarms, kv.2 * w.Limit ≤ 2 ^ 52) →
      w.Threshold * w.Limit ≤ w.Usage * 100 ∧
      ∀ kv ∈ r.alarms, kv.2 * w.Limit ≤ w.Usage * 100 → kv.2 ≤ w.Threshold) := by
  obtain ⟨squs, hq, hws⟩ := CheckAlarms_eq_ok r apiEnum alarmEnum ws hrun
  subst hws
  obtain ⟨j, squ, hs, hquota⟩ := alarmLoop_mem alarmEnum 0 squs w hw
  obtain ⟨_, _, _, hcode, hl, hu⟩ := quota_fields _ _ _ hquota
  obtain ⟨hth, hm, hmax, _, pre, post, he, _⟩ := quota_eq_some _ _ _ hquota
  have hpos : 0 < squ.Value := by rw [← hl]; exact hlim
  have hreg : (w.Name, w.Threshold) ∈ r.alarms := (hA j).subset (by rw [he]; simp)
  have hmax' : ∀ kv ∈ r.alarms, Matched squ kv.2 → kv.2 ≤ w.Threshold :=
    fun kv hkv h => hmax kv ((hA j).symm.subset hkv) h
  refine ⟨hreg, ⟨squs, hq, squ, hs, hcode, hu, hl, hm, hmax'⟩, ?_⟩
  intro hex hb
  rw [hu] at hex
  rw [hl, hu]
  have hb1 : w.Threshold * squ.Value ≤ 2 ^ 52 := by
    have := hb _ hreg
    rwa [hl] at this
  have hv : squ.Value ≤ 2 ^ 53 := by nlinarith
  refine ⟨le_of_matched squ _ hpos hex (by omega) hb1 hm, ?_⟩
  intro kv hkv hle
  exact hmax' kv hkv (matched_of_le squ kv.2 hpos hex hv hle)

/-- Witness of C1, amended: usage 92 of limit 100 with alarms low:50, med:80,
high:90 gives the Warning of `high`, threshold 90. -/
theorem C1_witness :
    ("high", (90 : Int)) ∈ [("low", (50 : Int)), ("med", 80), ("high", 90)] ∧
    (∃ squs, (sampleRunner [] [("L-A", 92)]
        [("low", 50), ("med", 80), ("high", 90)]).GetQuotasUsage [("L-A", 92)] = .ok squs ∧
      ∃ squ ∈ squs, "L-A" = squ.QuotaCode ∧ (92 : Int) = squ.Usage ∧ (100 : Int) = squ.Value ∧
        Matched squ 90 ∧
        ∀ kv ∈ [("low", (50 : Int)), ("med", 80), ("high", 90)], Matched squ kv.2 → kv.2 ≤ 90) ∧
    (90 : Int) * 100 ≤ 92 * 100 ∧
    (∀ kv ∈ [("low", (50 : Int)), ("med", 80), ("high", 90)],
      kv.2 * 100 ≤ 92 * 100 → kv.2 ≤ 90) :=
  have h := C1_threshold_is_greatest_matched
    (sampleRunner [] [("L-A", 92)] [("low", 50), ("med", 80), ("high", 90)])
    [("L-A", 92)] (fun _ => [("high", 90), ("low", 50), ("med", 80)])
    (fun _ => show GoMap.IsEnum [("low", (50 : Int)), ("med", 80), ("high", 90)]
      [("high", 90), ("low", 50), ("med", 80)] by decide)
    [sampleWarning "L-A" "Elastic IPs" 92 100 "high" 90] (by decide!)
    (sampleWarning "L-A" "Elastic IPs" 92 100 "high" 90) (by decide) (by decide)
  ⟨h.1, h.2.1, h.2.2 (by decide) (by decide)⟩

/-- Counterexample to C2: with usage 10, limit 0 and the alarm low:5 the quotient
is +Inf, the alarm is matched and CheckAlarms returns a Warning whose Limit is 0. -/
theorem C2_counterexample :
    (sampleRunner [] [("L-Z", 10)] [("low", 5)]).CheckAlarms [("L-Z", 10)]
      (fun _ => [("low", 5)]) =
    .ok [sampleWarning "L-Z" "Dedicated hosts" 10 0 "low" 5] := by
  decide!

/-- C2, amended: once the usage records are obtained CheckAlarms returns, also
when a limit is zero or negative, and it returns no Warning for a quota with
limit < 0 and usage >= 0, nor for one with limit = 0 and usage <= 0. -/
theorem C2_nonpositive_limit (r : Runner) (apiEnum : GoMap Int) (alarmEnum : Nat → GoMap Int)
    (squs : List ServiceQuotaUsage) (hq : r.GetQuotasUsage apiEnum = .ok squs) :
    ∃ ws, r.CheckAlarms apiEnum alarmEnum = .ok ws ∧
      ∀ w ∈ ws, ¬ (w.Limit < 0 ∧ 0 ≤ w.Usage) ∧ ¬ (w.Limit = 0 ∧ w.Usage ≤ 0) := by
  refine ⟨_, CheckAlarms_eq r apiEnum alarmEnum squs hq, ?_⟩
  intro w hw
  obtain ⟨j, squ, _, hquota⟩ := alarmLoop_mem alarmEnum 0 squs w hw
  obtain ⟨_, _, _, _, hl, hu⟩ := quota_fields _ _ _ hquota
  obtain ⟨hpos, hm, _⟩ := quota_eq_some _ _ _ hquota
  rw [hl, hu]
  constructor
  · rintro ⟨hneg, hus⟩
    exact not_matched_of_neg squ _ hneg hus hpos hm
  · rintro ⟨hz, hus⟩
    exact not_matched_of_zero squ _ hz hus hpos hm

/-- Witness of C2, amended: usage 0 of limit 0 with the alarm low:5 gives no
Warning. -/
theorem C2_witness :
    ∃ ws, (sampleRunner [] [("L-Z", 0)] [("low", 5)]).CheckAlarms [("L-Z", 0)]
        (fun _ => [("low", 5)]) = .ok ws ∧
      ∀ w ∈ ws, ¬ (w.Limit < 0 ∧ 0 ≤ w.Usage) ∧ ¬ (w.Limit = 0 ∧ w.Usage ≤ 0) :=
  C2_nonpositive_limit (sampleRunner [] [("L-Z", 0)] [("low", 5)]) [("L-Z", 0)]
    (fun _ => [("low", 5)]) [sampleRecord "L-Z" "Dedicated hosts" 0 0] (by decide)

/-- Counterexample to C3, two inputs.  Usage 10 of limit 100 meets the registered
threshold 0, yet CheckAlarms returns no Warning.  Usage 360287970189641 of the
same limit meets the registered threshold 100, but the product usage*100.0 is
rounded down, the quotient is 99.99999999999999 and CheckAlarms returns no
Warning. -/
theorem C3_counterexample :
    ((0 : Int) ≤ 10 ∧ (0 : Int) < 100 ∧ (0 : Int) * 100 ≤ 10 * 100 ∧
      (sampleRunner [] [("L-A", 10)] [("zero", 0)]).CheckAlarms [("L-A", 10)]
        (fun _ => [("zero", 0)]) = .ok []) ∧
    ((0 : Int) ≤ 360287970189641 ∧ (0 : Int) < 360287970189641 ∧
      (100 : Int) * 360287970189641 ≤ 360287970189641 * 100 ∧
      (wideRunner 360287970189641 360287970189641 [("full", 100)]).CheckAlarms
        [("L-W", 360287970189641)] (fun _ => [("full", 100)]) = .ok []) := by
  refine ⟨⟨by decide, by decide, by decide, ?_⟩, ⟨by decide, by decide, by decide, ?_⟩⟩
  · decide!
  · decide!

/-- C3, amended: for a usage record with usage >= 0 and limit > 0, CheckAlarms
returns a Warning for that quota if a registered alarm has a positive threshold
that passes the float64 test `percents >= float64(v)`; that is the case when
usage*100 <= 2^53, limit <= 2^53 and a registered alarm has a threshold that is
positive and at most usage*100/limit. -/
theorem C3_positive_threshold_fires (r : Runner) (apiEnum : GoMap Int)
    (alarmEnum : Nat → GoMap Int) (hA : ∀ i, r.alarms.IsEnum (alarmEnum i))
    (squs : List ServiceQuotaUsage) (hq : r.GetQuotasUsage apiEnum = .ok squs)
    (squ : ServiceQuotaUsage) (hs : squ ∈ squs) (hu : 0 ≤ squ.Usage) (hl : 0 < squ.Value) :
    ∃ ws, r.CheckAlarms apiEnum alarmEnum = .ok ws ∧
      ((∃ kv ∈ r.alarms, 0 < kv.2 ∧ Matched squ kv.2) →
        ∃ w ∈ ws, w.QuotaCode = squ.QuotaCode ∧ w.Usage = squ.Usage ∧ w.Limit = squ.Value) ∧
      (squ.Usage * 100 ≤ 2 ^ 53 → squ.Value ≤ 2 ^ 53 →
        (∃ kv ∈ r.alarms, 0 < kv.2 ∧ kv.2 * squ.Value ≤ squ.Usage * 100) →
        ∃ w ∈ ws, w.QuotaCode = squ.QuotaCode ∧ w.Usage = squ.Usage ∧ w.Limit = squ.Value) := by
  refine ⟨_, CheckAlarms_eq r apiEnum alarmEnum squs hq, ?_⟩
  obtain ⟨j, hj⟩ := alarmLoop_mem_of alarmEnum 0 squs squ hs
  have hfire : (∃ kv ∈ r.alarms, 0 < kv.2 ∧ Matched squ kv.2) →
      ∃ w ∈ CheckAlarms.loop alarmEnum 0 squs [],
        w.QuotaCode = squ.QuotaCode ∧ w.Usage = squ.Usage ∧ w.Limit = squ.Value := by
    rintro ⟨kv, hkv, hpos, hm⟩
    cases hquota : CheckAlarms.quota (alarmEnum j) squ with
    | none =>
      have := (quota_eq_none_iff _ _).mp hquota kv ((hA j).symm.subset hkv) hm
      omega
    | some w =>
      obtain ⟨_, _, _, hcode, hlim, hus⟩ := quota_fields _ _ _ hquota
      exact ⟨w, hj w hquota, hcode, hus, hlim⟩
  refine ⟨hfire, ?_⟩
  rintro hex hv ⟨kv, hkv, hpos, hle⟩
  have hex' : |squ.Usage| * 100 ≤ 2 ^ 53 := by rw [abs_of_nonneg hu]; exact hex
  exact hfire ⟨kv, hkv, hpos, matched_of_le squ kv.2 hl hex' hv hle⟩

/-- Witness of C3, amended: usage 92 of limit 100 with the alarm low:50. -/
theorem C3_witness :
    ∃ ws, (sampleRunner [] [("L-A", 92)] [("low", 50)]).CheckAlarms [("L-A", 92)]
        (fun _ => [("low", 50)]) = .ok ws ∧
      ∃ w ∈ ws, w.QuotaCode = "L-A" ∧ w.Usage = 92 ∧ w.Limit = 100 :=
  have ⟨ws, h1, _, h3⟩ := C3_positive_threshold_fires
    (sampleRunner [] [("L-A", 92)] [("low", 50)]) [("L-A", 92)]
    (fun _ => [("low", 50)])
    (fun _ => show GoMap.IsEnum [("low", (50 : Int))] [("low", 50)] by decide)
    [sampleRecord "L-A" "Elastic IPs" 92 100] (by decide!)
    (sampleRecord "L-A" "Elastic IPs" 92 100) (by decide) (by decide) (by decide)
  ⟨ws, h1, h3 (by decide) (by decide) ⟨("low", 50), by decide, by decide, by decide⟩⟩

/-- Counterexample to C4: for usage 2^54 - 1 and limit 2^54 the only registered
threshold, 100, is greater than usage*100/limit, yet float64(usage) rounds up to
the limit, the alarm passes the test and CheckAlarms returns a Warning for the
quota. -/
theorem C4_counterexample :
    (0 : Int) < 2 ^ 54 ∧
    (∀ kv ∈ [("full", (100 : Int))], ((2 : Int) ^ 54 - 1) * 100 < kv.2 * 2 ^ 54) ∧
    (wideRunner (2 ^ 54) (2 ^ 54 - 1) [("full", 100)]).CheckAlarms [("L-W", 2 ^ 54 - 1)]
        (fun _ => [("full", 100)]) =
      .ok [sampleWarning "L-W" "Snapshot storage" (2 ^ 54 - 1) (2 ^ 54) "full" 100] := by
  refine ⟨by decide, by decide, by decide!⟩

/-- C4, amended: for a usage record with limit > 0, CheckAlarms returns no Warning
for that quota if no registered alarm with a positive threshold passes the
float64 test `percents >= float64(v)`; that is the case when |usage|*100 <= 2^53,
v*limit <= 2^52 for every registered threshold v, and every registered threshold
is greater than usage*100/limit. -/
theorem C4_no_alarm_met (r : Runner) (apiEnum : GoMap Int)
    (alarmEnum : Nat → GoMap Int) (hA : ∀ i, r.alarms.IsEnum (alarmEnum i))
    (hwf : apiEnum.WF) (squs : List ServiceQuotaUsage)
    (hq : r.GetQuotasUsage apiEnum = .ok squs)
    (squ : ServiceQuotaUsage) (hs : squ ∈ squs) (hl : 0 < squ.Value) :
    ∃ ws, r.CheckAlarms apiEnum alarmEnum = .ok ws ∧
      ((∀ kv ∈ r.alarms, 0 < kv.2 → ¬ Matched squ kv.2) →
        ∀ w ∈ ws, w.QuotaCode ≠ squ.QuotaCode) ∧
      (|squ.Usage| * 100 ≤ 2 ^ 53 → (∀ kv ∈ r.alarms, kv.2 * squ.Value ≤ 2 ^ 52) →
        (∀ kv ∈ r.alarms, squ.Usage * 100 < kv.2 * squ.Value) →
        ∀ w ∈ ws, w.QuotaCode ≠ squ.QuotaCode) := by
  refine ⟨_, CheckAlarms_eq r apiEnum alarmEnum squs hq, ?_⟩
  have hnone : (∀ kv ∈ r.alarms, 0 < kv.2 → ¬ Matched squ kv.2) →
      ∀ w ∈ CheckAlarms.loop alarmEnum 0 squs [], w.QuotaCode ≠ squ.QuotaCode := by
    intro hal w hw hcode
    obtain ⟨j, squ', hs', hquota⟩ := alarmLoop_mem alarmEnum 0 squs w hw
    have hcode' := (quota_fields _ _ _ hquota).2.2.2.1
    have hnd : (squs.map (fun s => s.QuotaCode)).Nodup := by
      rw [GetQuotasUsage_codes r apiEnum squs hq]; exact hwf
    have heq : squ' = squ :=
      List.inj_on_of_nodup_map hnd hs' hs (by rw [← hcode', hcode])
    subst heq
    obtain ⟨hpos, hm, _, _, pre, post, he, _⟩ := quota_eq_some _ _ _ hquota
    have hmem : (w.Name, w.Threshold) ∈ r.alarms := (hA j).subset (by rw [he]; simp)
    exact hal _ hmem hpos hm
  refine ⟨hnone, ?_⟩
  intro hex hb hal
  apply hnone
  intro kv hkv hpos hm
  have h1 := hal kv hkv
  have h2 := le_of_matched squ kv.2 hl hex (by omega) (hb kv hkv) hm
  omega

/-- Witness of C4, amended: usage 40 of limit 100 with the alarm low:50 gives no
Warning. -/
theorem C4_witness :
    ∃ ws, (sampleRunner [] [("L-A", 40)] [("low", 50)]).CheckAlarms [("L-A", 40)]
        (fun _ => [("low", 50)]) = .ok ws ∧
      ∀ w ∈ ws, w.QuotaCode ≠ "L-A" :=
  have ⟨ws, h1, _, h3⟩ := C4_no_alarm_met (sampleRunner [] [("L-A", 40)] [("low", 50)])
    [("L-A", 40)] (fun _ => [("low", 50)])
    (fun _ => show GoMap.IsEnum [("low", (50 : Int))] [("low", 50)] by decide)
    (by decide) [sampleRecord "L-A" "Elastic IPs" 40 100] (by decide!)
    (sampleRecord "L-A" "Elastic IPs" 40 100) (by decide) (by decide)
  ⟨ws, h1, h3 (by decide) (by decide) (by decide)⟩

/-! ## Reconciliation -/

/-- C5: on a loaded Runner whose merged view is the merge of its two usage maps,
GetQuotasUsage returns, and every quota of the API-usage map that is also in the
metric-usage map has a record whose Usage is its API-usage value and whose Type
is "api". -/
theorem C5_api_precedence (r : Runner) (metric api apiEnum : GoMap Int) (hl : r.Loaded)
    (hm : r.quotaMetricUsage = some metric) (ha : r.quotaApiUsage = some api)
    (hmerged : r.quotaUsage = some (MergeMaps [metric, api])) (he : api.IsEnum apiEnum) :
    ∃ squs, r.GetQuotasUsage apiEnum = .ok squs ∧
      ∀ k v, api.get? k = some v → metric.contains k = true →
        ∃ squ ∈ squs, squ.QuotaCode = k ∧ squ.Usage = v ∧ squ.Type' = "api" := by
  have _ := hm
  obtain ⟨squs, hq⟩ := GetQuotasUsage_of_loaded r api apiEnum hl ha he
  refine ⟨squs, hq, ?_⟩
  intro k v hkv _
  have hmem : (k, v) ∈ apiEnum := he.symm.subset (GoMap.mem_of_get? api k v hkv)
  obtain ⟨squ, hs, hb⟩ := GetQuotasUsage_record r apiEnum squs hq k v hmem
  obtain ⟨h1, h2, h3⟩ := body_eq_ok r k v squ hb
  refine ⟨squ, hs, h1, h2, h3 _ hmerged ?_⟩
  rw [MergeMaps.contains_pair]
  exact Or.inr (List.mem_map_of_mem Prod.fst (GoMap.mem_of_get? api k v hkv))

/-- Witness of C5: `L-A` counted 92 by the API and 90 by the metric is reported
with Usage 92 and Type "api". -/
theorem C5_witness :
    ∃ squs, (sampleRunner [("L-A", 90)] [("L-A", 92)] []).GetQuotasUsage [("L-A", 92)] =
        .ok squs ∧
      ∀ k v, GoMap.get? [("L-A", (92 : Int))] k = some v →
        GoMap.contains [("L-A", (90 : Int))] k = true →
        ∃ squ ∈ squs, squ.QuotaCode = k ∧ squ.Usage = v ∧ squ.Type' = "api" :=
  C5_api_precedence (sampleRunner [("L-A", 90)] [("L-A", 92)] []) [("L-A", 90)]
    [("L-A", 92)] [("L-A", 92)]
    ⟨sampleCatalog, [("L-A", "ec2"), ("L-Z", "ec2"), ("L-M", "ec2")], [("L-A", 92)],
      MergeMaps [[("L-A", 90)], [("L-A", 92)]], [("L-A", 90)], rfl, rfl, rfl, rfl, rfl,
      by
        intro k hk
        have hk' : k = "L-A" := by simpa [GoMap.keys] using hk
        subst hk'
        exact ⟨"ec2", _, _, rfl, rfl, rfl⟩⟩
    rfl rfl rfl (by decide)

/-- C6 fails on the code: with `L-M` only in the metric-usage map (usage 7) and
`L-A` only in the API-usage map, GetQuotasUsage returns the record of `L-A` alone;
the metric-only quota `L-M` gets no record and no Type "metrics". -/
theorem C6_metric_only_quota_dropped :
    GoMap.get? [("L-M", (7 : Int))] "L-M" = some 7 ∧
    GoMap.contains [("L-A", (92 : Int))] "L-M" = false ∧
    (sampleRunner [("L-M", 7)] [("L-A", 92)] []).GetQuotasUsage [("L-A", 92)] =
      .ok [sampleRecord "L-A" "Elastic IPs" 92 100] := by
  decide

/-- C7: a quota code absent from both usage maps has no record in the list that
GetQuotasUsage returns and no Warning in the list that CheckAlarms returns; on a
loaded Runner both calls do return. -/
theorem C7_absent_quota_unreported (r : Runner) (metric api apiEnum : GoMap Int)
    (alarmEnum : Nat → GoMap Int)
    (hm : r.quotaMetricUsage = some metric) (ha : r.quotaApiUsage = some api)
    (he : api.IsEnum apiEnum) (k : String)
    (hk1 : metric.contains k = false) (hk2 : api.contains k = false) :
    (∀ squs, r.GetQuotasUsage apiEnum = .ok squs → ∀ squ ∈ squs, squ.QuotaCode ≠ k) ∧
    (∀ ws, r.CheckAlarms apiEnum alarmEnum = .ok ws → ∀ w ∈ ws, w.QuotaCode ≠ k) ∧
    (r.Loaded → ∃ squs ws, r.GetQuotasUsage apiEnum = .ok squs ∧
      r.CheckAlarms apiEnum alarmEnum = .ok ws) := by
  have _ := hm
  have _ := hk1
  have hnot : k ∉ apiEnum.keys := by
    intro hin
    have : k ∈ api.keys := by
      unfold GoMap.keys at hin ⊢
      obtain ⟨kv, hkv, hfst⟩ := List.mem_map.mp hin
      exact List.mem_map.mpr ⟨kv, he.subset hkv, hfst⟩
    rw [← GoMap.contains_iff_mem_keys, hk2] at this
    cases this
  have hrec : ∀ squs, r.GetQuotasUsage apiEnum = .ok squs → ∀ squ ∈ squs, squ.QuotaCode ≠ k := by
    intro squs hq squ hs hcode
    apply hnot
    rw [← GetQuotasUsage_codes r apiEnum squs hq, ← hcode]
    exact List.mem_map_of_mem (fun s => s.QuotaCode) hs
  refine ⟨hrec, ?_, ?_⟩
  · intro ws hrun w hw hcode
    obtain ⟨squs, hq, hws⟩ := CheckAlarms_eq_ok r apiEnum alarmEnum ws hrun
    subst hws
    obtain ⟨j, squ, hs, hquota⟩ := alarmLoop_mem alarmEnum 0 squs w hw
    exact hrec squs hq squ hs (by rw [← (quota_fields _ _ _ hquota).2.2.2.1, hcode])
  · intro hl
    obtain ⟨squs, hq⟩ := GetQuotasUsage_of_loaded r api apiEnum hl ha he
    exact ⟨squs, _, hq, CheckAlarms_eq r apiEnum alarmEnum squs hq⟩

/-- Witness of C7: the quota `L-Z` is in neither usage map of the sample Runner. -/
theorem C7_witness :
    (∀ squs, (sampleRunner [("L-M", 7)] [("L-A", 92)] [("low", 50)]).GetQuotasUsage
        [("L-A", 92)] = .ok squs → ∀ squ ∈ squs, squ.QuotaCode ≠ "L-Z") ∧
    (∀ ws, (sampleRunner [("L-M", 7)] [("L-A", 92)] [("low", 50)]).CheckAlarms
        [("L-A", 92)] (fun _ => [("low", 50)]) = .ok ws → ∀ w ∈ ws, w.QuotaCode ≠ "L-Z") ∧
    ((sampleRunner [("L-M", 7)] [("L-A", 92)] [("low", 50)]).Loaded →
      ∃ squs ws, (sampleRunner [("L-M", 7)] [("L-A", 92)] [("low", 50)]).GetQuotasUsage
          [("L-A", 92)] = .ok squs ∧
        (sampleRunner [("L-M", 7)] [("L-A", 92)] [("low", 50)]).CheckAlarms
          [("L-A", 92)] (fun _ => [("low", 50)]) = .ok ws) :=
  C7_absent_quota_unreported (sampleRunner [("L-M", 7)] [("L-A", 92)] [("low", 50)])
    [("L-M", 7)] [("L-A", 92)] [("L-A", 92)] (fun _ => [("low", 50)]) rfl rfl (by decide)
    "L-Z" (by decide) (by decide)

/-- C8: the list returned by one CheckAlarms call holds at most one Warning per
quota code, for every Runner state and every enumeration order. -/
theorem C8_one_warning_per_quota (r : Runner) (api apiEnum : GoMap Int)
    (alarmEnum : Nat → GoMap Int) (ha : r.quotaApiUsage = some api) (hwf : api.WF)
    (he : api.IsEnum apiEnum) (ws : List Warning)
    (hrun : r.CheckAlarms apiEnum alarmEnum = .ok ws) :
    (ws.map (fun w => w.QuotaCode)).Nodup := by
  have _ := ha
  obtain ⟨squs, hq, hws⟩ := CheckAlarms_eq_ok r apiEnum alarmEnum ws hrun
  subst hws
  have hnd : (squs.map (fun s => s.QuotaCode)).Nodup := by
    rw [GetQuotasUsage_codes r apiEnum squs hq]
    exact (List.Perm.nodup_iff (List.Perm.map Prod.fst he)).mpr hwf
  exact List.Nodup.sublist (alarmLoop_codes alarmEnum 0 squs) hnd

/-- Witness of C8: two quotas over their thresholds give two Warnings with
distinct quota codes. -/
theorem C8_witness :
    ([sampleWarning "L-Z" "Dedicated hosts" 10 0 "low" 5,
      sampleWarning "L-A" "Elastic IPs" 92 100 "low" 5].map (fun w => w.QuotaCode)).Nodup :=
  C8_one_warning_per_quota (sampleRunner [] [("L-A", 92), ("L-Z", 10)] [("low", 5)])
    [("L-A", 92), ("L-Z", 10)] [("L-Z", 10), ("L-A", 92)] (fun _ => [("low", 5)]) rfl
    (by decide) (by decide) _ (by decide!)

/-! ## Ties between alarms -/

/-- Counterexample to C9: the alarms `a` and `b` share the threshold 50, met by
usage 92 of limit 100; enumerated as a, b the Warning names `a`, enumerated as
b, a it names `b`. -/
theorem C9_counterexample :
    GoMap.IsEnum [("a", (50 : Int)), ("b", 50)] [("b", 50), ("a", 50)] ∧
    (sampleRunner [] [("L-A", 92)] [("a", 50), ("b", 50)]).CheckAlarms [("L-A", 92)]
      (fun _ => [("a", 50), ("b", 50)]) =
      .ok [sampleWarning "L-A" "Elastic IPs" 92 100 "a" 50] ∧
    (sampleRunner [] [("L-A", 92)] [("a", 50), ("b", 50)]).CheckAlarms [("L-A", 92)]
      (fun _ => [("b", 50), ("a", 50)]) =
      .ok [sampleWarning "L-A" "Elastic IPs" 92 100 "b" 50] := by
  refine ⟨by decide, ?_, ?_⟩
  · decide!
  · decide!

/-- C9, amended: for two enumerations of the alarm registry CheckAlarms returns
the same Warnings up to the alarm Name (same quotas, same Thresholds, same
order), and the Name of a Warning is that of the first alarm carrying the
Warning's Threshold in the order of the pass that evaluates the Warning's quota:
the pass `j` at whose position the API-usage map is enumerated with that quota
code, the only such position when the enumeration holds every key once. -/
theorem C9_threshold_stable_name_first (r : Runner) (apiEnum : GoMap Int)
    (alarmEnum alarmEnum' : Nat → GoMap Int)
    (hA : ∀ i, r.alarms.IsEnum (alarmEnum i)) (hA' : ∀ i, r.alarms.IsEnum (alarmEnum' i))
    (ws : List Warning) (hrun : r.CheckAlarms apiEnum alarmEnum = .ok ws) :
    (∃ ws', r.CheckAlarms apiEnum alarmEnum' = .ok ws' ∧ List.Forall₂ SameButName ws ws') ∧
    ∀ w ∈ ws, ∃ j : Nat,
      apiEnum.keys[j]? = some w.QuotaCode ∧
      (apiEnum.WF → ∀ j' : Nat, apiEnum.keys[j']? = some w.QuotaCode → j' = j) ∧
      ∃ pre post,
        alarmEnum j = pre ++ (w.Name, w.Threshold) :: post ∧ ∀ kv ∈ pre, kv.2 ≠ w.Threshold := by
  obtain ⟨squs, hq, hws⟩ := CheckAlarms_eq_ok r apiEnum alarmEnum ws hrun
  subst hws
  constructor
  · refine ⟨_, CheckAlarms_eq r apiEnum alarmEnum' squs hq, ?_⟩
    exact alarmLoop_perm alarmEnum alarmEnum' 0 squs
      (fun j => List.Perm.trans (hA j) (hA' j).symm)
  · intro w hw
    obtain ⟨n, squ, hn, hquota⟩ := alarmLoop_mem_index alarmEnum 0 squs w hw
    rw [Nat.zero_add] at hquota
    obtain ⟨_, _, _, _, pre, post, he, hpre⟩ := quota_eq_some _ _ _ hquota
    have hcode := (quota_fields _ _ _ hquota).2.2.2.1
    have hkey : apiEnum.keys[n]? = some w.QuotaCode := by
      have h1 : (squs.map (fun s => s.QuotaCode))[n]? = some squ.QuotaCode := by
        rw [List.getElem?_map, hn]; rfl
      rw [GetQuotasUsage_codes r apiEnum squs hq] at h1
      rw [hcode]; exact h1
    refine ⟨n, hkey, ?_, pre, post, he, hpre⟩
    intro hwf j' hj'
    have hlt : n < apiEnum.keys.length := by
      rcases Nat.lt_or_ge n apiEnum.keys.length with h | h
      · exact h
      · rw [List.getElem?_eq_none h] at hkey; cases hkey
    exact (List.getElem?_inj hlt hwf (by rw [hkey, hj'])).symm

/-- Witness of C9, amended: the two enumerations of the tied alarms `a` and `b`;
the quota `L-A` is evaluated in pass 0. -/
theorem C9_witness :
    (∃ ws', (sampleRunner [] [("L-A", 92)] [("a", 50), ("b", 50)]).CheckAlarms [("L-A", 92)]
        (fun _ => [("b", 50), ("a", 50)]) = .ok ws' ∧
      List.Forall₂ SameButName [sampleWarning "L-A" "Elastic IPs" 92 100 "a" 50] ws') ∧
    ∀ w ∈ [sampleWarning "L-A" "Elastic IPs" 92 100 "a" 50], ∃ j : Nat,
      (GoMap.keys [("L-A", (92 : Int))])[j]? = some w.QuotaCode ∧
      (GoMap.WF [("L-A", (92 : Int))] →
        ∀ j' : Nat, (GoMap.keys [("L-A", (92 : Int))])[j']? = some w.QuotaCode → j' = j) ∧
      ∃ pre post : GoMap Int,
        [("a", (50 : Int)), ("b", 50)] = pre ++ (w.Name, w.Threshold) :: post ∧
        ∀ kv ∈ pre, kv.2 ≠ w.Threshold :=
  C9_threshold_stable_name_first (sampleRunner [] [("L-A", 92)] [("a", 50), ("b", 50)])
    [("L-A", 92)] (fun _ => [("a", 50), ("b", 50)]) (fun _ => [("b", 50), ("a", 50)])
    (fun _ => show GoMap.IsEnum [("a", (50 : Int)), ("b", 50)] [("a", 50), ("b", 50)] by decide)
    (fun _ => show GoMap.IsEnum [("a", (50 : Int)), ("b", 50)] [("b", 50), ("a", 50)] by decide)
    [sampleWarning "L-A" "Elastic IPs" 92 100 "a" 50] (by decide!)

/-! ## Refreshing the usage -/

/-- Counterexample to C10: when the metric source fails UpdateQuotasUsage returns
an error and leaves quotaMetricUsage nil, not the map it held before the call. -/
theorem C10_counterexample :
    ∃ r' err, (sampleRunner [("L-M", 7)] [("L-A", 92)] []).UpdateQuotasUsage metricDownEnv =
        .ok (r', some err) ∧
      (sampleRunner [("L-M", 7)] [("L-A", 92)] []).quotaMetricUsage = some [("L-M", 7)] ∧
      r'.quotaMetricUsage = none :=
  ⟨_, _, rfl, rfl, rfl⟩

/-- C10, amended: if UpdateQuotasUsage returns an error, quotaUsage and every
field of the Runner other than quotaMetricUsage and quotaApiUsage equal their
values from before the call, and quotaApiUsage does too when it is the metric
collection that failed. -/
theorem C10_failed_update_keeps_merged_view (r : Runner) (env : Env) (r' : Runner)
    (err : String) (h : r.UpdateQuotasUsage env = .ok (r', some err)) :
    r'.quotaUsage = r.quotaUsage ∧
    r' = { r with quotaMetricUsage := r'.quotaMetricUsage, quotaApiUsage := r'.quotaApiUsage } ∧
    ((∃ e, r.getQuotaMetricUsage env = .ok (.error e)) → r'.quotaApiUsage = r.quotaApiUsage) := by
  unfold Runner.UpdateQuotasUsage at h
  cases hm : r.getQuotaMetricUsage env with
  | error c => simp [hm, bind, Except.bind] at h
  | ok m =>
    cases m with
    | error e =>
      simp only [hm, bind, Except.bind, pure, Except.pure, Except.ok.injEq, Prod.mk.injEq] at h
      obtain ⟨h1, _⟩ := h
      subst h1
      exact ⟨rfl, rfl, fun _ => rfl⟩
    | ok metric =>
      simp only [hm, bind, Except.bind, pure, Except.pure] at h
      cases ha : getQuotaApiUsage
          { r with quotaMetricUsage := (Except.ok metric : Except String (GoMap Int)).toOption }
          env with
      | error e =>
        simp only [ha, Except.ok.injEq, Prod.mk.injEq] at h
        obtain ⟨h1, _⟩ := h
        subst h1
        refine ⟨rfl, rfl, ?_⟩
        rintro ⟨e', he'⟩
        cases he'
      | ok api =>
        simp [ha] at h

/-- Witness of C10, amended: the failed call of the counterexample, after which
quotaUsage and quotaApiUsage are those of before the call. -/
theorem C10_witness :
    ({ sampleRunner [("L-M", 7)] [("L-A", 92)] [] with quotaMetricUsage := none }).quotaUsage =
      (sampleRunner [("L-M", 7)] [("L-A", 92)] []).quotaUsage ∧
    ({ sampleRunner [("L-M", 7)] [("L-A", 92)] [] with quotaMetricUsage := none } : Runner) =
      { sampleRunner [("L-M", 7)] [("L-A", 92)] [] with
        quotaMetricUsage := none, quotaApiUsage := some [("L-A", 92)] } ∧
    ((∃ e, (sampleRunner [("L-M", 7)] [("L-A", 92)] []).getQuotaMetricUsage metricDownEnv =
        .ok (.error e)) →
      (some [("L-A", 92)] : Option (GoMap Int)) =
        (sampleRunner [("L-M", 7)] [("L-A", 92)] []).quotaApiUsage) :=
  C10_failed_update_keeps_merged_view (sampleRunner [("L-M", 7)] [("L-A", 92)] [])
    metricDownEnv { sampleRunner [("L-M", 7)] [("L-A", 92)] [] with quotaMetricUsage := none }
    ("Error while getting usage for quotas from cloudwatch metrics: " ++
      ("Error while getting usage metric: " ++ "RequestError: send request failed"))
    rfl

/-! ## The alarm registry -/

theorem GoMap.set_set {V : Type} (m : GoMap V) (k : String) (v1 v2 : V) :
    (m.set k v1).set k v2 = m.set k v2 := by
  induction m with
  | nil => simp [GoMap.set]
  | cons hd tl ih =>
    obtain ⟨k', v'⟩ := hd
    by_cases h : k' = k
    · simp [GoMap.set, h]
    · simp [GoMap.set, h, ih]

theorem GoMap.keys_set {V : Type} (m : GoMap V) (k : String) (v : V) :
    (m.set k v).keys = if m.contains k then m.keys else m.keys ++ [k] := by
  induction m with
  | nil => simp [GoMap.set, GoMap.keys, GoMap.contains, GoMap.get?]
  | cons hd tl ih =>
    obtain ⟨k', v'⟩ := hd
    by_cases h : k' = k
    · subst h
      simp [GoMap.set, GoMap.keys, GoMap.contains, GoMap.get?]
    · have ih' := ih
      simp only [GoMap.keys, GoMap.contains] at ih'
      simp only [GoMap.set, GoMap.keys, GoMap.contains, GoMap.get?, h, if_false, List.map_cons,
        ih']
      split <;> simp

theorem GoMap.WF_set {V : Type} (m : GoMap V) (k : String) (v : V) (h : m.WF) :
    (m.set k v).WF := by
  unfold GoMap.WF at h ⊢
  rw [GoMap.keys_set]
  by_cases hc : m.contains k = true
  · simp [hc, h]
  · simp only [hc, if_false]
    have hnot : k ∉ m.keys := fun hin => hc ((GoMap.contains_iff_mem_keys m k).mpr hin)
    exact List.Nodup.append h (List.nodup_singleton k) (by
      intro a ha hb
      simp at hb
      subst hb
      exact hnot ha)

/-- C14: after AddAlarm(name, t) the registry maps name to t and every other name
as before; a second AddAlarm(name, t) changes nothing; AddAlarm(name, t1) followed
by AddAlarm(name, t2) leaves the Runner that AddAlarm(name, t2) alone leaves, with
name mapped to t2, and a registry whose keys were distinct keeps them distinct. -/
theorem C14_AddAlarm_upsert (r : Runner) (name : String) (t t1 t2 : Int) :
    (r.AddAlarm name t).alarms.get? name = some t ∧
    (∀ other, other ≠ name → (r.AddAlarm name t).alarms.get? other = r.alarms.get? other) ∧
    (r.AddAlarm name t).AddAlarm name t = r.AddAlarm name t ∧
    (r.AddAlarm name t1).AddAlarm name t2 = r.AddAlarm name t2 ∧
    ((r.AddAlarm name t1).AddAlarm name t2).alarms.get? name = some t2 ∧
    (r.alarms.WF → ((r.AddAlarm name t1).AddAlarm name t2).alarms.WF) := by
  refine ⟨GoMap.get?_set_self _ _ _, fun other h => GoMap.get?_set_ne _ _ _ _ h, ?_, ?_,
    GoMap.get?_set_self _ _ _, ?_⟩
  · simp [Runner.AddAlarm, GoMap.set_set]
  · simp [Runner.AddAlarm, GoMap.set_set]
  · intro h
    exact GoMap.WF_set _ _ _ (GoMap.WF_set _ _ _ h)

/-- Witness of C14: registering `med` at 70 and then at 80 next to `low`. -/
theorem C14_witness :
    GoMap.WF [("low", (50 : Int))] ∧
    (((sampleRunner [] [] [("low", 50)]).AddAlarm "med" 70).AddAlarm "med" 80).alarms.get?
      "med" = some 80 ∧
    (((sampleRunner [] [] [("low", 50)]).AddAlarm "med" 70).AddAlarm "med" 80).alarms.WF :=
  ⟨by decide,
    (C14_AddAlarm_upsert (sampleRunner [] [] [("low", 50)]) "med" 0 70 80).2.2.2.2.1,
    (C14_AddAlarm_upsert (sampleRunner [] [] [("low", 50)]) "med" 0 70 80).2.2.2.2.2
      (by decide)⟩

/-! ## Usage above the limit -/

/-- Counterexample to C16: for limit 360287970189641 and usage twice the limit the
registered threshold 200 satisfies t*limit <= usage*100, but the product
usage*100.0 is rounded down, the quotient is 199.99999999999997, the alarm does
not pass the test and CheckAlarms returns no Warning. -/
theorem C16_counterexample :
    (0 : Int) < 360287970189641 ∧ (360287970189641 : Int) < 720575940379282 ∧
    (200 : Int) * 360287970189641 ≤ 720575940379282 * 100 ∧
    ¬ Matched (sampleRecord "L-W" "Snapshot storage" 720575940379282 360287970189641) 200 ∧
    (wideRunner 360287970189641 720575940379282 [("double", 200)]).CheckAlarms
        [("L-W", 720575940379282)] (fun _ => [("double", 200)]) = .ok [] := by
  refine ⟨by decide, by decide, by decide, by decide!, by decide!⟩

/-- C16, amended: for a usage record with usage > limit > 0 and usage*100 <= 2^53
the percentage is not capped: a registered alarm with threshold t > 0 and
t*limit <= usage*100 passes the threshold test, also when t >= 100, and
CheckAlarms returns a Warning for the quota whose Threshold is at least t. -/
theorem C16_over_limit_not_capped (r : Runner) (apiEnum : GoMap Int)
    (alarmEnum : Nat → GoMap Int) (hA : ∀ i, r.alarms.IsEnum (alarmEnum i))
    (squs : List ServiceQuotaUsage) (hq : r.GetQuotasUsage apiEnum = .ok squs)
    (squ : ServiceQuotaUsage) (hs : squ ∈ squs) (hl : 0 < squ.Value)
    (hover : squ.Value < squ.Usage) (hex : squ.Usage * 100 ≤ 2 ^ 53)
    (name : String) (t : Int) (hreg : (name, t) ∈ r.alarms)
    (ht : 0 < t) (hmet : t * squ.Value ≤ squ.Usage * 100) :
    Matched squ t ∧
    ∃ ws, r.CheckAlarms apiEnum alarmEnum = .ok ws ∧
      ∃ w ∈ ws, w.QuotaCode = squ.QuotaCode ∧ w.Usage = squ.Usage ∧ w.Limit = squ.Value ∧
        t ≤ w.Threshold := by
  have hex' : |squ.Usage| * 100 ≤ 2 ^ 53 := by
    rw [abs_of_nonneg (by omega)]; exact hex
  have hm : Matched squ t := matched_of_le squ t hl hex' (by omega) hmet
  refine ⟨hm, _, CheckAlarms_eq r apiEnum alarmEnum squs hq, ?_⟩
  obtain ⟨j, hj⟩ := alarmLoop_mem_of alarmEnum 0 squs squ hs
  have hmem : (name, t) ∈ alarmEnum j := (hA j).symm.subset hreg
  cases hquota : CheckAlarms.quota (alarmEnum j) squ with
  | none =>
    have := (quota_eq_none_iff _ _).mp hquota _ hmem hm
    simp only at this
    omega
  | some w =>
    obtain ⟨_, _, _, hcode, hlim, hus⟩ := quota_fields _ _ _ hquota
    obtain ⟨_, _, hmax, _⟩ := quota_eq_some _ _ _ hquota
    exact ⟨w, hj w hquota, hcode, hus, hlim, hmax _ hmem hm⟩

/-- Witness of C16, amended: usage 120 of limit 100 with the alarm high:100. -/
theorem C16_witness :
    Matched (sampleRecord "L-A" "Elastic IPs" 120 100) 100 ∧
    ∃ ws, (sampleRunner [] [("L-A", 120)] [("high", 100)]).CheckAlarms [("L-A", 120)]
        (fun _ => [("high", 100)]) = .ok ws ∧
      ∃ w ∈ ws, w.QuotaCode = "L-A" ∧ w.Usage = 120 ∧ w.Limit = 100 ∧ 100 ≤ w.Threshold :=
  C16_over_limit_not_capped (sampleRunner [] [("L-A", 120)] [("high", 100)]) [("L-A", 120)]
    (fun _ => [("high", 100)])
    (fun _ => show GoMap.IsEnum [("high", (100 : Int))] [("high", 100)] by decide)
    [sampleRecord "L-A" "Elastic IPs" 120 100] (by decide!)
    (sampleRecord "L-A" "Elastic IPs" 120 100) (by decide) (by decide) (by decide) (by decide)
    "high" 100 (by decide) (by decide) (by decide)

/-! ## The allow filter -/

/-- C19: checkIfServiceAllowed answers true exactly when the filter is nil or has
the service code as a key, also a key mapped to nil; a code missing from a present
filter gives false; when the code is a key the quota list returned is the
filter's value for it, and with a nil filter it is nil. -/
theorem C19_checkIfServiceAllowed (r : Runner) (serviceCode : String) :
    ((r.checkIfServiceAllowed serviceCode).1 = true ↔
      (r.allowedServices = none ∨
        ∃ f, r.allowedServices = some f ∧ serviceCode ∈ f.keys)) ∧
    (∀ f, r.allowedServices = some f → serviceCode ∉ f.keys →
      r.checkIfServiceAllowed serviceCode = (false, none)) ∧
    (∀ f quotas, r.allowedServices = some f → f.get? serviceCode = some quotas →
      r.checkIfServiceAllowed serviceCode = (true, quotas)) ∧
    (r.allowedServices = none → r.checkIfServiceAllowed serviceCode = (true, none)) := by
  unfold Runner.checkIfServiceAllowed CheckKeyMap
  cases hf : r.allowedServices with
  | none => simp
  | some f =>
    by_cases hc : f.contains serviceCode = true
    · have hk := (GoMap.contains_iff_mem_keys f serviceCode).mp hc
      refine ⟨by simp [hc, hk], ?_, ?_, by simp⟩
      · intro f' hf' hn
        injection hf' with hf'
        subst hf'
        exact absurd hk hn
      · intro f' quotas hf' hq
        injection hf' with hf'
        subst hf'
        simp [hc, hq]
    · have hk : serviceCode ∉ f.keys := fun h => hc ((GoMap.contains_iff_mem_keys f _).mpr h)
      refine ⟨by simp [hc, hk], ?_, ?_, by simp⟩
      · intro f' hf' _
        simp [hc]
      · intro f' quotas hf' hq
        injection hf' with hf'
        subst hf'
        exfalso
        apply hc
        simp [GoMap.contains, hq]

/-- Witness of C19: a filter with `ec2` mapped to nil and `s3` to one quota code. -/
theorem C19_witness :
    (({ sampleRunner [] [] [] with
        allowedServices := some [("ec2", none), ("s3", some ["L-DC2B2D3D"])] } :
        Runner).checkIfServiceAllowed "ec2").1 = true ∧
    ({ sampleRunner [] [] [] with
        allowedServices := some [("ec2", none), ("s3", some ["L-DC2B2D3D"])] } :
        Runner).checkIfServiceAllowed "vpc" = (false, none) ∧
    ({ sampleRunner [] [] [] with
        allowedServices := some [("ec2", none), ("s3", some ["L-DC2B2D3D"])] } :
        Runner).checkIfServiceAllowed "s3" = (true, some ["L-DC2B2D3D"]) :=
  ⟨(C19_checkIfServiceAllowed _ "ec2").1.mpr
      (Or.inr ⟨[("ec2", none), ("s3", some ["L-DC2B2D3D"])], rfl, by decide⟩),
    (C19_checkIfServiceAllowed _ "vpc").2.1 [("ec2", none), ("s3", some ["L-DC2B2D3D"])] rfl
      (by decide),
    (C19_checkIfServiceAllowed _ "s3").2.2.1 [("ec2", none), ("s3", some ["L-DC2B2D3D"])]
      (some ["L-DC2B2D3D"]) rfl (by decide)⟩

/-! ## Evaluation after a failed refresh -/

theorem body_metric_nil (r : Runner) (k : String) (v : Int) (qu : GoMap (List Int))
    (hqu : r.quotaUsage = some qu) (hc : qu.contains k = true) :
    GetQuotasUsage.body { r with quotaMetricUsage := none } k v = GetQuotasUsage.body r k v := by
  obtain ⟨region, allowed, quotas, codes, mu, au, qu', info, alarms⟩ := r
  simp only at hqu
  subst hqu
  simp only [GetQuotasUsage.body, Runner.GetServiceQuota, Runner.GetServiceName, deref, bind,
    Except.bind, hc, if_true]

theorem usageLoop_metric_nil (r : Runner) (qu : GoMap (List Int))
    (hqu : r.quotaUsage = some qu) (l : GoMap Int) (acc : List ServiceQuotaUsage)
    (hc : ∀ kv ∈ l, qu.contains kv.1 = true) :
    GetQuotasUsage.loop { r with quotaMetricUsage := none } l acc =
      GetQuotasUsage.loop r l acc := by
  induction l generalizing acc with
  | nil => rfl
  | cons hd tl ih =>
    obtain ⟨k, v⟩ := hd
    simp only [GetQuotasUsage.loop]
    rw [body_metric_nil r k v qu hqu (hc (k, v) (List.mem_cons_self _ _))]
    cases GetQuotasUsage.body r k v with
    | error c => rfl
    | ok squ =>
      simp only [bind, Except.bind]
      exact ih _ (fun kv hkv => hc kv (List.mem_cons_of_mem _ hkv))

theorem UpdateQuotasUsage_metric_failed (r : Runner) (env : Env) (r' : Runner) (err e : String)
    (h : r.UpdateQuotasUsage env = .ok (r', some err))
    (hm : r.getQuotaMetricUsage env = .ok (.error e)) :
    r' = { r with quotaMetricUsage := none } := by
  unfold Runner.UpdateQuotasUsage at h
  simp only [hm, bind, Except.bind, pure, Except.pure, Except.ok.injEq, Prod.mk.injEq] at h
  exact h.1.symm

/-- Counterexample to C11: when the EC2 usage source fails, UpdateQuotasUsage
returns an error and leaves quotaApiUsage nil; CheckAlarms, which returned a
Warning before the call, ends in a nil dereference after it. -/
theorem C11_counterexample :
    (sampleRunner [("L-M", 7)] [("L-A", 92)] [("low", 50)]).CheckAlarms [("L-A", 92)]
      (fun _ => [("low", 50)]) = .ok [sampleWarning "L-A" "Elastic IPs" 92 100 "low" 50] ∧
    ∃ r' err, (sampleRunner [("L-M", 7)] [("L-A", 92)] [("low", 50)]).UpdateQuotasUsage
        ec2DownEnv = .ok (r', some err) ∧
      r'.CheckAlarms [("L-A", 92)] (fun _ => [("low", 50)]) = .error .nilDeref := by
  refine ⟨by decide!, _, _, rfl, ?_⟩
  decide

/-- C11, amended: if UpdateQuotasUsage fails because the metric collection
failed, on a Runner whose merged view is the merge of its two usage maps,
CheckAlarms called after the failed call gives, for the same enumeration orders,
the result it gave before the call; on a loaded Runner that result is a Warning
list, returned normally. -/
theorem C11_metric_failure_keeps_warnings (r : Runner) (env : Env) (r' : Runner)
    (err e : String) (metric api apiEnum : GoMap Int) (alarmEnum : Nat → GoMap Int)
    (h : r.UpdateQuotasUsage env = .ok (r', some err))
    (hm : r.getQuotaMetricUsage env = .ok (.error e))
    (ha : r.quotaApiUsage = some api)
    (hmerged : r.quotaUsage = some (MergeMaps [metric, api])) (he : api.IsEnum apiEnum) :
    r'.CheckAlarms apiEnum alarmEnum = r.CheckAlarms apiEnum alarmEnum ∧
    (r.Loaded → ∃ ws, r'.CheckAlarms apiEnum alarmEnum = .ok ws) := by
  have hr' := UpdateQuotasUsage_metric_failed r env r' err e h hm
  subst hr'
  have hkeys : ∀ kv ∈ apiEnum, (MergeMaps [metric, api]).contains kv.1 = true := by
    intro kv hkv
    rw [MergeMaps.contains_pair]
    exact Or.inr (List.mem_map_of_mem Prod.fst (he.subset hkv))
  have hq : Runner.GetQuotasUsage { r with quotaMetricUsage := none } apiEnum =
      r.GetQuotasUsage apiEnum := by
    unfold Runner.GetQuotasUsage
    rw [usageLoop_metric_nil r _ hmerged apiEnum [] hkeys]
  have heq : Runner.CheckAlarms { r with quotaMetricUsage := none } apiEnum alarmEnum =
      r.CheckAlarms apiEnum alarmEnum := by
    unfold Runner.CheckAlarms
    rw [hq]
  refine ⟨heq, ?_⟩
  intro hl
  obtain ⟨squs, hsq⟩ := GetQuotasUsage_of_loaded r api apiEnum hl ha he
  exact ⟨_, by rw [heq]; exact CheckAlarms_eq r apiEnum alarmEnum squs hsq⟩

/-- Witness of C11, amended: the metric source fails and CheckAlarms answers as
before the call. -/
theorem C11_witness :
    Runner.CheckAlarms
        { sampleRunner [("L-M", 7)] [("L-A", 92)] [("low", 50)] with quotaMetricUsage := none }
        [("L-A", 92)] (fun _ => [("low", 50)]) =
      (sampleRunner [("L-M", 7)] [("L-A", 92)] [("low", 50)]).CheckAlarms [("L-A", 92)]
        (fun _ => [("low", 50)]) ∧
    ((sampleRunner [("L-M", 7)] [("L-A", 92)] [("low", 50)]).Loaded →
      ∃ ws, Runner.CheckAlarms
        { sampleRunner [("L-M", 7)] [("L-A", 92)] [("low", 50)] with quotaMetricUsage := none }
        [("L-A", 92)] (fun _ => [("low", 50)]) = .ok ws) :=
  C11_metric_failure_keeps_warnings (sampleRunner [("L-M", 7)] [("L-A", 92)] [("low", 50)])
    metricDownEnv
    { sampleRunner [("L-M", 7)] [("L-A", 92)] [("low", 50)] with quotaMetricUsage := none }
    ("Error while getting usage for quotas from cloudwatch metrics: " ++
      ("Error while getting usage metric: " ++ "RequestError: send request failed"))
    ("Error while getting usage metric: " ++ "RequestError: send request failed")
    [("L-M", 7)] [("L-A", 92)] [("L-A", 92)] (fun _ => [("low", 50)])
    rfl rfl rfl rfl (by decide)

/-! ## Repeated evaluation -/

theorem eraseName_of_sameButName (w w' : Warning) (h : SameButName w w') :
    w.eraseName = w'.eraseName := by
  unfold SameButName at h
  rw [h]
  rfl

theorem map_eraseName_of_forall₂ (ws ws' : List Warning) (h : List.Forall₂ SameButName ws ws') :
    ws.map Warning.eraseName = ws'.map Warning.eraseName := by
  induction h with
  | nil => rfl
  | cons hw _ ih => simp [eraseName_of_sameButName _ _ hw, ih]

theorem alarmLoop_const (e : GoMap Int) (i : Nat) (squs : List ServiceQuotaUsage) :
    CheckAlarms.loop (fun _ => e) i squs [] = squs.filterMap (CheckAlarms.quota e) := by
  induction squs generalizing i with
  | nil => rfl
  | cons squ rest ih =>
    rw [alarmLoop_cons, ih]
    cases hq : CheckAlarms.quota e squ with
    | none => simp [List.filterMap_cons, hq]
    | some w => simp [List.filterMap_cons, hq]

theorem alarmLoop_eraseName (r : Runner) (a : Nat → GoMap Int)
    (hA : ∀ i, r.alarms.IsEnum (a i)) (squs : List ServiceQuotaUsage) :
    (CheckAlarms.loop a 0 squs []).map Warning.eraseName =
      (squs.filterMap (CheckAlarms.quota r.alarms)).map Warning.eraseName := by
  rw [← alarmLoop_const r.alarms 0 squs]
  exact map_eraseName_of_forall₂ _ _ (alarmLoop_perm a (fun _ => r.alarms) 0 squs hA)

theorem forall₂_body_filterMap (r : Runner) (l : GoMap Int)
    (h : ∀ kv ∈ l, ∃ squ, GetQuotasUsage.body r kv.1 kv.2 = .ok squ) :
    List.Forall₂ (fun kv squ => GetQuotasUsage.body r kv.1 kv.2 = .ok squ) l
      (l.filterMap (fun kv => (GetQuotasUsage.body r kv.1 kv.2).toOption)) := by
  induction l with
  | nil => exact List.Forall₂.nil
  | cons hd tl ih =>
    obtain ⟨squ, hsqu⟩ := h hd (List.mem_cons_self _ _)
    have : (GetQuotasUsage.body r hd.1 hd.2).toOption = some squ := by
      rw [hsqu]; rfl
    rw [List.filterMap_cons, this]
    exact List.Forall₂.cons hsqu (ih (fun kv hkv => h kv (List.mem_cons_of_mem _ hkv)))

theorem forall₂_body_unique (r : Runner) (l : GoMap Int) (squs squs' : List ServiceQuotaUsage)
    (h : List.Forall₂ (fun kv squ => GetQuotasUsage.body r kv.1 kv.2 = .ok squ) l squs)
    (h' : List.Forall₂ (fun kv squ => GetQuotasUsage.body r kv.1 kv.2 = .ok squ) l squs') :
    squs = squs' := by
  induction h generalizing squs' with
  | nil => cases h'; rfl
  | cons hb _ ih =>
    cases h' with
    | cons hb' htl' =>
      rw [hb] at hb'
      injection hb' with hb'
      rw [hb', ih _ htl']

theorem GetQuotasUsage_perm (r : Runner) (e e' : GoMap Int) (squs : List ServiceQuotaUsage)
    (hp : List.Perm e' e) (h : r.GetQuotasUsage e = .ok squs) :
    ∃ squs', r.GetQuotasUsage e' = .ok squs' ∧ List.Perm squs' squs := by
  have hf := GetQuotasUsage_eq_ok r e squs h
  have hall : ∀ kv ∈ e, ∃ squ, GetQuotasUsage.body r kv.1 kv.2 = .ok squ := by
    intro kv hkv
    obtain ⟨squ, _, hb⟩ := GetQuotasUsage_record r e squs h kv.1 kv.2 hkv
    exact ⟨squ, hb⟩
  have hall' : ∀ kv ∈ e', ∃ squ, GetQuotasUsage.body r kv.1 kv.2 = .ok squ :=
    fun kv hkv => hall kv (hp.subset hkv)
  have hsqus : squs = e.filterMap (fun kv => (GetQuotasUsage.body r kv.1 kv.2).toOption) :=
    forall₂_body_unique r e _ _ hf (forall₂_body_filterMap r e hall)
  refine ⟨e'.filterMap (fun kv => (GetQuotasUsage.body r kv.1 kv.2).toOption), ?_, ?_⟩
  · have hapi : ∃ api, r.quotaApiUsage = some api := by
      cases ha : r.quotaApiUsage with
      | none => simp [Runner.GetQuotasUsage, ha, deref, bind, Except.bind] at h
      | some api => exact ⟨api, rfl⟩
    obtain ⟨api, ha⟩ := hapi
    unfold Runner.GetQuotasUsage
    simp only [ha, deref, bind, Except.bind]
    rw [usageLoop_of_forall₂ r e' [] _ (forall₂_body_filterMap r e' hall')]
    simp
  · rw [hsqus]
    exact List.Perm.filterMap _ hp

/-- Counterexample to C15: two CheckAlarms calls on the same Runner that
enumerate the API-usage map in different orders return the two Warnings in
different orders. -/
theorem C15_counterexample :
    GoMap.IsEnum [("L-A", (92 : Int)), ("L-Z", 10)] [("L-Z", 10), ("L-A", 92)] ∧
    (sampleRunner [] [("L-A", 92), ("L-Z", 10)] [("low", 5)]).CheckAlarms
      [("L-A", 92), ("L-Z", 10)] (fun _ => [("low", 5)]) =
      .ok [sampleWarning "L-A" "Elastic IPs" 92 100 "low" 5,
        sampleWarning "L-Z" "Dedicated hosts" 10 0 "low" 5] ∧
    (sampleRunner [] [("L-A", 92), ("L-Z", 10)] [("low", 5)]).CheckAlarms
      [("L-Z", 10), ("L-A", 92)] (fun _ => [("low", 5)]) =
      .ok [sampleWarning "L-Z" "Dedicated hosts" 10 0 "low" 5,
        sampleWarning "L-A" "Elastic IPs" 92 100 "low" 5] := by
  refine ⟨by decide, ?_, ?_⟩
  · decide!
  · decide!

/-- C15, amended: two CheckAlarms calls with no UpdateQuotasUsage or AddAlarm in
between return the same Warnings up to their order and up to the alarm Name of
each: the second call returns whenever the first does, and the two lists with
the names erased are permutations of each other; when both calls enumerate the
API-usage map and the alarm registry in the same orders the lists are equal. -/
theorem C15_same_warnings_up_to_order (r : Runner) (api apiEnum apiEnum' : GoMap Int)
    (alarmEnum alarmEnum' : Nat → GoMap Int) (ha : r.quotaApiUsage = some api)
    (he : api.IsEnum apiEnum) (he' : api.IsEnum apiEnum')
    (hA : ∀ i, r.alarms.IsEnum (alarmEnum i)) (hA' : ∀ i, r.alarms.IsEnum (alarmEnum' i))
    (ws : List Warning) (hrun : r.CheckAlarms apiEnum alarmEnum = .ok ws) :
    ∃ ws', r.CheckAlarms apiEnum' alarmEnum' = .ok ws' ∧
      List.Perm (ws'.map Warning.eraseName) (ws.map Warning.eraseName) ∧
      (apiEnum' = apiEnum → (∀ i, alarmEnum' i = alarmEnum i) → ws' = ws) := by
  have _ := ha
  obtain ⟨squs, hq, hws⟩ := CheckAlarms_eq_ok r apiEnum alarmEnum ws hrun
  subst hws
  obtain ⟨squs', hq', hperm⟩ := GetQuotasUsage_perm r apiEnum apiEnum' squs
    (List.Perm.trans he' he.symm) hq
  refine ⟨_, CheckAlarms_eq r apiEnum' alarmEnum' squs' hq', ?_, ?_⟩
  · rw [alarmLoop_eraseName r alarmEnum' hA' squs', alarmLoop_eraseName r alarmEnum hA squs]
    exact List.Perm.map _ (List.Perm.filterMap _ hperm)
  · intro h1 h2
    subst h1
    have h3 : alarmEnum' = alarmEnum := funext h2
    subst h3
    rw [hq] at hq'
    injection hq' with hq'
    rw [hq']

/-- Witness of C15, amended: the two calls of the counterexample. -/
theorem C15_witness :
    ∃ ws', (sampleRunner [] [("L-A", 92), ("L-Z", 10)] [("low", 5)]).CheckAlarms
        [("L-Z", 10), ("L-A", 92)] (fun _ => [("low", 5)]) = .ok ws' ∧
      List.Perm (ws'.map Warning.eraseName)
        ([sampleWarning "L-A" "Elastic IPs" 92 100 "low" 5,
          sampleWarning "L-Z" "Dedicated hosts" 10 0 "low" 5].map Warning.eraseName) ∧
      ([("L-Z", (10 : Int)), ("L-A", 92)] = [("L-A", 92), ("L-Z", 10)] →
        (∀ _ : Nat, [("low", (5 : Int))] = [("low", 5)]) →
        ws' = [sampleWarning "L-A" "Elastic IPs" 92 100 "low" 5,
          sampleWarning "L-Z" "Dedicated hosts" 10 0 "low" 5]) :=
  C15_same_warnings_up_to_order (sampleRunner [] [("L-A", 92), ("L-Z", 10)] [("low", 5)])
    [("L-A", 92), ("L-Z", 10)] [("L-A", 92), ("L-Z", 10)] [("L-Z", 10), ("L-A", 92)]
    (fun _ => [("low", 5)]) (fun _ => [("low", 5)]) rfl (by decide) (by decide)
    (fun _ => show GoMap.IsEnum [("low", (5 : Int))] [("low", 5)] by decide)
    (fun _ => show GoMap.IsEnum [("low", (5 : Int))] [("low", 5)] by decide)
    _ (by decide!)

/-! ## Failing collaborators -/

theorem service_failed (r : Runner) (code label : String) (getUsage : Except String (GoMap Int))
    (e : String) (hallowed : (r.checkIfServiceAllowed code).1 = true)
    (hres : getUsage = .error e) (mapPointer : Option (GoMap Int)) :
    getQuotaApiUsage.service r code label getUsage mapPointer =
      .error ("Error while getting usage from API for " ++ label ++ " quotas: " ++ e) := by
  simp [getQuotaApiUsage.service, hallowed, hres]

theorem getQuotaApiUsage_failed (r : Runner) (env : Env) (code : String)
    (res : Except String (GoMap Int)) (e : String) (hmem : (code, res) ∈ env.sources)
    (hallowed : (r.checkIfServiceAllowed code).1 = true) (hres : res = .error e) :
    ∃ e', r.getQuotaApiUsage env = .error e' := by
  subst hres
  simp only [Env.sources, List.mem_cons, Prod.mk.injEq, List.mem_singleton, List.not_mem_nil,
    or_false] at hmem
  have hno : ∀ label mp v, getQuotaApiUsage.service r code label (.error e) mp ≠ .ok v := by
    intro label mp v
    rw [service_failed r code label _ e hallowed rfl mp]
    exact fun h => Except.noConfusion h
  rcases hmem with h | h | h | h | h | h | h | h <;> obtain ⟨h1, h2⟩ := h <;> subst h1 <;>
    rw [h2] at hno <;>
    simp only [Runner.getQuotaApiUsage, bind, Except.bind] <;>
    repeat' (first | exact ⟨_, rfl⟩ | split)
  all_goals (first
    | exact absurd ‹getQuotaApiUsage.service r "ec2" _ _ _ = _› (hno _ _ _)
    | exact absurd ‹getQuotaApiUsage.service r "cloudformation" _ _ _ = _› (hno _ _ _)
    | exact absurd ‹getQuotaApiUsage.service r "elasticbeanstalk" _ _ _ = _› (hno _ _ _)
    | exact absurd ‹getQuotaApiUsage.service r "autoscaling" _ _ _ = _› (hno _ _ _)
    | exact absurd ‹getQuotaApiUsage.service r "s3" _ _ _ = _› (hno _ _ _)
    | exact absurd ‹getQuotaApiUsage.service r "vpc" _ _ _ = _› (hno _ _ _)
    | exact absurd ‹getQuotaApiUsage.service r "elasticloadbalancing" _ _ _ = _› (hno _ _ _)
    | exact absurd ‹getQuotaApiUsage.service r "elasticfilesystem" _ _ _ = _› (hno _ _ _))

theorem GoMap.get?_of_mem {V : Type} (m : GoMap V) (k : String) (v : V) (hwf : m.WF)
    (h : (k, v) ∈ m) : m.get? k = some v := by
  induction m with
  | nil => cases h
  | cons hd tl ih =>
    obtain ⟨k', v'⟩ := hd
    unfold GoMap.WF GoMap.keys at hwf
    simp only [List.map_cons, List.nodup_cons] at hwf
    rcases List.mem_cons.mp h with heq | hmem
    · injection heq with h1 h2
      subst h1; subst h2
      simp [GoMap.get?]
    · have hne : k' ≠ k := by
        intro hk
        subst hk
        exact hwf.1 (List.mem_map_of_mem Prod.fst hmem)
      simp only [GoMap.get?, hne, if_false]
      exact ih hwf.2 hmem

theorem GoMap.get?_isSome_of_mem_keys {V : Type} (m : GoMap V) (k : String)
    (h : k ∈ m.keys) : ∃ v, m.get? k = some v := by
  have := (GoMap.contains_iff_mem_keys m k).mpr h
  unfold GoMap.contains at this
  exact Option.isSome_iff_exists.mp this

theorem quotaLoop_returns (env : Env) (s : serviceInfo) (l : List String)
    (hl : ∀ k ∈ l, k ∈ s.serviceQuotas.keys) (acc : GoMap Int) :
    ∃ res, getQuotaMetricUsage.quotaLoop env (.ok s) l acc = .ok res := by
  induction l generalizing acc with
  | nil => exact ⟨_, rfl⟩
  | cons quota rest ih =>
    obtain ⟨q, hq⟩ := GoMap.get?_isSome_of_mem_keys _ _ (hl quota (List.mem_cons_self _ _))
    have hrest : ∀ k ∈ rest, k ∈ s.serviceQuotas.keys :=
      fun k hk => hl k (List.mem_cons_of_mem _ hk)
    simp only [getQuotaMetricUsage.quotaLoop, Except.toOption, deref,
      serviceInfo.GetServiceQuota, hq, bind, Except.bind]
    cases hum : q.UsageMetric with
    | none => exact ih hrest acc
    | some um =>
      cases hcw : env.GetUsageFromMetric um with
      | error e => simp only [hcw]; exact ⟨_, rfl⟩
      | ok usage => simp only [hcw]; exact ih hrest _

theorem quotaLoop_fails (env : Env) (s : serviceInfo) (l : List String)
    (hl : ∀ k ∈ l, k ∈ s.serviceQuotas.keys) (quota : String) (q : serviceQuota)
    (um : MetricInfo) (e : String) (hq : s.serviceQuotas.get? quota = some q)
    (hum : q.UsageMetric = some um) (herr : env.GetUsageFromMetric um = .error e)
    (hmem : quota ∈ l) (acc : GoMap Int) :
    ∃ e', getQuotaMetricUsage.quotaLoop env (.ok s) l acc = .ok (.error e') := by
  induction l generalizing acc with
  | nil => cases hmem
  | cons k rest ih =>
    have hrest : ∀ k ∈ rest, k ∈ s.serviceQuotas.keys :=
      fun k hk => hl k (List.mem_cons_of_mem _ hk)
    by_cases hk : k = quota
    · subst hk
      simp only [getQuotaMetricUsage.quotaLoop, Except.toOption, deref,
        serviceInfo.GetServiceQuota, hq, bind, Except.bind, hum, herr]
      exact ⟨_, rfl⟩
    · have hmem' : quota ∈ rest := by
        rcases List.mem_cons.mp hmem with h | h
        · exact absurd h.symm hk
        · exact h
      obtain ⟨q', hq'⟩ := GoMap.get?_isSome_of_mem_keys _ _ (hl k (List.mem_cons_self _ _))
      simp only [getQuotaMetricUsage.quotaLoop, Except.toOption, deref,
        serviceInfo.GetServiceQuota, hq', bind, Except.bind]
      cases hum' : q'.UsageMetric with
      | none => exact ih hrest hmem' acc
      | some um' =>
        cases hcw : env.GetUsageFromMetric um' with
        | error e'' => simp only [hcw]; exact ⟨_, rfl⟩
        | ok usage => simp only [hcw]; exact ih hrest hmem' _

theorem serviceLoop_fails (r : Runner) (env : Env) (qs : Quotas) (hqs : r.quotas = some qs)
    (codes : List String) (service : String) (s : serviceInfo) (quota : String)
    (q : serviceQuota) (um : MetricInfo) (e : String) (hmem : service ∈ codes)
    (hs : qs.servicesMap.get? service = some s) (hq : s.serviceQuotas.get? quota = some q)
    (hum : q.UsageMetric = some um) (herr : env.GetUsageFromMetric um = .error e)
    (acc : GoMap Int) :
    ∃ e', getQuotaMetricUsage.serviceLoop r env codes acc = .ok (.error e') := by
  induction codes generalizing acc with
  | nil => cases hmem
  | cons c rest ih =>
    simp only [getQuotaMetricUsage.serviceLoop, hqs, deref, bind, Except.bind,
      Quotas.ListQuotasCodes, Quotas.GetService]
    by_cases hc : c = service
    · subst hc
      have hk : quota ∈ s.serviceQuotas.keys :=
        List.mem_map_of_mem Prod.fst (GoMap.mem_of_get? _ _ _ hq)
      obtain ⟨e', he'⟩ := quotaLoop_fails env s s.serviceQuotas.keys (fun _ h => h) quota q um e
        hq hum herr hk acc
      simp only [hs, he']
      exact ⟨_, rfl⟩
    · have hmem' : service ∈ rest := by
        rcases List.mem_cons.mp hmem with h | h
        · exact absurd h.symm hc
        · exact h
      cases hsc : qs.servicesMap.get? c with
      | none => exact ⟨_, rfl⟩
      | some sc =>
        obtain ⟨res, hres⟩ := quotaLoop_returns env sc sc.serviceQuotas.keys (fun _ h => h) acc
        simp only [hres]
        cases res with
        | error e' => exact ⟨_, rfl⟩
        | ok acc' => exact ih hmem' acc'

/-- C17: if the GetUsage of a usage source that getQuotaApiUsage asks (an allowed
service) fails, getQuotaApiUsage returns an error and the nil map, whatever the
other sources answer; if the metric source fails for a quota of a service among
quotaServiceCodes, getQuotaMetricUsage returns an error and the nil map. -/
theorem C17_collection_all_or_nothing (r : Runner) (env : Env) :
    (∀ code res e, (code, res) ∈ env.sources → (r.checkIfServiceAllowed code).1 = true →
      res = .error e →
      (∃ e', r.getQuotaApiUsage env = .error e') ∧ (r.getQuotaApiUsage env).toOption = none) ∧
    (∀ qs codes service s quota q um e, r.quotas = some qs → r.quotaServiceCodes = some codes →
      service ∈ codes → qs.servicesMap.get? service = some s →
      s.serviceQuotas.get? quota = some q → q.UsageMetric = some um →
      env.GetUsageFromMetric um = .error e →
      ∃ e', r.getQuotaMetricUsage env = .ok (.error e') ∧
        (Except.error e' : Except String (GoMap Int)).toOption = none) := by
  constructor
  · intro code res e hmem hallowed hres
    obtain ⟨e', he'⟩ := getQuotaApiUsage_failed r env code res e hmem hallowed hres
    exact ⟨⟨e', he'⟩, by rw [he']; rfl⟩
  · intro qs codes service s quota q um e hqs hcodes hmem hs hq hum herr
    obtain ⟨e', he'⟩ := serviceLoop_fails r env qs hqs codes service s quota q um e hmem hs hq
      hum herr []
    refine ⟨e', ?_, rfl⟩
    simp only [Runner.getQuotaMetricUsage, hcodes, deref, bind, Except.bind]
    exact he'

/-- Witness of C17: the S3 source fails after four sources have answered, and
the metric source fails for the quota `L-M`. -/
theorem C17_witness :
    ((∃ e', (sampleRunner [] [] []).getQuotaApiUsage
        { sampleEnv with s3GetUsage := .error "AccessDenied" } = .error e') ∧
      ((sampleRunner [] [] []).getQuotaApiUsage
        { sampleEnv with s3GetUsage := .error "AccessDenied" }).toOption = none) ∧
    (∃ e', (sampleRunner [] [] []).getQuotaMetricUsage metricDownEnv = .ok (.error e') ∧
      (Except.error e' : Except String (GoMap Int)).toOption = none) :=
  ⟨(C17_collection_all_or_nothing (sampleRunner [] [] [])
      { sampleEnv with s3GetUsage := .error "AccessDenied" }).1 "s3" (.error "AccessDenied")
      "AccessDenied" (by simp [Runner.Env.sources]) rfl rfl,
   (C17_collection_all_or_nothing (sampleRunner [] [] []) metricDownEnv).2 sampleCatalog
      ["ec2"] "ec2" _ "L-M" _ sampleMetric "RequestError: send request failed" rfl rfl
      (by decide) rfl rfl rfl rfl⟩

/-! ## The usage sources -/

theorem Find_iff (l : List String) (k : String) : Find l k = true ↔ k ∈ l := by
  induction l with
  | nil => simp [Find]
  | cons hd tl ih =>
    by_cases h : hd = k
    · simp [Find, h]
    · have h' : ¬ k = hd := fun e => h e.symm
      simp [Find, h, h', ih]

theorem isQuotaAllowed_iff (allowedQuotas : Option (List String)) (k : String) :
    isQuotaAllowed allowedQuotas k = true ↔
      ∀ allowed, allowedQuotas = some allowed → k ∈ allowed := by
  cases allowedQuotas with
  | none => simp [isQuotaAllowed]
  | some a =>
    by_cases h : Find a k = true
    · simp [isQuotaAllowed, h, (Find_iff a k).mp h]
    · have hn : k ∉ a := fun hin => h ((Find_iff a k).mpr hin)
      simp [isQuotaAllowed, h, hn]

theorem GoMap.mem_keys_set {V : Type} (m : GoMap V) (k k' : String) (v : V) :
    k' ∈ (m.set k v).keys ↔ k' ∈ m.keys ∨ k' = k := by
  rw [← GoMap.contains_iff_mem_keys, GoMap.contains_set, GoMap.contains_iff_mem_keys]
  tauto

theorem GetUsage_loop_ok {F : Type} (label : String) (allowedQuotas : Option (List String))
    (call : F → UsageResult) (l : List (String × F)) (acc : GoMap Int)
    (hcall : ∀ kv ∈ l, (∀ allowed, allowedQuotas = some allowed → kv.1 ∈ allowed) →
      ∃ n, call kv.2 = (some n, none)) :
    ∃ m, GetUsage.loop label allowedQuotas call l acc = .ok (.ok m) ∧ (acc.WF → m.WF) ∧
      ∀ k, k ∈ m.keys ↔
        k ∈ acc.keys ∨ (k ∈ l.map Prod.fst ∧ ∀ allowed, allowedQuotas = some allowed → k ∈ allowed) := by
  induction l generalizing acc with
  | nil => exact ⟨acc, rfl, id, by simp⟩
  | cons hd tl ih =>
    obtain ⟨k0, f0⟩ := hd
    have htl : ∀ kv ∈ tl, (∀ allowed, allowedQuotas = some allowed → kv.1 ∈ allowed) →
        ∃ n, call kv.2 = (some n, none) := fun kv hkv => hcall kv (List.mem_cons_of_mem _ hkv)
    by_cases hal : ∀ allowed, allowedQuotas = some allowed → k0 ∈ allowed
    · obtain ⟨n, hn⟩ := hcall (k0, f0) (List.mem_cons_self _ _) hal
      have hflag : isQuotaAllowed allowedQuotas k0 = true := (isQuotaAllowed_iff _ _).mpr hal
      obtain ⟨m, hm, hwf, hkeys⟩ := ih (acc.set k0 n) htl
      refine ⟨m, ?_, fun h => hwf (GoMap.WF_set _ _ _ h), ?_⟩
      · simp only [GetUsage.loop, hflag, if_true, hn]
        exact hm
      · intro k
        rw [hkeys, GoMap.mem_keys_set]
        simp only [List.map_cons, List.mem_cons]
        constructor
        · rintro ((h | h) | h)
          · exact Or.inl h
          · exact Or.inr ⟨Or.inl h, by rw [h]; exact hal⟩
          · exact Or.inr ⟨Or.inr h.1, h.2⟩
        · rintro (h | ⟨h | h, h2⟩)
          · exact Or.inl (Or.inl h)
          · exact Or.inl (Or.inr h)
          · exact Or.inr ⟨h, h2⟩
    · have hflag : isQuotaAllowed allowedQuotas k0 = false := by
        cases hF : isQuotaAllowed allowedQuotas k0 with
        | false => rfl
        | true => exact absurd ((isQuotaAllowed_iff _ _).mp hF) hal
      obtain ⟨m, hm, hwf, hkeys⟩ := ih acc htl
      refine ⟨m, ?_, hwf, ?_⟩
      · simp only [GetUsage.loop, hflag]
        exact hm
      · intro k
        rw [hkeys]
        simp only [List.map_cons, List.mem_cons]
        constructor
        · rintro (h | h)
          · exact Or.inl h
          · exact Or.inr ⟨Or.inr h.1, h.2⟩
        · rintro (h | ⟨h | h, h2⟩)
          · exact Or.inl h
          · exact absurd (by rw [← h]; exact h2) hal
          · exact Or.inr ⟨h, h2⟩

/-- C20: when every usage function called succeeds, the GetUsage of the EC2 usage
source returns without error a map whose keys are the quota codes of the table
of createUsageFuncMap that are in the allowed list, all of the table when the
list is nil, each once; an allowed code that the table does not know gives no
entry and no error. -/
theorem C20_GetUsage_keys (region : String) (allowedQuotas : Option (List String))
    (client : ec2.Client) (funcsEnum : GoMap ec2.getUsageFunc)
    (he : GoMap.IsEnum ec2.createUsageFuncMap funcsEnum)
    (hok : ∀ k f, (k, f) ∈ ec2.createUsageFuncMap →
      (∀ allowed, allowedQuotas = some allowed → k ∈ allowed) → ∃ n, client f = .ok n) :
    ∃ m, (ec2.NewEC2 region allowedQuotas).GetUsage client funcsEnum = .ok (.ok m) ∧ m.WF ∧
      (∀ k, k ∈ m.keys ↔
        (k ∈ ec2.createUsageFuncMap.keys ∧
          ∀ allowed, allowedQuotas = some allowed → k ∈ allowed)) ∧
      ∀ k, k ∉ ec2.createUsageFuncMap.keys → m.get? k = none := by
  have hcall : ∀ kv ∈ funcsEnum, (∀ allowed, allowedQuotas = some allowed → kv.1 ∈ allowed) →
      ∃ n, (fun v => UsageResult.ofExcept (client v)) kv.2 = (some n, none) := by
    intro kv hkv hal
    obtain ⟨n, hn⟩ := hok kv.1 kv.2 (he.subset hkv) hal
    exact ⟨n, by simp only [hn, UsageResult.ofExcept]⟩
  obtain ⟨m, hm, hwf, hkeys⟩ := GetUsage_loop_ok "EC2" allowedQuotas
    (fun v => UsageResult.ofExcept (client v)) funcsEnum [] hcall
  have hk : ∀ k, k ∈ m.keys ↔
      (k ∈ ec2.createUsageFuncMap.keys ∧
        ∀ allowed, allowedQuotas = some allowed → k ∈ allowed) := by
    intro k
    rw [hkeys]
    have hperm : k ∈ funcsEnum.map Prod.fst ↔ k ∈ ec2.createUsageFuncMap.keys :=
      (List.Perm.map Prod.fst he).mem_iff
    simp [GoMap.keys, hperm]
  refine ⟨m, hm, hwf (by simp [GoMap.WF, GoMap.keys]), hk, ?_⟩
  intro k hnot
  cases hg : m.get? k with
  | none => rfl
  | some v =>
    have hin : k ∈ m.keys := (GoMap.contains_iff_mem_keys m k).mp (by simp [GoMap.contains, hg])
    exact absurd ((hk k).mp hin).1 hnot

/-- Witness of C20: the allowed list names one quota code of the table and one
code that the table does not know. -/
theorem C20_witness :
    ∃ m, (ec2.NewEC2 "us-east-1" (some ["L-0263D0A3", "L-UNKNOWN"])).GetUsage (fun _ => .ok 3)
        ec2.createUsageFuncMap = .ok (.ok m) ∧ m.WF ∧
      (∀ k, k ∈ m.keys ↔
        (k ∈ ec2.createUsageFuncMap.keys ∧
          ∀ allowed, some ["L-0263D0A3", "L-UNKNOWN"] = some allowed → k ∈ allowed)) ∧
      ∀ k, k ∉ ec2.createUsageFuncMap.keys → m.get? k = none :=
  C20_GetUsage_keys "us-east-1" (some ["L-0263D0A3", "L-UNKNOWN"]) (fun _ => .ok 3)
    ec2.createUsageFuncMap (List.Perm.refl _) (fun _ _ _ _ => ⟨3, rfl⟩)

/-! ## Refreshing the catalog -/

theorem UpdateQuotasInfo_of_failed (r : Runner) (aws : Aws) (e : String)
    (h : NewQuota aws r.region r.allowedServices = .ok (.error e)) :
    r.UpdateQuotasInfo aws = .error .nilDeref := by
  simp [Runner.UpdateQuotasInfo, h, bind, Except.bind, Except.toOption, deref]

/-- C12 fails on the code: when the service listing fails, NewQuota returns an
error, and UpdateQuotasInfo, which stores the nil catalog and then calls
ListServicesCodes on it, ends in a nil dereference instead of returning that
error. -/
theorem C12_UpdateQuotasInfo_panics :
    NewQuota listingDownAws (sampleRunner [] [] []).region
        (sampleRunner [] [] []).allowedServices =
      .ok (.error ("Error while getting services information: " ++
        ("Error while getting list of services: " ++ "RequestError: send request failed"))) ∧
    (sampleRunner [] [] []).UpdateQuotasInfo listingDownAws = .error .nilDeref := by
  refine ⟨rfl, ?_⟩
  exact UpdateQuotasInfo_of_failed _ _ _ rfl

/-! ## Process exit -/

theorem quotasPage_crash (client : servicequotas.Client) (service : String)
    (allowedQuotas : Option (List String)) (l : List servicequotas.ServiceQuota)
    (acc : GoMap serviceQuota) (c : Crash)
    (h : getQuotasMap.page client service allowedQuotas l acc = .error c) : c = .exit 1 := by
  induction l generalizing acc with
  | nil => simp [getQuotasMap.page, pure, Except.pure] at h
  | cons value rest ih =>
    simp only [getQuotasMap.page] at h
    split at h
    · split at h
      · simp only [ExitErrorf, Except.error.injEq] at h
        exact h.symm
      · exact ih _ h
    · exact ih _ h

theorem quotasPages_crash (client : servicequotas.Client) (service : String)
    (allowedQuotas : Option (List String)) (l : List (List servicequotas.ServiceQuota))
    (acc : GoMap serviceQuota) (c : Crash)
    (h : getQuotasMap.pages client service allowedQuotas l acc = .error c) : c = .exit 1 := by
  induction l generalizing acc with
  | nil => simp [getQuotasMap.pages, pure, Except.pure] at h
  | cons page rest ih =>
    simp only [getQuotasMap.pages, bind, Except.bind] at h
    split at h
    · rename_i c' hc'
      injection h with h
      subst h
      exact quotasPage_crash _ _ _ _ _ _ hc'
    · exact ih _ h

theorem getQuotasMap_crash (client : servicequotas.Client) (service : String)
    (allowedQuotas : Option (List String)) (c : Crash)
    (h : getQuotasMap client service allowedQuotas = .error c) : c = .exit 1 := by
  simp only [getQuotasMap, bind, Except.bind] at h
  split at h
  · rename_i c' hc'
    injection h with h
    subst h
    exact quotasPages_crash _ _ _ _ _ _ hc'
  · split at h <;> simp [pure, Except.pure] at h

theorem servicesPage_crash (client : servicequotas.Client) (allowedServices : AllowFilter)
    (l : List servicequotas.ServiceInfo) (acc : GoMap serviceInfo) (c : Crash)
    (h : getServicesMap.page client allowedServices l acc = .error c) : c = .exit 1 := by
  induction l generalizing acc with
  | nil => simp [getServicesMap.page, pure, Except.pure] at h
  | cons value rest ih =>
    simp only [getServicesMap.page] at h
    split at h
    · simp only [bind, Except.bind] at h
      split at h
      · rename_i c' hc'
        injection h with h
        subst h
        exact getQuotasMap_crash _ _ _ _ hc'
      · split at h
        · simp only [ExitErrorf, Except.error.injEq] at h
          exact h.symm
        · exact ih _ h
    · exact ih _ h

theorem servicesPage_exits (client : servicequotas.Client) (allowedServices : AllowFilter)
    (l : List servicequotas.ServiceInfo) (acc : GoMap serviceInfo)
    (value : servicequotas.ServiceInfo) (e : String) (hmem : value ∈ l)
    (hal : (getServicesMap.allowed allowedServices value.ServiceCode).1 = true)
    (hq : getQuotasMap client value.ServiceCode
      (getServicesMap.allowed allowedServices value.ServiceCode).2 = .ok (.error e)) :
    getServicesMap.page client allowedServices l acc = .error (.exit 1) := by
  cases hres : getServicesMap.page client allowedServices l acc with
  | error c => rw [servicesPage_crash _ _ _ _ _ hres]
  | ok m =>
    exfalso
    induction l generalizing acc with
    | nil => cases hmem
    | cons hd rest ih =>
      simp only [getServicesMap.page] at hres
      rcases List.mem_cons.mp hmem with heq | hin
      · subst heq
        simp [hal, hq, bind, Except.bind, ExitErrorf] at hres
      · split at hres
        · simp only [bind, Except.bind] at hres
          split at hres
          · cases hres
          · split at hres
            · simp [ExitErrorf] at hres
            · exact ih _ hin hres
        · exact ih _ hin hres

theorem servicesPages_crash (client : servicequotas.Client) (allowedServices : AllowFilter)
    (l : List (List servicequotas.ServiceInfo)) (acc : GoMap serviceInfo) (c : Crash)
    (h : getServicesMap.pages client allowedServices l acc = .error c) : c = .exit 1 := by
  induction l generalizing acc with
  | nil => simp [getServicesMap.pages, pure, Except.pure] at h
  | cons page rest ih =>
    simp only [getServicesMap.pages, bind, Except.bind] at h
    split at h
    · rename_i c' hc'
      injection h with h
      subst h
      exact servicesPage_crash _ _ _ _ _ hc'
    · exact ih _ h

theorem servicesPages_exits (client : servicequotas.Client) (allowedServices : AllowFilter)
    (l : List (List servicequotas.ServiceInfo)) (acc : GoMap serviceInfo)
    (page : List servicequotas.ServiceInfo) (value : servicequotas.ServiceInfo) (e : String)
    (hpage : page ∈ l) (hmem : value ∈ page)
    (hal : (getServicesMap.allowed allowedServices value.ServiceCode).1 = true)
    (hq : getQuotasMap client value.ServiceCode
      (getServicesMap.allowed allowedServices value.ServiceCode).2 = .ok (.error e)) :
    getServicesMap.pages client allowedServices l acc = .error (.exit 1) := by
  induction l generalizing acc with
  | nil => cases hpage
  | cons hd rest ih =>
    simp only [getServicesMap.pages, bind, Except.bind]
    rcases List.mem_cons.mp hpage with heq | hin
    · subst heq
      rw [servicesPage_exits client allowedServices page acc value e hmem hal hq]
    · cases hres : getServicesMap.page client allowedServices hd acc with
      | error c => rw [servicesPage_crash _ _ _ _ _ hres]
      | ok m => exact ih _ hin

theorem servicesPage_returns (client : servicequotas.Client) (allowedServices : AllowFilter)
    (hq : ∀ service allowedQuotas, ∃ m, getQuotasMap client service allowedQuotas = .ok (.ok m))
    (l : List servicequotas.ServiceInfo) (acc : GoMap serviceInfo) :
    ∃ m, getServicesMap.page client allowedServices l acc = .ok m := by
  induction l generalizing acc with
  | nil => exact ⟨acc, rfl⟩
  | cons value rest ih =>
    simp only [getServicesMap.page]
    split
    · obtain ⟨sq, hsq⟩ := hq value.ServiceCode
        (getServicesMap.allowed allowedServices value.ServiceCode).2
      simp only [hsq, bind, Except.bind]
      exact ih _
    · exact ih _

theorem servicesPages_returns (client : servicequotas.Client) (allowedServices : AllowFilter)
    (hq : ∀ service allowedQuotas, ∃ m, getQuotasMap client service allowedQuotas = .ok (.ok m))
    (l : List (List servicequotas.ServiceInfo)) (acc : GoMap serviceInfo) :
    ∃ m, getServicesMap.pages client allowedServices l acc = .ok m := by
  induction l generalizing acc with
  | nil => exact ⟨acc, rfl⟩
  | cons page rest ih =>
    obtain ⟨m, hm⟩ := servicesPage_returns client allowedServices hq page acc
    simp only [getServicesMap.pages, hm, bind, Except.bind]
    exact ih _

/-- Counterexample to C13: GetServiceName asked for a service code that is not in
the loaded catalog ends the process with exit code 1, and so does getServicesMap
when the quota listing of a listed service fails. -/
theorem C13_counterexample :
    sampleCatalog.servicesMap.get? "lambda" = none ∧
    (sampleRunner [] [] []).GetServiceName "lambda" = .error (.exit 1) ∧
    getQuotasMap quotasDownClient "ec2" none =
      .ok (.error ("Error while getting list of quotas: " ++ "TooManyRequestsException")) ∧
    getServicesMap quotasDownClient none = .error (.exit 1) := by
  refine ⟨by decide, rfl, rfl, rfl⟩

/-- C13, amended: GetServiceName returns the service's name to its caller when
the service code is in the loaded catalog and ends the process with exit code 1
when it is not; getServicesMap ends the process with exit code 1 when the quotas
of a listed, allowed service cannot be fetched, and returns, a failure of the
service listing as an error, when the quotas of every service can be fetched. -/
theorem C13_exit_policy (r : Runner) (qs : Quotas) (hqs : r.quotas = some qs)
    (client : servicequotas.Client) (allowedServices : AllowFilter) :
    (∀ serviceCode s, qs.servicesMap.get? serviceCode = some s →
      r.GetServiceName serviceCode = .ok s.serviceName) ∧
    (∀ serviceCode, qs.servicesMap.get? serviceCode = none →
      r.GetServiceName serviceCode = .error (.exit 1)) ∧
    (∀ page value e, page ∈ client.ListServicesPages.1 → value ∈ page →
      (getServicesMap.allowed allowedServices value.ServiceCode).1 = true →
      getQuotasMap client value.ServiceCode
        (getServicesMap.allowed allowedServices value.ServiceCode).2 = .ok (.error e) →
      getServicesMap client allowedServices = .error (.exit 1)) ∧
    ((∀ service allowedQuotas, ∃ m, getQuotasMap client service allowedQuotas = .ok (.ok m)) →
      ∃ res, getServicesMap client allowedServices = .ok res ∧
        ∀ e, client.ListServicesPages.2 = some e →
          res = .error ("Error while getting list of services: " ++ e)) := by
  refine ⟨?_, ?_, ?_, ?_⟩
  · intro serviceCode s hs
    simp [Runner.GetServiceName, hqs, deref, Quotas.GetService, hs, bind, Except.bind,
      serviceInfo.GetServiceName, pure, Except.pure]
  · intro serviceCode hs
    simp [Runner.GetServiceName, hqs, deref, Quotas.GetService, hs, bind, Except.bind,
      ExitErrorf]
  · intro page value e hpage hmem hal hq
    simp only [getServicesMap, bind, Except.bind]
    rw [servicesPages_exits client allowedServices _ [] page value e hpage hmem hal hq]
  · intro hq
    obtain ⟨m, hm⟩ := servicesPages_returns client allowedServices hq client.ListServicesPages.1 []
    simp only [getServicesMap, hm, bind, Except.bind]
    cases herr : client.ListServicesPages.2 with
    | none => exact ⟨_, rfl, fun e he => by cases he⟩
    | some e' =>
      refine ⟨_, rfl, ?_⟩
      intro e he
      injection he with he
      rw [he]

/-- Witness of C13, amended: the service `ec2` of the sample catalog, and the
sample account, whose quotas can all be fetched. -/
theorem C13_witness :
    (sampleRunner [] [] []).GetServiceName "ec2" =
      .ok "Amazon Elastic Compute Cloud (Amazon EC2)" ∧
    ∃ res, getServicesMap sampleClient none = .ok res ∧
      ∀ e, sampleClient.ListServicesPages.2 = some e →
        res = .error ("Error while getting list of services: " ++ e) :=
  ⟨(C13_exit_policy (sampleRunner [] [] []) sampleCatalog rfl sampleClient none).1 "ec2" _ rfl,
   (C13_exit_policy (sampleRunner [] [] []) sampleCatalog rfl sampleClient none).2.2.2
      (fun service allowedQuotas => by
        have hc : strings.Contains "NoSuchResourceException: not found"
            "NoSuchResourceException" = true := by decide
        cases h : isQuotaAllowed allowedQuotas "L-A" <;>
          simp [getQuotasMap, getQuotasMap.pages, getQuotasMap.page, sampleClient, h,
            getAppliedQuotaValue, hc, bind, Except.bind, pure, Except.pure])⟩

/-! ## Naming the failed source -/

/-- C18 fails on the code: when the CloudFormation source fails, the error of
getQuotaApiUsage names EC2, the source that answered, next to Cloudformation;
when the S3 source fails on its bucket listing, the error names S3 and, from
S3.GetUsage itself, Autoscaling. -/
theorem C18_wrong_source_named :
    sampleEnv.ec2GetUsage = .ok [("L-A", 92)] ∧
    (sampleRunner [] [] []).getQuotaApiUsage
        { sampleEnv with
          cfGetUsage := .error "Error while getting usage of Cloudformation quota: AccessDenied" } =
      .error ("Error while getting usage from API for EC2 quotas: " ++
        "Error while getting usage of Cloudformation quota: AccessDenied") ∧
    (s3.NewS3 "us-east-1" none).GetUsage
        { getUsageBuckets := .error "AccessDenied", getUsageAcessPoints := .ok 0 }
        s3.createUsageFuncMap =
      .ok (.error "Error while getting usage of Autoscaling quota: AccessDenied") ∧
    (sampleRunner [] [] []).getQuotaApiUsage
        { sampleEnv with
          s3GetUsage := .error "Error while getting usage of Autoscaling quota: AccessDenied" } =
      .error ("Error while getting usage from API for S3 quotas: " ++
        "Error while getting usage of Autoscaling quota: AccessDenied") := by
  refine ⟨rfl, rfl, by decide, rfl⟩

/-! ## Merging the usage maps -/

theorem GoMap.get?_eq_none_of_not_mem_keys {V : Type} (m : GoMap V) (k : String)
    (h : k ∉ m.keys) : m.get? k = none := by
  cases hg : m.get? k with
  | none => rfl
  | some v =>
    exact absurd ((GoMap.contains_iff_mem_keys m k).mp (by simp [GoMap.contains, hg])) h

theorem MergeMapsUniqueKeys.get?_addMap (res m : GoMap Int) (hwf : m.WF) (k : String) :
    (MergeMapsUniqueKeys.addMap res m).get? k =
      match m.get? k with
      | some v => some v
      | none => res.get? k := by
  unfold MergeMapsUniqueKeys.addMap
  induction m generalizing res with
  | nil => simp [GoMap.get?]
  | cons hd tl ih =>
    obtain ⟨k0, v0⟩ := hd
    have hwf' := hwf
    unfold GoMap.WF GoMap.keys at hwf'
    simp only [List.map_cons, List.nodup_cons] at hwf'
    rw [List.foldl_cons, ih _ hwf'.2]
    by_cases hk : k0 = k
    · subst hk
      have hn : GoMap.get? tl k0 = none := GoMap.get?_eq_none_of_not_mem_keys tl k0 hwf'.1
      simp [GoMap.get?, hn, GoMap.get?_set_self]
    · have hk' : k ≠ k0 := fun e => hk e.symm
      simp only [GoMap.get?, hk, if_false]
      cases GoMap.get? tl k with
      | some v => rfl
      | none => simp only; exact GoMap.get?_set_ne _ _ _ _ hk'

theorem MergeMapsUniqueKeys.WF_addMap (res m : GoMap Int) (h : res.WF) :
    (MergeMapsUniqueKeys.addMap res m).WF := by
  unfold MergeMapsUniqueKeys.addMap
  induction m generalizing res with
  | nil => exact h
  | cons hd tl ih => exact ih _ (GoMap.WF_set _ _ _ h)

theorem MergeMapsUniqueKeys.snoc (maps : List (GoMap Int)) (m : GoMap Int) :
    MergeMapsUniqueKeys (maps ++ [m]) =
      MergeMapsUniqueKeys.addMap (MergeMapsUniqueKeys maps) m := by
  simp [MergeMapsUniqueKeys, List.foldl_append]

theorem MergeMapsUniqueKeys.WF_result (maps : List (GoMap Int)) :
    (MergeMapsUniqueKeys maps).WF := by
  induction maps using List.reverseRecOn with
  | nil => simp [MergeMapsUniqueKeys, GoMap.WF, GoMap.keys]
  | append_singleton l m ih =>
    rw [MergeMapsUniqueKeys.snoc]
    exact MergeMapsUniqueKeys.WF_addMap _ _ ih

theorem MergeMapsUniqueKeys.get?_none (maps : List (GoMap Int)) (hwf : ∀ m ∈ maps, m.WF)
    (k : String) (h : ∀ m ∈ maps, k ∉ m.keys) : (MergeMapsUniqueKeys maps).get? k = none := by
  induction maps using List.reverseRecOn with
  | nil => rfl
  | append_singleton l m ih =>
    rw [MergeMapsUniqueKeys.snoc, MergeMapsUniqueKeys.get?_addMap _ _ (hwf m (by simp)),
      GoMap.get?_eq_none_of_not_mem_keys m k (h m (by simp))]
    exact ih (fun m' hm' => hwf m' (by simp [hm'])) (fun m' hm' => h m' (by simp [hm']))

theorem MergeMapsUniqueKeys.get?_last (pre post : List (GoMap Int)) (m : GoMap Int)
    (hwf : ∀ m' ∈ pre ++ m :: post, m'.WF) (k : String) (v : Int) (hm : m.get? k = some v)
    (hpost : ∀ m' ∈ post, k ∉ m'.keys) :
    (MergeMapsUniqueKeys (pre ++ m :: post)).get? k = some v := by
  induction post using List.reverseRecOn with
  | nil =>
    rw [MergeMapsUniqueKeys.snoc, MergeMapsUniqueKeys.get?_addMap _ _ (hwf m (by simp)), hm]
  | append_singleton l m' ih =>
    have heq : pre ++ m :: (l ++ [m']) = (pre ++ m :: l) ++ [m'] := by simp
    rw [heq, MergeMapsUniqueKeys.snoc,
      MergeMapsUniqueKeys.get?_addMap _ _ (hwf m' (by simp)),
      GoMap.get?_eq_none_of_not_mem_keys m' k (hpost m' (by simp))]
    exact ih (fun m'' hm'' => hwf m'' (by
        rcases List.mem_append.mp hm'' with h | h
        · exact List.mem_append_left _ h
        · rcases List.mem_cons.mp h with h | h
          · simp [h]
          · simp [h]))
      (fun m'' hm'' => hpost m'' (by simp [hm'']))

theorem exists_last_with_key (maps : List (GoMap Int)) (k : String)
    (h : ∃ m ∈ maps, k ∈ m.keys) :
    ∃ pre m' post, maps = pre ++ m' :: post ∧ k ∈ m'.keys ∧ ∀ m'' ∈ post, k ∉ m''.keys := by
  induction maps with
  | nil =>
    obtain ⟨m, hm, _⟩ := h
    cases hm
  | cons hd tl ih =>
    by_cases htl : ∃ m' ∈ tl, k ∈ m'.keys
    · obtain ⟨pre, m'', post, h1, h2, h3⟩ := ih htl
      exact ⟨hd :: pre, m'', post, by simp [h1], h2, h3⟩
    · obtain ⟨m, hm, hin⟩ := h
      have hhd : k ∈ hd.keys := by
        rcases List.mem_cons.mp hm with h | h
        · rw [← h]; exact hin
        · exact absurd ⟨m, h, hin⟩ htl
      exact ⟨[], hd, tl, rfl, hhd, fun m'' hm'' hin'' => htl ⟨m'', hm'', hin''⟩⟩

/-- C21: for input maps with distinct keys each, MergeMapsUniqueKeys returns a map
whose keys, each held once, are the keys of the inputs; a key carries the value
of the last input map, in argument order, that contains it; when the key sets of
the inputs are pairwise disjoint a key carries the value of the one map that
contains it. -/
theorem C21_MergeMapsUniqueKeys_last_wins (maps : List (GoMap Int))
    (hwf : ∀ m ∈ maps, m.WF) :
    (MergeMapsUniqueKeys maps).WF ∧
    (∀ k, k ∈ (MergeMapsUniqueKeys maps).keys ↔ ∃ m ∈ maps, k ∈ m.keys) ∧
    (∀ pre m post k v, maps = pre ++ m :: post → m.get? k = some v →
      (∀ m' ∈ post, k ∉ m'.keys) → (MergeMapsUniqueKeys maps).get? k = some v) ∧
    (List.Pairwise (fun a b => ∀ k, k ∈ a.keys → k ∉ b.keys) maps →
      ∀ m ∈ maps, ∀ k v, m.get? k = some v → (MergeMapsUniqueKeys maps).get? k = some v) := by
  have hlast : ∀ pre m post k v, maps = pre ++ m :: post → m.get? k = some v →
      (∀ m' ∈ post, k ∉ m'.keys) → (MergeMapsUniqueKeys maps).get? k = some v := by
    intro pre m post k v hmaps hm hpost
    subst hmaps
    exact MergeMapsUniqueKeys.get?_last pre post m hwf k v hm hpost
  refine ⟨MergeMapsUniqueKeys.WF_result maps, ?_, hlast, ?_⟩
  · intro k
    constructor
    · intro hk
      by_contra hno
      have hnone := MergeMapsUniqueKeys.get?_none maps hwf k
        (fun m hm hin => hno ⟨m, hm, hin⟩)
      obtain ⟨v, hv⟩ := GoMap.get?_isSome_of_mem_keys _ _ hk
      rw [hnone] at hv
      cases hv
    · rintro ⟨m, hm, hin⟩
      have hex := exists_last_with_key maps k ⟨m, hm, hin⟩
      obtain ⟨pre, m', post, h1, h2, h3⟩ := hex
      obtain ⟨v, hv⟩ := GoMap.get?_isSome_of_mem_keys _ _ h2
      have := hlast pre m' post k v h1 hv h3
      exact (GoMap.contains_iff_mem_keys _ k).mp (by simp [GoMap.contains, this])
  · intro hpw m hm k v hv
    obtain ⟨pre, post, hsplit⟩ := List.append_of_mem hm
    refine hlast pre m post k v hsplit hv ?_
    intro m' hm' hin'
    rw [hsplit] at hpw
    have hpw' := (List.pairwise_append.mp hpw).2.1
    have := (List.pairwise_cons.mp hpw').1 m' hm' k
      (List.mem_map_of_mem Prod.fst (GoMap.mem_of_get? m k v hv))
    exact this hin'

/-- Witness of C21: two maps that share the key `L-A`. -/
theorem C21_witness :
    (MergeMapsUniqueKeys [[("L-A", 1), ("L-B", 2)], [("L-A", 3)]]).WF ∧
    (MergeMapsUniqueKeys [[("L-A", 1), ("L-B", 2)], [("L-A", 3)]]).get? "L-A" = some 3 :=
  ⟨(C21_MergeMapsUniqueKeys_last_wins [[("L-A", 1), ("L-B", 2)], [("L-A", 3)]]
      (by decide)).1,
   (C21_MergeMapsUniqueKeys_last_wins [[("L-A", 1), ("L-B", 2)], [("L-A", 3)]]
      (by decide)).2.2.1 [[("L-A", 1), ("L-B", 2)]] [("L-A", 3)] [] "L-A" 3 rfl rfl
      (by simp)⟩

/-! ## Monotonicity and consistency of the Warnings -/

/-- C27: for a fixed limit > 0 and a fixed alarm registry, whatever the orders in
which it is enumerated, if the evaluation of a quota with usage1 produces a
Warning with Threshold t1 and usage1 <= usage2, the evaluation with usage2
produces a Warning with Threshold t2 >= t1. -/
theorem C27_threshold_monotone_in_usage (e1 e2 : GoMap Int) (hp : List.Perm e1 e2)
    (squ1 squ2 : ServiceQuotaUsage) (hv : squ2.Value = squ1.Value) (hl : 0 < squ1.Value)
    (hu : squ1.Usage ≤ squ2.Usage) (w1 : Warning)
    (h1 : CheckAlarms.quota e1 squ1 = some w1) :
    ∃ w2, CheckAlarms.quota e2 squ2 = some w2 ∧ w1.Threshold ≤ w2.Threshold ∧
      w2.Usage = squ2.Usage ∧ w2.Limit = squ1.Value := by
  obtain ⟨hpos, hm, _, _, pre, post, he, _⟩ := quota_eq_some _ _ _ h1
  have hmem : (w1.Name, w1.Threshold) ∈ e2 := hp.subset (by rw [he]; simp)
  have hm2 : Matched squ2 w1.Threshold := matched_mono squ1 squ2 _ hv hl hu hpos hm
  cases h2 : CheckAlarms.quota e2 squ2 with
  | none =>
    have := (quota_eq_none_iff _ _).mp h2 _ hmem hm2
    simp only at this
    omega
  | some w2 =>
    obtain ⟨_, _, hmax, _⟩ := quota_eq_some _ _ _ h2
    obtain ⟨_, _, _, _, hlim, hus⟩ := quota_fields _ _ _ h2
    exact ⟨w2, rfl, hmax _ hmem hm2, hus, by rw [hlim, hv]⟩

/-- Witness of C27: limit 100 with alarms low:50 and high:90; usage 60 gives
threshold 50 and usage 95 gives a threshold of at least 50. -/
theorem C27_witness :
    ∃ w2, CheckAlarms.quota [("high", 90), ("low", 50)]
        (sampleRecord "L-A" "Elastic IPs" 95 100) = some w2 ∧
      (50 : Int) ≤ w2.Threshold ∧ w2.Usage = 95 ∧ w2.Limit = 100 :=
  C27_threshold_monotone_in_usage [("low", 50), ("high", 90)] [("high", 90), ("low", 50)]
    (by decide) (sampleRecord "L-A" "Elastic IPs" 60 100)
    (sampleRecord "L-A" "Elastic IPs" 95 100) rfl (by decide) (by decide)
    (sampleWarning "L-A" "Elastic IPs" 60 100 "low" 50) (by decide!)

/-- Counterexample to C28: for usage 2^54 - 1 and limit 2^54 with the alarm
full:100, CheckAlarms returns a Warning whose Limit is positive and whose
Threshold times the Limit is greater than 100 times the Usage. -/
theorem C28_counterexample :
    ∃ w, (wideRunner (2 ^ 54) (2 ^ 54 - 1) [("full", 100)]).CheckAlarms [("L-W", 2 ^ 54 - 1)]
        (fun _ => [("full", 100)]) = .ok [w] ∧
      0 < w.Limit ∧ ¬ (w.Threshold * w.Limit ≤ w.Usage * 100) := by
  refine ⟨sampleWarning "L-W" "Snapshot storage" (2 ^ 54 - 1) (2 ^ 54) "full" 100, ?_, ?_, ?_⟩
  · decide!
  · decide
  · decide

/-- C28, amended: every Warning returned by CheckAlarms names a registered alarm
whose registered threshold is the Warning's Threshold, has a Threshold of at
least 1, carries the Usage, Limit, QuotaCode, QuotaName, ServiceCode and
ServiceName of a usage record of GetQuotasUsage, and its Threshold passes the
float64 test `percents >= float64(v)` on that record; when its Limit is positive,
|Usage|*100 <= 2^53 and Threshold*Limit <= 2^52, its Threshold times the Limit is
at most 100 times the Usage. -/
theorem C28_warning_consistent (r : Runner) (apiEnum : GoMap Int)
    (alarmEnum : Nat → GoMap Int) (hA : ∀ i, r.alarms.IsEnum (alarmEnum i))
    (ws : List Warning) (hrun : r.CheckAlarms apiEnum alarmEnum = .ok ws)
    (w : Warning) (hw : w ∈ ws) :
    (w.Name, w.Threshold) ∈ r.alarms ∧
    (r.alarms.WF → r.alarms.get? w.Name = some w.Threshold) ∧
    1 ≤ w.Threshold ∧
    (∃ squs, r.GetQuotasUsage apiEnum = .ok squs ∧ ∃ squ ∈ squs,
      w.Usage = squ.Usage ∧ w.Limit = squ.Value ∧ w.QuotaCode = squ.QuotaCode ∧
      w.QuotaName = squ.QuotaName ∧ w.ServiceCode = squ.ServiceCode ∧
      w.ServiceName = squ.ServiceName ∧ Matched squ w.Threshold) ∧
    (0 < w.Limit → |w.Usage| * 100 ≤ 2 ^ 53 → w.Threshold * w.Limit ≤ 2 ^ 52 →
      w.Threshold * w.Limit ≤ w.Usage * 100) := by
  obtain ⟨squs, hq, hws⟩ := CheckAlarms_eq_ok r apiEnum alarmEnum ws hrun
  subst hws
  obtain ⟨j, squ, hs, hquota⟩ := alarmLoop_mem alarmEnum 0 squs w hw
  obtain ⟨h1, h2, h3, h4, h5, h6⟩ := quota_fields _ _ _ hquota
  obtain ⟨hpos, hm, _, _, pre, post, he, _⟩ := quota_eq_some _ _ _ hquota
  have hmem : (w.Name, w.Threshold) ∈ r.alarms := (hA j).subset (by rw [he]; simp)
  refine ⟨hmem, fun hwf => GoMap.get?_of_mem _ _ _ hwf hmem, by omega,
    ⟨squs, hq, squ, hs, h6, h5, h4, h3, h1, h2, hm⟩, ?_⟩
  intro hlim hex hb
  rw [h5] at hlim hb ⊢
  rw [h6] at hex ⊢
  exact le_of_matched squ _ hlim hex (by omega) hb hm

/-- Witness of C28, amended: the Warning of the sample quota `L-A` at usage 92. -/
theorem C28_witness :
    ("high", (90 : Int)) ∈ [("low", (50 : Int)), ("high", 90)] ∧
    GoMap.get? [("low", (50 : Int)), ("high", 90)] "high" = some 90 ∧
    (1 : Int) ≤ 90 ∧
    (∃ squs, (sampleRunner [] [("L-A", 92)] [("low", 50), ("high", 90)]).GetQuotasUsage
        [("L-A", 92)] = .ok squs ∧ ∃ squ ∈ squs,
      (92 : Int) = squ.Usage ∧ (100 : Int) = squ.Value ∧ "L-A" = squ.QuotaCode ∧
      "Elastic IPs" = squ.QuotaName ∧ "ec2" = squ.ServiceCode ∧
      "Amazon Elastic Compute Cloud (Amazon EC2)" = squ.ServiceName ∧ Matched squ 90) ∧
    (90 : Int) * 100 ≤ 92 * 100 :=
  have h := C28_warning_consistent (sampleRunner [] [("L-A", 92)] [("low", 50), ("high", 90)])
    [("L-A", 92)] (fun _ => [("low", 50), ("high", 90)])
    (fun _ => show GoMap.IsEnum [("low", (50 : Int)), ("high", 90)]
      [("low", 50), ("high", 90)] by decide)
    [sampleWarning "L-A" "Elastic IPs" 92 100 "high" 90] (by decide!)
    (sampleWarning "L-A" "Elastic IPs" 92 100 "high" 90) (by decide)
  ⟨h.1, h.2.1 (by decide), h.2.2.1, h.2.2.2.1, h.2.2.2.2 (by decide) (by decide) (by decide)⟩

/-! ## GetQuotasUsage on a loaded Runner -/

theorem forall₂_mem_right {α β : Type} (R : α → β → Prop) (l : List α) (l' : List β)
    (h : List.Forall₂ R l l') (b : β) (hb : b ∈ l') : ∃ a ∈ l, R a b := by
  induction h with
  | nil => cases hb
  | cons hab _ ih =>
    rcases List.mem_cons.mp hb with heq | hmem
    · subst heq
      exact ⟨_, List.mem_cons_self _ _, hab⟩
    · obtain ⟨a, ha, hr⟩ := ih hmem
      exact ⟨a, List.mem_cons_of_mem _ ha, hr⟩

theorem GetQuotasUsage_pairs (r : Runner) (apiEnum : GoMap Int) (squs : List ServiceQuotaUsage)
    (h : r.GetQuotasUsage apiEnum = .ok squs) :
    squs.map (fun squ => (squ.QuotaCode, squ.Usage)) = apiEnum := by
  have h2 := GetQuotasUsage_eq_ok r apiEnum squs h
  clear h
  induction h2 with
  | nil => rfl
  | cons hb _ ih =>
    obtain ⟨h1, h2, _⟩ := body_eq_ok r _ _ _ hb
    simp only [List.map_cons, ih, h1, h2]

/-- Counterexample to C29: the quota `L-W` has the applied limit 1e19, which no
64-bit int holds; GetQuotasUsage returns a record whose Value is the least int,
not the limit truncated to an integer. -/
theorem C29_counterexample :
    (wideRunner (10 ^ 19) 7 []).Loaded ∧
    (wideRunner (10 ^ 19) 7 []).GetQuotasUsage [("L-W", 7)] =
      .ok [sampleRecord "L-W" "Snapshot storage" 7 (-9223372036854775808)] ∧
    F64.trunc (10 ^ 19) = 10 ^ 19 ∧ F64.maxInt < 10 ^ 19 := by
  refine ⟨⟨wideCatalog (10 ^ 19), [("L-W", "ec2")], [("L-W", 7)],
    MergeMaps [[], [("L-W", 7)]], [], rfl, rfl, rfl, rfl, rfl, ?_⟩, by decide!, by decide!,
    by decide⟩
  intro k hk
  simp only [GoMap.keys, List.map_cons, List.map_nil, List.mem_singleton] at hk
  subst hk
  exact ⟨"ec2", _, _, rfl, rfl, rfl⟩

/-- C29, amended: on a Runner none of whose pointers is nil, if every quota code
of the API-usage map is, through quotasServiceInfo, a quota of a service of the
catalog, GetQuotasUsage returns, with no nil dereference and no exit, one record
per entry of the API-usage map, in the order of the enumeration, each with the
entry's quota code and usage and with Value the conversion `int(...)` of the
applied limit of the quota in the catalog: the limit truncated toward zero when
that is a 64-bit int. -/
theorem C29_GetQuotasUsage_returns (r : Runner) (api apiEnum : GoMap Int) (hl : r.Loaded)
    (ha : r.quotaApiUsage = some api) (he : api.IsEnum apiEnum) :
    ∃ squs, r.GetQuotasUsage apiEnum = .ok squs ∧
      squs.map (fun squ => (squ.QuotaCode, squ.Usage)) = apiEnum ∧
      ∀ squ ∈ squs, ∃ qs info sc s q,
        r.quotas = some qs ∧ r.quotasServiceInfo = some info ∧
        info.get? squ.QuotaCode = some sc ∧ qs.servicesMap.get? sc = some s ∧
        s.serviceQuotas.get? squ.QuotaCode = some q ∧
        squ.Value = q.ValueApplied.toInt ∧
        (∀ x, q.ValueApplied = .fin x → F64.minInt ≤ F64.trunc x → F64.trunc x ≤ F64.maxInt →
          squ.Value = F64.trunc x) ∧
        squ.ServiceCode = sc ∧ squ.ServiceName = s.serviceName := by
  obtain ⟨squs, hq⟩ := GetQuotasUsage_of_loaded r api apiEnum hl ha he
  refine ⟨squs, hq, GetQuotasUsage_pairs r apiEnum squs hq, ?_⟩
  intro squ hs
  obtain ⟨kv, hkv, hb⟩ := forall₂_mem_right _ _ _ (GetQuotasUsage_eq_ok r apiEnum squs hq) squ hs
  obtain ⟨qs, info, api', qu, mu, h1, h2, h3, h4, h5, hcov⟩ := hl
  rw [ha] at h3
  injection h3 with h3
  subst h3
  obtain ⟨sc, s, q, h6, h7, h8⟩ := hcov kv.1 (List.mem_map_of_mem Prod.fst (he.subset hkv))
  have hbody := body_of_loaded r kv.1 kv.2 qs info qu mu sc s q h1 h2 h4 h5 h6 h7 h8
  rw [hbody] at hb
  injection hb with hb
  subst hb
  refine ⟨qs, info, sc, s, q, h1, h2, h6, h7, h8, rfl, ?_, rfl, rfl⟩
  intro x hx hlo hhi
  simp only [hx]
  exact F64.toInt_fin x hlo hhi

/-- Witness of C29, amended: the sample Runner with the quotas `L-A` and `L-Z` in
its API-usage map. -/
theorem C29_witness :
    ∃ squs, (sampleRunner [] [("L-A", 92), ("L-Z", 10)] []).GetQuotasUsage
        [("L-Z", 10), ("L-A", 92)] = .ok squs ∧
      squs.map (fun squ => (squ.QuotaCode, squ.Usage)) = [("L-Z", 10), ("L-A", 92)] ∧
      ∀ squ ∈ squs, ∃ qs info sc s q,
        (sampleRunner [] [("L-A", 92), ("L-Z", 10)] []).quotas = some qs ∧
        (sampleRunner [] [("L-A", 92), ("L-Z", 10)] []).quotasServiceInfo = some info ∧
        info.get? squ.QuotaCode = some sc ∧ qs.servicesMap.get? sc = some s ∧
        s.serviceQuotas.get? squ.QuotaCode = some q ∧
        squ.Value = q.ValueApplied.toInt ∧
        (∀ x, q.ValueApplied = .fin x → F64.minInt ≤ F64.trunc x → F64.trunc x ≤ F64.maxInt →
          squ.Value = F64.trunc x) ∧
        squ.ServiceCode = sc ∧ squ.ServiceName = s.serviceName :=
  C29_GetQuotasUsage_returns (sampleRunner [] [("L-A", 92), ("L-Z", 10)] [])
    [("L-A", 92), ("L-Z", 10)] [("L-Z", 10), ("L-A", 92)]
    ⟨sampleCatalog, [("L-A", "ec2"), ("L-Z", "ec2"), ("L-M", "ec2")],
      [("L-A", 92), ("L-Z", 10)], MergeMaps [[], [("L-A", 92), ("L-Z", 10)]], [],
      rfl, rfl, rfl, rfl, rfl,
      by
        intro k hk
        simp only [GoMap.keys, List.map_cons, List.map_nil, List.mem_cons,
          List.mem_singleton, List.not_mem_nil, or_false] at hk
        rcases hk with hk | hk
        · subst hk; exact ⟨"ec2", _, _, rfl, rfl, rfl⟩
        · subst hk; exact ⟨"ec2", _, _, rfl, rfl, rfl⟩⟩
    rfl (by decide)

/-! ## The loaded catalog -/

theorem GoMap.mem_set {V : Type} (m : GoMap V) (k : String) (v : V) (e : String × V)
    (h : e ∈ m.set k v) : e ∈ m ∨ e = (k, v) := by
  induction m with
  | nil =>
    simp only [GoMap.set, List.mem_singleton] at h
    exact Or.inr h
  | cons hd tl ih =>
    obtain ⟨k', v'⟩ := hd
    by_cases hk : k' = k
    · simp only [GoMap.set, hk, if_true, List.mem_cons] at h
      rcases h with h | h
      · exact Or.inr h
      · exact Or.inl (List.mem_cons_of_mem _ h)
    · simp only [GoMap.set, hk, if_false, List.mem_cons] at h
      rcases h with h | h
      · exact Or.inl (by rw [h]; exact List.mem_cons_self _ _)
      · rcases ih h with h' | h'
        · exact Or.inl (List.mem_cons_of_mem _ h')
        · exact Or.inr h'

theorem quotasPage_keyed (client : servicequotas.Client) (service : String)
    (allowedQuotas : Option (List String)) (l : List servicequotas.ServiceQuota)
    (acc m : GoMap serviceQuota)
    (hacc : acc.WF ∧ ∀ kq ∈ acc, kq.2.QuotaCode = kq.1)
    (h : getQuotasMap.page client service allowedQuotas l acc = .ok m) :
    m.WF ∧ ∀ kq ∈ m, kq.2.QuotaCode = kq.1 := by
  induction l generalizing acc with
  | nil =>
    simp only [getQuotasMap.page, pure, Except.pure, Except.ok.injEq] at h
    rw [← h]; exact hacc
  | cons value rest ih =>
    simp only [getQuotasMap.page] at h
    split at h
    · split at h
      · simp [ExitErrorf] at h
      · refine ih _ ⟨GoMap.WF_set _ _ _ hacc.1, ?_⟩ h
        intro kq hkq
        rcases GoMap.mem_set _ _ _ _ hkq with h' | h'
        · exact hacc.2 kq h'
        · rw [h']
    · exact ih _ hacc h

theorem quotasPages_keyed (client : servicequotas.Client) (service : String)
    (allowedQuotas : Option (List String)) (l : List (List servicequotas.ServiceQuota))
    (acc m : GoMap serviceQuota)
    (hacc : acc.WF ∧ ∀ kq ∈ acc, kq.2.QuotaCode = kq.1)
    (h : getQuotasMap.pages client service allowedQuotas l acc = .ok m) :
    m.WF ∧ ∀ kq ∈ m, kq.2.QuotaCode = kq.1 := by
  induction l generalizing acc with
  | nil =>
    simp only [getQuotasMap.pages, pure, Except.pure, Except.ok.injEq] at h
    rw [← h]; exact hacc
  | cons page rest ih =>
    simp only [getQuotasMap.pages, bind, Except.bind] at h
    split at h
    · cases h
    · rename_i m' hm'
      exact ih _ (quotasPage_keyed _ _ _ _ _ _ hacc hm') h

theorem getQuotasMap_keyed (client : servicequotas.Client) (service : String)
    (allowedQuotas : Option (List String)) (m : GoMap serviceQuota)
    (h : getQuotasMap client service allowedQuotas = .ok (.ok m)) :
    m.WF ∧ ∀ kq ∈ m, kq.2.QuotaCode = kq.1 := by
  simp only [getQuotasMap, bind, Except.bind] at h
  split at h
  · cases h
  · rename_i m' hm'
    split at h
    · simp [pure, Except.pure] at h
    · simp only [pure, Except.pure, Except.ok.injEq] at h
      rw [← h]
      exact quotasPages_keyed _ _ _ _ [] m'
        ⟨by simp [GoMap.WF, GoMap.keys], fun kq hkq => by cases hkq⟩ hm'

theorem servicesPage_keyed (client : servicequotas.Client) (allowedServices : AllowFilter)
    (l : List servicequotas.ServiceInfo) (acc m : GoMap serviceInfo)
    (hacc : acc.WF ∧ ∀ e ∈ acc, e.2.serviceQuotas.WF ∧
      ∀ kq ∈ e.2.serviceQuotas, kq.2.QuotaCode = kq.1)
    (h : getServicesMap.page client allowedServices l acc = .ok m) :
    m.WF ∧ ∀ e ∈ m, e.2.serviceQuotas.WF ∧ ∀ kq ∈ e.2.serviceQuotas, kq.2.QuotaCode = kq.1 := by
  induction l generalizing acc with
  | nil =>
    simp only [getServicesMap.page, pure, Except.pure, Except.ok.injEq] at h
    rw [← h]; exact hacc
  | cons value rest ih =>
    simp only [getServicesMap.page] at h
    split at h
    · simp only [bind, Except.bind] at h
      split at h
      · cases h
      · rename_i res hres
        split at h
        · simp [ExitErrorf] at h
        · rename_i sq
          refine ih _ ⟨GoMap.WF_set _ _ _ hacc.1, ?_⟩ h
          intro e he
          rcases GoMap.mem_set _ _ _ _ he with h' | h'
          · exact hacc.2 e h'
          · rw [h']
            exact getQuotasMap_keyed _ _ _ _ hres
    · exact ih _ hacc h

theorem servicesPages_keyed (client : servicequotas.Client) (allowedServices : AllowFilter)
    (l : List (List servicequotas.ServiceInfo)) (acc m : GoMap serviceInfo)
    (hacc : acc.WF ∧ ∀ e ∈ acc, e.2.serviceQuotas.WF ∧
      ∀ kq ∈ e.2.serviceQuotas, kq.2.QuotaCode = kq.1)
    (h : getServicesMap.pages client allowedServices l acc = .ok m) :
    m.WF ∧ ∀ e ∈ m, e.2.serviceQuotas.WF ∧ ∀ kq ∈ e.2.serviceQuotas, kq.2.QuotaCode = kq.1 := by
  induction l generalizing acc with
  | nil =>
    simp only [getServicesMap.pages, pure, Except.pure, Except.ok.injEq] at h
    rw [← h]; exact hacc
  | cons page rest ih =>
    simp only [getServicesMap.pages, bind, Except.bind] at h
    split at h
    · cases h
    · rename_i m' hm'
      exact ih _ (servicesPage_keyed _ _ _ _ _ hacc hm') h

theorem NewQuota_consistent (aws : Aws) (region : String) (allowedServices : AllowFilter)
    (qs : Quotas) (h : NewQuota aws region allowedServices = .ok (.ok qs)) : qs.Consistent := by
  unfold NewQuota at h
  split at h
  · simp [pure, Except.pure] at h
  · simp only [bind, Except.bind] at h
    split at h
    · cases h
    · rename_i res hres
      split at h
      · simp [pure, Except.pure] at h
      · rename_i servicesMap
        simp only [pure, Except.pure, Except.ok.injEq] at h
        rw [← h]
        simp only [getServicesMap, bind, Except.bind] at hres
        split at hres
        · cases hres
        · rename_i m' hm'
          split at hres
          · simp [pure, Except.pure] at hres
          · simp only [pure, Except.pure, Except.ok.injEq] at hres
            unfold Quotas.Consistent
            simp only
            rw [← hres]
            exact servicesPages_keyed _ _ _ [] m'
              ⟨by simp [GoMap.WF, GoMap.keys], fun e he => by cases he⟩ hm'

theorem NewQuota_sample : NewQuota sampleAws "us-east-1" none = .ok (.ok sampleLoaded) := by
  decide

/-- C23: on a Runner whose catalog NewQuota loaded, GetSupportedQuotasForService
returns an error exactly when the service code is not a key of the services map;
for a key it returns, without error, the list that Quotas.ListQuotasCodes gives,
which holds every quota code of the service once and nothing else. -/
theorem C23_GetSupportedQuotasForService (aws : Aws) (region : String)
    (allowedServices : AllowFilter) (qs : Quotas)
    (hnew : NewQuota aws region allowedServices = .ok (.ok qs)) (r : Runner)
    (hr : r.quotas = some qs) (serviceCode : String) :
    ((∃ e, r.GetSupportedQuotasForService serviceCode = .ok (.error e)) ↔
      serviceCode ∉ qs.servicesMap.keys) ∧
    (∀ s, qs.servicesMap.get? serviceCode = some s →
      ∃ l, r.GetSupportedQuotasForService serviceCode = .ok (.ok l) ∧
        qs.ListQuotasCodes serviceCode = .ok l ∧ l.Nodup ∧
        ∀ k, k ∈ l ↔ k ∈ s.serviceQuotas.keys) := by
  have hcons := NewQuota_consistent aws region allowedServices qs hnew
  constructor
  · cases hs : qs.servicesMap.get? serviceCode with
    | none =>
      have hnot : serviceCode ∉ qs.servicesMap.keys := by
        intro hin
        obtain ⟨v, hv⟩ := GoMap.get?_isSome_of_mem_keys _ _ hin
        rw [hs] at hv
        cases hv
      simp [Runner.GetSupportedQuotasForService, hr, deref, Quotas.ListQuotasCodes, hs, bind,
        Except.bind, pure, Except.pure, hnot]
    | some s =>
      have hin : serviceCode ∈ qs.servicesMap.keys :=
        List.mem_map_of_mem Prod.fst (GoMap.mem_of_get? _ _ _ hs)
      simp [Runner.GetSupportedQuotasForService, hr, deref, Quotas.ListQuotasCodes, hs, bind,
        Except.bind, pure, Except.pure, hin]
  · intro s hs
    refine ⟨s.serviceQuotas.keys, ?_, ?_, ?_, fun k => Iff.rfl⟩
    · simp [Runner.GetSupportedQuotasForService, hr, deref, Quotas.ListQuotasCodes, hs, bind,
        Except.bind, pure, Except.pure]
    · simp [Quotas.ListQuotasCodes, hs]
    · exact (hcons.2 (serviceCode, s) (GoMap.mem_of_get? _ _ _ hs)).1

/-- Witness of C23: the catalog loaded from the sample account, asked for `ec2`. -/
theorem C23_witness :
    ∃ l, Runner.GetSupportedQuotasForService
        { sampleRunner [] [] [] with quotas := some sampleLoaded } "ec2" = .ok (.ok l) ∧
      sampleLoaded.ListQuotasCodes "ec2" = .ok l ∧ l.Nodup ∧
      ∀ k, k ∈ l ↔ k ∈ GoMap.keys [("L-A", sampleQuota "L-A" "Elastic IPs" 100 none)] :=
  (C23_GetSupportedQuotasForService sampleAws "us-east-1" none sampleLoaded NewQuota_sample
    { sampleRunner [] [] [] with quotas := some sampleLoaded } rfl "ec2").2 _ rfl

/-- C24: on a Runner whose catalog NewQuota loaded, Runner.GetServiceQuota returns
an error exactly when the service code is not loaded or the quota code is not
among the quotas of the service; otherwise it returns a descriptor whose
QuotaCode is the requested code, whose DefaultValue is the default value of the
catalog and whose Value is the applied value of the catalog. -/
theorem C24_GetServiceQuota (aws : Aws) (region : String)
    (allowedServices : AllowFilter) (qs : Quotas)
    (hnew : NewQuota aws region allowedServices = .ok (.ok qs)) (r : Runner)
    (hr : r.quotas = some qs) (serviceCode quotaCode : String) :
    ((∃ e, r.GetServiceQuota serviceCode quotaCode = .ok (.error e)) ↔
      (qs.servicesMap.get? serviceCode = none ∨
        ∃ s, qs.servicesMap.get? serviceCode = some s ∧ s.serviceQuotas.get? quotaCode = none)) ∧
    (∀ s q, qs.servicesMap.get? serviceCode = some s →
      s.serviceQuotas.get? quotaCode = some q →
      ∃ sq, r.GetServiceQuota serviceCode quotaCode = .ok (.ok sq) ∧
        sq.QuotaCode = quotaCode ∧ sq.DefaultValue = q.Value ∧ sq.Value = q.ValueApplied ∧
        sq.QuotaName = q.QuotaName) := by
  have hcons := NewQuota_consistent aws region allowedServices qs hnew
  constructor
  · cases hs : qs.servicesMap.get? serviceCode with
    | none =>
      simp [Runner.GetServiceQuota, hr, deref, Quotas.GetService, hs, bind, Except.bind, pure,
        Except.pure]
    | some s =>
      cases hq : s.serviceQuotas.get? quotaCode with
      | none =>
        simp [Runner.GetServiceQuota, hr, deref, Quotas.GetService, hs, bind, Except.bind, pure,
          Except.pure, serviceInfo.GetServiceQuota, hq]
      | some q =>
        simp [Runner.GetServiceQuota, hr, deref, Quotas.GetService, hs, bind, Except.bind, pure,
          Except.pure, serviceInfo.GetServiceQuota, hq]
  · intro s q hs hq
    have hkey : q.QuotaCode = quotaCode :=
      (hcons.2 (serviceCode, s) (GoMap.mem_of_get? _ _ _ hs)).2 (quotaCode, q)
        (GoMap.mem_of_get? _ _ _ hq)
    refine ⟨ServiceQuota.mk q.Adjustable q.GlobalQuota q.QuotaName q.QuotaCode q.Value
      q.ValueApplied q.ServiceCode q.ServiceName, ?_, hkey, rfl, rfl, rfl⟩
    simp [Runner.GetServiceQuota, hr, deref, Quotas.GetService, hs, bind, Except.bind, pure,
      Except.pure, serviceInfo.GetServiceQuota, hq]

/-- Witness of C24: the quota `L-A` of `ec2` in the catalog loaded from the sample
account. -/
theorem C24_witness :
    ∃ sq, Runner.GetServiceQuota { sampleRunner [] [] [] with quotas := some sampleLoaded }
        "ec2" "L-A" = .ok (.ok sq) ∧
      sq.QuotaCode = "L-A" ∧
      sq.DefaultValue = (sampleQuota "L-A" "Elastic IPs" 100 none).Value ∧
      sq.Value = (sampleQuota "L-A" "Elastic IPs" 100 none).ValueApplied ∧
      sq.QuotaName = (sampleQuota "L-A" "Elastic IPs" 100 none).QuotaName :=
  (C24_GetServiceQuota sampleAws "us-east-1" none sampleLoaded NewQuota_sample
    { sampleRunner [] [] [] with quotas := some sampleLoaded } rfl "ec2" "L-A").2 _ _ rfl rfl

/-! ## IAM actions -/

theorem GetIam_loop_get?_other (allowedServices : AllowFilter) (l : GoMap (GoMap String))
    (acc : runner.iamActions) (k : String) (hk : k ∉ l.keys) :
    (runner.GetIam.loop allowedServices l acc).get? k = acc.get? k := by
  induction l generalizing acc with
  | nil => rfl
  | cons hd tl ih =>
    obtain ⟨service, quotas⟩ := hd
    have hne : k ≠ service := fun h => hk (by simp [GoMap.keys, h])
    have htl : k ∉ GoMap.keys tl := fun h => hk (by
      simp only [GoMap.keys, List.map_cons, List.mem_cons]
      exact Or.inr h)
    simp only [runner.GetIam.loop]
    split
    · rw [ih _ htl, GoMap.get?_set_ne _ _ _ _ hne]
    · exact ih _ htl

theorem GetIam_cloudwatch_entry (allowedServices : AllowFilter)
    (actionsEnum : GoMap (GoMap String)) (hk : "cloudwatch" ∉ actionsEnum.keys) :
    (runner.GetIam allowedServices actionsEnum).get? "cloudwatch" = some quotas.GetIam := by
  unfold runner.GetIam
  rw [GetIam_loop_get?_other allowedServices actionsEnum _ "cloudwatch" hk]
  exact GoMap.get?_set_self _ _ _

/-- C25 fails on the code: for a nil allow filter, and for a filter that allows
`s3` alone, the "cloudwatch" entry of the map of runner.GetIam is the action list
of quotas.GetIam, in which "cloudwatch:GetMetricStatistics", the one action of
cloudwatch.GetIam, does not occur. -/
theorem C25_cloudwatch_entry_is_quotas_actions :
    cloudwatch.GetIam = ["cloudwatch:GetMetricStatistics"] ∧
    (runner.GetIam none runner.GetIam.actionsWithQuotas).get? "cloudwatch" =
      some ["servicequotas:GetServiceQuota", "servicequotas:ListAWSDefaultServiceQuotas",
        "servicequotas:ListServices"] ∧
    (runner.GetIam (some [("s3", none)]) runner.GetIam.actionsWithQuotas).get? "cloudwatch" =
      some ["servicequotas:GetServiceQuota", "servicequotas:ListAWSDefaultServiceQuotas",
        "servicequotas:ListServices"] ∧
    "cloudwatch:GetMetricStatistics" ∉ quotas.GetIam := by
  refine ⟨rfl, ?_, ?_, by decide⟩
  · exact GetIam_cloudwatch_entry none _ (by decide)
  · exact GetIam_cloudwatch_entry _ _ (by decide)

/-! ## The metric source -/

theorem GetUsageFromMetric_nil (c : cloudwatch.CW) (api : cloudwatch.Api)
    (usageMetric : MetricInfo) (hloc : api.LoadLocation = none)
    (hdata : api.GetMetricStatistics usageMetric = .ok { Datapoints := none }) :
    c.GetUsageFromMetric api usageMetric = .ok (.ok 0) := by
  simp [cloudwatch.CW.GetUsageFromMetric, hloc, hdata, pure, Except.pure]

theorem GetUsageFromMetric_other_statistic (c : cloudwatch.CW) (api : cloudwatch.Api)
    (usageMetric : MetricInfo) (data : cloudwatch.GetMetricStatisticsOutput)
    (hloc : api.LoadLocation = none) (hdata : api.GetMetricStatistics usageMetric = .ok data)
    (h1 : usageMetric.MetricStatisticRecommendation ≠ "Sum")
    (h2 : usageMetric.MetricStatisticRecommendation ≠ "Maximum") :
    c.GetUsageFromMetric api usageMetric = .ok (.ok 0) := by
  cases hd : data.Datapoints <;>
    simp [cloudwatch.CW.GetUsageFromMetric, hloc, hdata, hd, h1, h2, pure, Except.pure]

theorem GetUsageFromMetric_first (c : cloudwatch.CW) (api : cloudwatch.Api)
    (usageMetric : MetricInfo) (d : cloudwatch.Datapoint) (rest : List cloudwatch.Datapoint)
    (hloc : api.LoadLocation = none)
    (hdata : api.GetMetricStatistics usageMetric = .ok { Datapoints := some (d :: rest) }) :
    (∀ x, usageMetric.MetricStatisticRecommendation = "Sum" → d.Sum = some x →
      c.GetUsageFromMetric api usageMetric = .ok (.ok x.toInt)) ∧
    (∀ x, usageMetric.MetricStatisticRecommendation = "Maximum" → d.Maximum = some x →
      c.GetUsageFromMetric api usageMetric = .ok (.ok x.toInt)) := by
  constructor
  · intro x hs hx
    simp [cloudwatch.CW.GetUsageFromMetric, hloc, hdata, hs, hx, cloudwatch.first, deref, bind,
      Except.bind, pure, Except.pure]
  · intro x hs hx
    have hne : usageMetric.MetricStatisticRecommendation ≠ "Sum" := by
      rw [hs]; decide
    simp [cloudwatch.CW.GetUsageFromMetric, hloc, hdata, hs, hx, cloudwatch.first, deref,
      bind, Except.bind, pure, Except.pure]

/-- Counterexample to C30: the first datapoint of a decoded response carries the
Maximum 1e19, which no 64-bit int holds; GetUsageFromMetric yields the least int,
not the Maximum truncated to an integer. -/
theorem C30_counterexample :
    cloudwatch.GetMetricStatisticsOutput.Decoded sampleMetric.MetricStatisticRecommendation
      { Datapoints := some [{ Sum := none, Maximum := some (.fin (10 ^ 19)) }] } ∧
    sampleMetric.MetricStatisticRecommendation = "Maximum" ∧
    (cloudwatch.NewCW "us-east-1").GetUsageFromMetric
        { LoadLocation := none
          GetMetricStatistics := fun _ =>
            .ok { Datapoints := some [{ Sum := none, Maximum := some (.fin (10 ^ 19)) }] } }
        sampleMetric = .ok (.ok (-9223372036854775808)) ∧
    F64.trunc (10 ^ 19) = 10 ^ 19 ∧ F64.maxInt < 10 ^ 19 := by
  refine ⟨⟨by simp, ?_⟩, rfl, by decide!, by decide!, by decide⟩
  intro ds hds d hd
  simp only [Option.some.injEq] at hds
  subst hds
  simp only [List.mem_singleton] at hd
  subst hd
  exact ⟨by decide, by simp⟩

/-- C30, amended: for every successful metric-statistics response as the SDK
decodes it (Datapoints nil or holding a datapoint, each datapoint carrying the
statistic asked for), GetUsageFromMetric returns, with no index out of range and
no nil dereference: it yields 0 when Datapoints is nil or when the recommended
statistic is neither "Sum" nor "Maximum", and otherwise the conversion
`int(...)` of the first datapoint's Sum or Maximum: that value truncated toward
zero when that is a 64-bit int. -/
theorem C30_GetUsageFromMetric_decoded (c : cloudwatch.CW) (api : cloudwatch.Api)
    (usageMetric : MetricInfo) (data : cloudwatch.GetMetricStatisticsOutput)
    (hloc : api.LoadLocation = none) (hdata : api.GetMetricStatistics usageMetric = .ok data)
    (hdec : data.Decoded usageMetric.MetricStatisticRecommendation) :
    ∃ n, c.GetUsageFromMetric api usageMetric = .ok (.ok n) ∧
      (data.Datapoints = none → n = 0) ∧
      (usageMetric.MetricStatisticRecommendation ≠ "Sum" →
        usageMetric.MetricStatisticRecommendation ≠ "Maximum" → n = 0) ∧
      ∀ d rest, data.Datapoints = some (d :: rest) →
        (usageMetric.MetricStatisticRecommendation = "Sum" →
          ∃ x, d.Sum = some x ∧ n = x.toInt ∧
            ∀ q, x = .fin q → F64.minInt ≤ F64.trunc q → F64.trunc q ≤ F64.maxInt →
              n = F64.trunc q) ∧
        (usageMetric.MetricStatisticRecommendation = "Maximum" →
          ∃ x, d.Maximum = some x ∧ n = x.toInt ∧
            ∀ q, x = .fin q → F64.minInt ≤ F64.trunc q → F64.trunc q ≤ F64.maxInt →
              n = F64.trunc q) := by
  obtain ⟨dp⟩ := data
  obtain ⟨hne, hstat⟩ := hdec
  cases dp with
  | none =>
    refine ⟨0, GetUsageFromMetric_nil c api usageMetric hloc hdata, fun _ => rfl,
      fun _ _ => rfl, ?_⟩
    intro d rest h
    cases h
  | some ds =>
    cases ds with
    | nil => exact absurd rfl hne
    | cons d0 rest0 =>
      have hd0 := hstat (d0 :: rest0) rfl d0 (List.mem_cons_self _ _)
      obtain ⟨hS, hM⟩ := GetUsageFromMetric_first c api usageMetric d0 rest0 hloc hdata
      by_cases h1 : usageMetric.MetricStatisticRecommendation = "Sum"
      · cases hx : d0.Sum with
        | none => exact absurd hx (hd0.1 h1)
        | some x =>
          refine ⟨x.toInt, hS x h1 hx, (fun h => by cases h), fun h => absurd h1 h, ?_⟩
          intro d rest h
          simp only [Option.some.injEq, List.cons.injEq] at h
          obtain ⟨hd, _⟩ := h
          subst hd
          refine ⟨fun _ => ⟨x, hx, rfl, ?_⟩, ?_⟩
          · intro q hq hlo hhi
            rw [hq]; exact F64.toInt_fin q hlo hhi
          · intro h2
            rw [h1] at h2
            exact absurd h2 (by decide)
      · by_cases h2 : usageMetric.MetricStatisticRecommendation = "Maximum"
        · cases hx : d0.Maximum with
          | none => exact absurd hx (hd0.2 h2)
          | some x =>
            refine ⟨x.toInt, hM x h2 hx, (fun h => by cases h), fun _ h => absurd h2 h, ?_⟩
            intro d rest h
            simp only [Option.some.injEq, List.cons.injEq] at h
            obtain ⟨hd, _⟩ := h
            subst hd
            refine ⟨fun h => absurd h h1, fun _ => ⟨x, hx, rfl, ?_⟩⟩
            intro q hq hlo hhi
            rw [hq]; exact F64.toInt_fin q hlo hhi
        · refine ⟨0, GetUsageFromMetric_other_statistic c api usageMetric _ hloc hdata h1 h2,
            (fun h => by cases h), fun _ _ => rfl, ?_⟩
          intro d rest _
          exact ⟨fun h => absurd h h1, fun h => absurd h h2⟩

/-- Witness of C30, amended: a response with one datapoint whose Maximum is 7.5
yields 7. -/
theorem C30_witness :
    ∃ n, (cloudwatch.NewCW "us-east-1").GetUsageFromMetric
        { LoadLocation := none
          GetMetricStatistics := fun _ =>
            .ok { Datapoints := some [{ Sum := none, Maximum := some (.fin (15 / 2)) }] } }
        sampleMetric = .ok (.ok n) ∧ n = F64.trunc (15 / 2) ∧ F64.trunc (15 / 2) = 7 :=
  have ⟨n, h1, _, _, h4⟩ := C30_GetUsageFromMetric_decoded (cloudwatch.NewCW "us-east-1")
    { LoadLocation := none
      GetMetricStatistics := fun _ =>
        .ok { Datapoints := some [{ Sum := none, Maximum := some (.fin (15 / 2)) }] } }
    sampleMetric { Datapoints := some [{ Sum := none, Maximum := some (.fin (15 / 2)) }] }
    rfl rfl
    ⟨by simp, by
      intro ds hds d hd
      simp only [Option.some.injEq] at hds
      subst hds
      simp only [List.mem_singleton] at hd
      subst hd
      exact ⟨by decide, by simp⟩⟩
  have ⟨x, hx, _, h5⟩ := (h4 _ _ rfl).2 rfl
  ⟨n, h1, h5 (15 / 2) (by simpa using hx.symm) (by decide!) (by decide!), by decide!⟩

/-! ## The merge inside getQuotaApiUsage -/

theorem GoMap.set_of_get? {V : Type} (m : GoMap V) (k : String) (v : V)
    (h : m.get? k = some v) : m.set k v = m := by
  induction m with
  | nil => simp [GoMap.get?] at h
  | cons hd tl ih =>
    obtain ⟨k', v'⟩ := hd
    by_cases hk : k' = k
    · simp only [GoMap.get?, hk, if_true, Option.some.injEq] at h
      simp [GoMap.set, hk, h]
    · simp only [GoMap.get?, hk, if_false] at h
      simp [GoMap.set, hk, ih h]

theorem foldl_set_fixed (R : GoMap Int) (l : GoMap Int)
    (h : ∀ kv ∈ l, R.get? kv.1 = some kv.2) :
    l.foldl (fun acc kv => acc.set kv.1 kv.2) R = R := by
  induction l with
  | nil => rfl
  | cons hd tl ih =>
    rw [List.foldl_cons, GoMap.set_of_get? R hd.1 hd.2 (h hd (List.mem_cons_self _ _))]
    exact ih (fun kv hkv => h kv (List.mem_cons_of_mem _ hkv))

theorem MergeMapsUniqueKeys.addMap_absorb (res m : GoMap Int) (hwf : m.WF) :
    MergeMapsUniqueKeys.addMap (MergeMapsUniqueKeys.addMap res m) m =
      MergeMapsUniqueKeys.addMap res m := by
  have hfix : ∀ kv ∈ m, (MergeMapsUniqueKeys.addMap res m).get? kv.1 = some kv.2 := by
    intro kv hkv
    rw [MergeMapsUniqueKeys.get?_addMap res m hwf, GoMap.get?_of_mem m kv.1 kv.2 hwf hkv]
  exact foldl_set_fixed _ m hfix

theorem service_step (r : Runner) (code label : String) (res : Except String (GoMap Int))
    (mp mp' : Option (GoMap Int)) (m' : GoMap Int) (cm am : List (GoMap Int))
    (hwf : ∀ m, res = .ok m → m.WF)
    (hstep : getQuotaApiUsage.service r code label res mp = .ok (mp', m'))
    (hinv : MergeMapsUniqueKeys cm = MergeMapsUniqueKeys am ∧
      ∀ m, mp = some m → MergeMapsUniqueKeys.addMap (MergeMapsUniqueKeys cm) m =
        MergeMapsUniqueKeys cm) :
    MergeMapsUniqueKeys (cm ++ [m']) =
        MergeMapsUniqueKeys (am ++ List.filterMap
          (fun s => if (r.checkIfServiceAllowed s.1).1 then s.2.toOption else none)
          [(code, res)]) ∧
      ∀ m, mp' = some m → MergeMapsUniqueKeys.addMap (MergeMapsUniqueKeys (cm ++ [m'])) m =
        MergeMapsUniqueKeys (cm ++ [m']) := by
  unfold getQuotaApiUsage.service at hstep
  by_cases hal : (r.checkIfServiceAllowed code).1 = true
  · simp only [hal, if_true] at hstep
    cases hres : res with
    | error e => simp [hres] at hstep
    | ok m =>
      simp only [hres, Except.ok.injEq, Prod.mk.injEq] at hstep
      obtain ⟨h1, h2⟩ := hstep
      subst h1; subst h2
      have hm := hwf m hres
      simp only [List.filterMap_cons, List.filterMap_nil, hal, if_true, Except.toOption]
      rw [MergeMapsUniqueKeys.snoc, MergeMapsUniqueKeys.snoc, hinv.1]
      refine ⟨rfl, ?_⟩
      intro m0 hm0
      injection hm0 with hm0
      subst hm0
      exact MergeMapsUniqueKeys.addMap_absorb _ _ hm
  · simp only [hal] at hstep
    simp only [Bool.false_eq_true, if_false, Except.ok.injEq, Prod.mk.injEq] at hstep
    obtain ⟨h1, h2⟩ := hstep
    subst h1; subst h2
    have hsame : MergeMapsUniqueKeys (cm ++ [mp.getD []]) = MergeMapsUniqueKeys cm := by
      rw [MergeMapsUniqueKeys.snoc]
      cases hmp : mp with
      | none => rfl
      | some m => exact hinv.2 m hmp
    simp only [List.filterMap_cons, List.filterMap_nil, hal, List.append_nil]
    rw [hsame]
    simp only [Bool.false_eq_true, if_false, List.append_nil]
    exact hinv

theorem service_returns (r : Runner) (code label : String) (res : Except String (GoMap Int))
    (mp : Option (GoMap Int)) (h : (r.checkIfServiceAllowed code).1 = true → ∃ m, res = .ok m) :
    ∃ p, getQuotaApiUsage.service r code label res mp = .ok p := by
  unfold getQuotaApiUsage.service
  by_cases hal : (r.checkIfServiceAllowed code).1 = true
  · obtain ⟨m, hm⟩ := h hal
    simp [hal, hm]
  · simp [hal]

theorem getQuotaApiUsage_eq_merge (r : Runner) (env : Env)
    (hwf : ∀ s ∈ env.sources, ∀ m, s.2 = .ok m → m.WF) (result : GoMap Int)
    (h : r.getQuotaApiUsage env = .ok result) :
    result = MergeMapsUniqueKeys (r.allowedUsageMaps env) := by
  rcases h1 : getQuotaApiUsage.service r "ec2" "EC2" env.ec2GetUsage none with e | ⟨mp1, m1⟩
  · simp [Runner.getQuotaApiUsage, h1, bind, Except.bind] at h
  rcases h2 : getQuotaApiUsage.service r "cloudformation" "EC2" env.cfGetUsage mp1 with e | ⟨mp2, m2⟩
  · simp [Runner.getQuotaApiUsage, h1, h2, bind, Except.bind] at h
  rcases h3 : getQuotaApiUsage.service r "elasticbeanstalk" "ElasticBeanstalk" env.elasticGetUsage mp2 with e | ⟨mp3, m3⟩
  · simp [Runner.getQuotaApiUsage, h1, h2, h3, bind, Except.bind] at h
  rcases h4 : getQuotaApiUsage.service r "autoscaling" "AutoScaling" env.asGetUsage mp3 with e | ⟨mp4, m4⟩
  · simp [Runner.getQuotaApiUsage, h1, h2, h3, h4, bind, Except.bind] at h
  rcases h5 : getQuotaApiUsage.service r "s3" "S3" env.s3GetUsage mp4 with e | ⟨mp5, m5⟩
  · simp [Runner.getQuotaApiUsage, h1, h2, h3, h4, h5, bind, Except.bind] at h
  rcases h6 : getQuotaApiUsage.service r "vpc" "VPC" env.vpcGetUsage mp5 with e | ⟨mp6, m6⟩
  · simp [Runner.getQuotaApiUsage, h1, h2, h3, h4, h5, h6, bind, Except.bind] at h
  rcases h7 : getQuotaApiUsage.service r "elasticloadbalancing" "ELB" env.elbGetUsage mp6 with e | ⟨mp7, m7⟩
  · simp [Runner.getQuotaApiUsage, h1, h2, h3, h4, h5, h6, h7, bind, Except.bind] at h
  rcases h8 : getQuotaApiUsage.service r "elasticfilesystem" "EFS" env.efsGetUsage mp7 with e | ⟨mp8, m8⟩
  · simp [Runner.getQuotaApiUsage, h1, h2, h3, h4, h5, h6, h7, h8, bind, Except.bind] at h
  simp only [Runner.getQuotaApiUsage, h1, h2, h3, h4, h5, h6, h7, h8, bind, Except.bind, pure, Except.pure,
    Except.ok.injEq] at h
  have i0 : MergeMapsUniqueKeys ([] : List (GoMap Int)) = MergeMapsUniqueKeys [] ∧
      ∀ m, (none : Option (GoMap Int)) = some m →
        MergeMapsUniqueKeys.addMap (MergeMapsUniqueKeys []) m = MergeMapsUniqueKeys [] :=
    ⟨rfl, fun m hm => by cases hm⟩
  have i1 := service_step r _ _ _ _ _ _ _ _
    (fun m hm => hwf ("ec2", env.ec2GetUsage) (by simp [Env.sources]) m hm) h1 i0
  have i2 := service_step r _ _ _ _ _ _ _ _
    (fun m hm => hwf ("cloudformation", env.cfGetUsage) (by simp [Env.sources]) m hm) h2 i1
  have i3 := service_step r _ _ _ _ _ _ _ _
    (fun m hm => hwf ("elasticbeanstalk", env.elasticGetUsage) (by simp [Env.sources]) m hm) h3 i2
  have i4 := service_step r _ _ _ _ _ _ _ _
    (fun m hm => hwf ("autoscaling", env.asGetUsage) (by simp [Env.sources]) m hm) h4 i3
  have i5 := service_step r _ _ _ _ _ _ _ _
    (fun m hm => hwf ("s3", env.s3GetUsage) (by simp [Env.sources]) m hm) h5 i4
  have i6 := service_step r _ _ _ _ _ _ _ _
    (fun m hm => hwf ("vpc", env.vpcGetUsage) (by simp [Env.sources]) m hm) h6 i5
  have i7 := service_step r _ _ _ _ _ _ _ _
    (fun m hm => hwf ("elasticloadbalancing", env.elbGetUsage) (by simp [Env.sources]) m hm) h7 i6
  have i8 := service_step r _ _ _ _ _ _ _ _
    (fun m hm => hwf ("elasticfilesystem", env.efsGetUsage) (by simp [Env.sources]) m hm) h8 i7
  rw [← h]
  have hfinal := i8.1
  simp only [List.nil_append, List.cons_append, ← List.filterMap_append] at hfinal
  exact hfinal

theorem getQuotaApiUsage_returns (r : Runner) (env : Env)
    (hok : ∀ s ∈ env.sources, (r.checkIfServiceAllowed s.1).1 = true → ∃ m, s.2 = .ok m) :
    ∃ result, r.getQuotaApiUsage env = .ok result := by
  obtain ⟨p1, h1⟩ := service_returns r "ec2" "EC2" env.ec2GetUsage none
    (hok ("ec2", env.ec2GetUsage) (by simp [Env.sources]))
  obtain ⟨p2, h2⟩ := service_returns r "cloudformation" "EC2" env.cfGetUsage p1.1
    (hok ("cloudformation", env.cfGetUsage) (by simp [Env.sources]))
  obtain ⟨p3, h3⟩ := service_returns r "elasticbeanstalk" "ElasticBeanstalk" env.elasticGetUsage p2.1
    (hok ("elasticbeanstalk", env.elasticGetUsage) (by simp [Env.sources]))
  obtain ⟨p4, h4⟩ := service_returns r "autoscaling" "AutoScaling" env.asGetUsage p3.1
    (hok ("autoscaling", env.asGetUsage) (by simp [Env.sources]))
  obtain ⟨p5, h5⟩ := service_returns r "s3" "S3" env.s3GetUsage p4.1
    (hok ("s3", env.s3GetUsage) (by simp [Env.sources]))
  obtain ⟨p6, h6⟩ := service_returns r "vpc" "VPC" env.vpcGetUsage p5.1
    (hok ("vpc", env.vpcGetUsage) (by simp [Env.sources]))
  obtain ⟨p7, h7⟩ := service_returns r "elasticloadbalancing" "ELB" env.elbGetUsage p6.1
    (hok ("elasticloadbalancing", env.elbGetUsage) (by simp [Env.sources]))
  obtain ⟨p8, h8⟩ := service_returns r "elasticfilesystem" "EFS" env.efsGetUsage p7.1
    (hok ("elasticfilesystem", env.efsGetUsage) (by simp [Env.sources]))
  simp only [Runner.getQuotaApiUsage, h1, h2, h3, h4, h5, h6, h7, h8, bind, Except.bind, pure, Except.pure]
  exact ⟨_, rfl⟩

/-- C26: when the map of every usage source has distinct keys, a successful
result of getQuotaApiUsage is MergeMapsUniqueKeys applied, in the order EC2,
CloudFormation, ElasticBeanstalk, AutoScaling, S3, VPC, ELB, EFS, to the usage
maps of the allowed services only, although a skipped service hands the map
that mapPointer still holds to the merge a second time; and getQuotaApiUsage
succeeds when every allowed source does. -/
theorem C26_merge_of_allowed_services (r : Runner) (env : Env)
    (hwf : ∀ s ∈ env.sources, ∀ m, s.2 = .ok m → m.WF) :
    (∀ result, r.getQuotaApiUsage env = .ok result →
      result = MergeMapsUniqueKeys (r.allowedUsageMaps env)) ∧
    ((∀ s ∈ env.sources, (r.checkIfServiceAllowed s.1).1 = true → ∃ m, s.2 = .ok m) →
      ∃ result, r.getQuotaApiUsage env = .ok result) :=
  ⟨getQuotaApiUsage_eq_merge r env hwf, getQuotaApiUsage_returns r env⟩

/-- Witness of C26: CloudFormation is not allowed, its block hands the EC2 map to
the merge again, and the result is the merge of the EC2 and S3 maps. -/
theorem C26_witness :
    (∀ result, filteredRunner.getQuotaApiUsage mixedEnv = .ok result →
      result = MergeMapsUniqueKeys (filteredRunner.allowedUsageMaps mixedEnv)) ∧
    ((∀ s ∈ mixedEnv.sources, (filteredRunner.checkIfServiceAllowed s.1).1 = true →
        ∃ m, s.2 = .ok m) →
      ∃ result, filteredRunner.getQuotaApiUsage mixedEnv = .ok result) ∧
    filteredRunner.allowedUsageMaps mixedEnv = [[("L-A", 92)], [("L-DC2B2D3D", 2)]] ∧
    filteredRunner.getQuotaApiUsage mixedEnv = .ok [("L-A", 92), ("L-DC2B2D3D", 2)] :=
  ⟨(C26_merge_of_allowed_services filteredRunner mixedEnv (by
      intro s hs m hm
      simp only [Runner.Env.sources, mixedEnv, sampleEnv, List.mem_cons, List.mem_singleton,
        List.not_mem_nil, or_false] at hs
      rcases hs with h | h | h | h | h | h | h | h <;> subst h <;>
        simp only [Except.ok.injEq] at hm <;> subst hm <;> decide)).1,
   (C26_merge_of_allowed_services filteredRunner mixedEnv (by
      intro s hs m hm
      simp only [Runner.Env.sources, mixedEnv, sampleEnv, List.mem_cons, List.mem_singleton,
        List.not_mem_nil, or_false] at hs
      rcases hs with h | h | h | h | h | h | h | h <;> subst h <;>
        simp only [Except.ok.injEq] at hm <;> subst hm <;> decide)).2,
   by decide, by decide⟩

/-! ## The merged view -/

theorem UpdateQuotasUsage_succeeded (r : Runner) (env : Env) (r' : Runner)
    (h : r.UpdateQuotasUsage env = .ok (r', none)) : r'.MergedView := by
  unfold Runner.UpdateQuotasUsage at h
  cases hm : r.getQuotaMetricUsage env with
  | error c => simp [hm, bind, Except.bind] at h
  | ok m =>
    cases m with
    | error e => simp [hm, bind, Except.bind, pure, Except.pure] at h
    | ok metric =>
      simp only [hm, bind, Except.bind, pure, Except.pure] at h
      cases ha : getQuotaApiUsage
          { r with quotaMetricUsage := (Except.ok metric : Except String (GoMap Int)).toOption }
          env with
      | error e => simp [ha] at h
      | ok api =>
        simp only [ha, Except.ok.injEq, Prod.mk.injEq, and_true] at h
        subst h
        exact ⟨metric, api, rfl, rfl, rfl⟩

theorem NewRunner_succeeded (aws : Aws) (sessions : Sessions) (env : Env) (region : String)
    (allowedServices : AllowFilter) (r : Runner)
    (h : NewRunner aws sessions env region allowedServices = .ok (.ok r)) : r.MergedView := by
  unfold NewRunner at h
  simp only [bind, Except.bind] at h
  split at h
  · cases h
  · split at h
    · simp [pure, Except.pure] at h
    · split at h
      · simp [pure, Except.pure] at h
      · split at h
        · simp [pure, Except.pure] at h
        · split at h
          · cases h
          · split at h
            · simp [pure, Except.pure] at h
            · split at h
              · simp [pure, Except.pure] at h
              · split at h
                · cases h
                · simp only [pure, Except.pure, Except.ok.injEq] at h
                  subst h
                  exact ⟨_, _, rfl, rfl, rfl⟩

/-- Counterexample to C22: the EC2 usage source fails during UpdateQuotasUsage;
after the call quotaMetricUsage holds the fresh value 7 for `L-M`, quotaApiUsage
is nil, and quotaUsage still holds the value 5 merged before the call. -/
theorem C22_counterexample :
    ∃ r' err, (sampleRunner [("L-M", 5)] [("L-A", 92)] []).UpdateQuotasUsage ec2DownEnv =
        .ok (r', some err) ∧
      r'.quotaMetricUsage = some [("L-M", 7)] ∧ r'.quotaApiUsage = none ∧
      r'.quotaUsage = some [("L-M", [5]), ("L-A", [92])] ∧ ¬ r'.MergedView := by
  refine ⟨_, _, rfl, rfl, rfl, rfl, ?_⟩
  rintro ⟨metric, api, _, ha, _⟩
  cases ha

/-- C22, amended: after a NewRunner that succeeds and after every UpdateQuotasUsage
call that succeeds, quotaUsage is utils.MergeMaps of the quotaMetricUsage and the
quotaApiUsage that the Runner then holds. -/
theorem C22_merged_view_after_success :
    (∀ aws sessions env region allowedServices r,
      NewRunner aws sessions env region allowedServices = .ok (.ok r) → r.MergedView) ∧
    (∀ (r : Runner) env r', r.UpdateQuotasUsage env = .ok (r', none) → r'.MergedView) :=
  ⟨NewRunner_succeeded, UpdateQuotasUsage_succeeded⟩

/-- Witness of C22, amended: NewRunner on the sample account, then a refresh that
succeeds. -/
theorem C22_witness :
    (∃ r, NewRunner sampleAws sampleSessions sampleEnv "us-east-1" none = .ok (.ok r) ∧
      r.MergedView) ∧
    (∃ r', (sampleRunner [("L-M", 5)] [] []).UpdateQuotasUsage sampleEnv = .ok (r', none) ∧
      r'.MergedView) :=
  ⟨⟨_, rfl, C22_merged_view_after_success.1 sampleAws sampleSessions sampleEnv "us-east-1"
      none _ rfl⟩,
   ⟨_, rfl, C22_merged_view_after_success.2 (sampleRunner [("L-M", 5)] [] []) sampleEnv _
      rfl⟩⟩

end AwsQuotas
